import Mathlib

/-!
Hodges5252/Hash: `custom::list` and `custom::unordered_set`

A shallow embedding of `src/list.h` and `src/hash.h`.

* Nodes live in an explicit heap; a pointer is `Option Nat` (`none` is `nullptr`).
* `size_t` is a natural number reduced modulo `2 ^ 64` on every increment and decrement.
* Every operation returns `Except Fault _`: undefined behaviour (null or dangling
  dereference), a failed `assert`, an escaping `std::bad_alloc`, and a thrown
  string literal are distinct faults.
-/

namespace custom

/-! ## Machine model -/

/-- One more than the largest `size_t` value. -/
def SIZE_MOD : Nat := 2 ^ 64

/-- The statement `n++` on a `size_t`. -/
def size_inc (n : Nat) : Nat := (n + 1) % SIZE_MOD

/-- The statement `n--` on a `size_t`. -/
def size_dec (n : Nat) : Nat := (n + (SIZE_MOD - 1)) % SIZE_MOD

/-- A `Node *`: `none` is `nullptr`, `some a` is the address `a`. -/
abbrev Ptr := Option Nat

/-- The class `list <T> :: Node`. -/
structure Node (α : Type) where
  data : α
  pNext : Ptr
  pPrev : Ptr
deriving DecidableEq

/-- The ways in which a call can fail to return normally. -/
inductive Fault where
  /-- Undefined behaviour: dereferencing or deleting a null or dangling pointer,
  or pointer arithmetic outside the bucket array. -/
  | undefined
  /-- One of the `assert`s of the source does not hold. -/
  | assertion
  /-- A `std::bad_alloc` leaves the function. -/
  | bad_alloc
  /-- The statement `throw "..."` with the given text. -/
  | thrown (msg : String)
  /-- The loop did not finish within the number of steps allotted by the model. -/
  | fuel
deriving DecidableEq

/-- The free store. Cell `a` is the node at address `a`; a cell holding `none`
has been released. Addresses are never handed out twice. -/
structure Heap (α : Type) where
  cells : List (Option (Node α))

/-- The node stored at an address, if that address is live. -/
def Heap.lookup {α : Type} (h : Heap α) (a : Nat) : Option (Node α) :=
  (h.cells[a]?).join

/-- Replace the node at an address. -/
def Heap.upd {α : Type} (h : Heap α) (a : Nat) (n : Node α) : Heap α :=
  ⟨h.cells.set a (some n)⟩

/-- Release the node at an address. -/
def Heap.release {α : Type} (h : Heap α) (a : Nat) : Heap α :=
  ⟨h.cells.set a none⟩

/-- Reading through a pointer (`*p` or `p->`). -/
def Heap.deref {α : Type} (h : Heap α) (p : Ptr) : Except Fault (Node α) :=
  match p with
  | none => .error .undefined
  | some a =>
    match h.lookup a with
    | some n => .ok n
    | none => .error .undefined

/-- The expression `new Node(data)`: the fresh node has both links null. The
store is exhausted once every non-null address has been handed out, and then
`new` throws (`none`). -/
def Heap.new {α : Type} (h : Heap α) (data : α) : Option (Heap α × Nat) :=
  if h.cells.length + 1 < SIZE_MOD then
    some (⟨h.cells ++ [some ⟨data, none, none⟩]⟩, h.cells.length)
  else none

/-- The statement `delete p`; deleting `nullptr` does nothing. -/
def Heap.delete {α : Type} (h : Heap α) (p : Ptr) : Except Fault (Heap α) :=
  match p with
  | none => .ok h
  | some a =>
    match h.lookup a with
    | some _ => .ok (h.release a)
    | none => .error .undefined

/-- The assignment `p->pNext = q`. -/
def Heap.setNext {α : Type} (h : Heap α) (p q : Ptr) : Except Fault (Heap α) :=
  match p with
  | none => .error .undefined
  | some a =>
    match h.lookup a with
    | some n => .ok (h.upd a { n with pNext := q })
    | none => .error .undefined

/-- The assignment `p->pPrev = q`. -/
def Heap.setPrev {α : Type} (h : Heap α) (p q : Ptr) : Except Fault (Heap α) :=
  match p with
  | none => .error .undefined
  | some a =>
    match h.lookup a with
    | some n => .ok (h.upd a { n with pPrev := q })
    | none => .error .undefined

/-- The assignment `p->data = x`. -/
def Heap.setData {α : Type} (h : Heap α) (p : Ptr) (x : α) : Except Fault (Heap α) :=
  match p with
  | none => .error .undefined
  | some a =>
    match h.lookup a with
    | some n => .ok (h.upd a { n with data := x })
    | none => .error .undefined

/-- The macro `assert`. -/
def cassert (b : Bool) : Except Fault Unit :=
  if b then .ok () else .error .assertion

/-! ## `custom::list` -/

/-- The member variables of `custom::list <T>`. -/
structure list where
  numElements : Nat
  pHead : Ptr
  pTail : Ptr
deriving DecidableEq

/-- The class `list <T> :: iterator`: one node pointer. -/
structure list.iterator where
  p : Ptr
deriving DecidableEq

/-- The message thrown when a node cannot be allocated. -/
def ALLOC_MSG : String := "ERROR: unable to allocate a new node for a list"

/-- The message thrown by `front` and `back` on an empty list. -/
def EMPTY_MSG : String := "ERROR: unable to access data from an empty list"

/-- The message thrown when a null list iterator is dereferenced. -/
def DEREF_MSG : String := "ERROR: Trying to dereference a nullptr pointer"

/-- The default constructor `list()`. -/
def list.mk0 : list := ⟨0, none, none⟩

/-- The method `list::begin`. -/
def list.begin (l : list) : list.iterator := ⟨l.pHead⟩

/-- The method `list::rbegin`. -/
def list.rbegin (l : list) : list.iterator := ⟨l.pTail⟩

/-- The method `list::end`; it reads no member of the list. -/
def list.end : list.iterator := ⟨none⟩

/-- The method `list::size`. -/
def list.size (l : list) : Nat := l.numElements

/-- The method `list::empty`. -/
def list.empty (l : list) : Bool := l.size == 0

/-- The operator `*it` of the list iterator. -/
def list.iterator.deref {α : Type} (h : Heap α) (it : list.iterator) : Except Fault α :=
  match it.p with
  | none => .error (.thrown DEREF_MSG)
  | some a => do
    let n ← h.deref (some a)
    pure n.data

/-- The operator `++it` of the list iterator (the postfix form leaves the
iterator in the same state). -/
def list.iterator.next {α : Type} (h : Heap α) (it : list.iterator) :
    Except Fault list.iterator :=
  match it.p with
  | none => .ok it
  | some a => do
    let n ← h.deref (some a)
    pure ⟨n.pNext⟩

/-- The operator `--it` of the list iterator. -/
def list.iterator.prev {α : Type} (h : Heap α) (it : list.iterator) :
    Except Fault list.iterator :=
  match it.p with
  | none => .ok it
  | some a => do
    let n ← h.deref (some a)
    pure ⟨n.pPrev⟩

/-- The method `list::push_back`. -/
def list.push_back {α : Type} (h : Heap α) (l : list) (data : α) :
    Except Fault (Heap α × list) :=
  match h.new data with
  | none => .error (.thrown ALLOC_MSG)
  | some (h1, a) => do
    let pNew : Ptr := some a
    let h2 ← h1.setPrev pNew l.pTail
    if l.pTail ≠ none then
      let h3 ← h2.setNext l.pTail pNew
      pure (h3, ⟨size_inc l.numElements, l.pHead, pNew⟩)
    else
      pure (h2, ⟨size_inc l.numElements, pNew, pNew⟩)

/-- The method `list::push_front`. -/
def list.push_front {α : Type} (h : Heap α) (l : list) (data : α) :
    Except Fault (Heap α × list) :=
  match h.new data with
  | none => .error (.thrown ALLOC_MSG)
  | some (h1, a) => do
    let pNew : Ptr := some a
    let h2 ← h1.setNext pNew l.pHead
    if l.pHead ≠ none then
      let h3 ← h2.setPrev l.pHead pNew
      pure (h3, ⟨size_inc l.numElements, pNew, l.pTail⟩)
    else
      pure (h2, ⟨size_inc l.numElements, pNew, pNew⟩)

/-- The method `list::pop_back`. -/
def list.pop_back {α : Type} (h : Heap α) (l : list) : Except Fault (Heap α × list) :=
  if l.numElements > 1 then do
    cassert (l.pTail != none)
    let t ← h.deref l.pTail
    let pTail := t.pPrev
    let t1 ← h.deref pTail
    let h1 ← h.delete t1.pNext
    let h2 ← h1.setNext pTail none
    pure (h2, ⟨size_dec l.numElements, l.pHead, pTail⟩)
  else if l.numElements = 1 then do
    cassert (l.pTail != none)
    cassert (l.pHead != none)
    cassert (l.pHead == l.pTail)
    let h1 ← h.delete l.pTail
    pure (h1, ⟨0, none, none⟩)
  else
    pure (h, l)

/-- The method `list::pop_front`. -/
def list.pop_front {α : Type} (h : Heap α) (l : list) : Except Fault (Heap α × list) :=
  if l.numElements > 1 then do
    cassert (l.pHead != none)
    let t ← h.deref l.pHead
    let pHead := t.pNext
    let t1 ← h.deref pHead
    let h1 ← h.delete t1.pPrev
    let h2 ← h1.setPrev pHead none
    pure (h2, ⟨size_dec l.numElements, pHead, l.pTail⟩)
  else if l.numElements = 1 then do
    cassert (l.pTail != none)
    cassert (l.pHead != none)
    cassert (l.pHead == l.pTail)
    let h1 ← h.delete l.pTail
    pure (h1, ⟨0, none, none⟩)
  else
    pure (h, l)

/-- The method `list::erase`. -/
def list.erase {α : Type} (h : Heap α) (l : list) (it : list.iterator) :
    Except Fault (Heap α × list × list.iterator) :=
  if it = list.end then
    pure (h, l, it)
  else do
    cassert (l.pHead != none && l.pTail != none)
    let n ← h.deref it.p
    let (h1, pTail, itNext) ←
      (if n.pNext ≠ none then do
        let h1 ← h.setPrev n.pNext n.pPrev
        pure (h1, l.pTail, (⟨n.pNext⟩ : list.iterator))
      else do
        let t ← h.deref l.pTail
        pure (h, t.pPrev, list.end) : Except Fault (Heap α × Ptr × list.iterator))
    let n1 ← h1.deref it.p
    let (h2, pHead) ←
      (if n1.pPrev ≠ none then do
        let h2 ← h1.setNext n1.pPrev n1.pNext
        pure (h2, l.pHead)
      else do
        let hd ← h1.deref l.pHead
        pure (h1, hd.pNext) : Except Fault (Heap α × Ptr))
    let h3 ← h2.delete it.p
    pure (h3, ⟨size_dec l.numElements, pHead, pTail⟩, itNext)

/-- The method `list::insert`. In the empty case `new` stands outside the `try`
block, so a `std::bad_alloc` escapes as it is. -/
def list.insert {α : Type} (h : Heap α) (l : list) (it : list.iterator) (data : α) :
    Except Fault (Heap α × list × list.iterator) :=
  if l.empty then do
    cassert (l.pTail == none && l.pHead == none)
    match h.new data with
    | none => .error .bad_alloc
    | some (h1, a) =>
      let l1 : list := ⟨1, some a, some a⟩
      pure (h1, l1, l1.begin)
  else do
    cassert (l.pTail != none && l.pHead != none)
    let hd ← h.deref l.pHead
    cassert (hd.pPrev == none)
    let tl ← h.deref l.pTail
    cassert (tl.pNext == none)
    match h.new data with
    | none => .error (.thrown ALLOC_MSG)
    | some (h1, a) =>
      let pNew : Ptr := some a
      if it = list.end then do
        let h2 ← h1.setNext l.pTail pNew
        let h3 ← h2.setPrev pNew l.pTail
        pure (h3, ⟨size_inc l.numElements, l.pHead, pNew⟩, ⟨pNew⟩)
      else do
        let n ← h1.deref it.p
        let h2 ← h1.setPrev pNew n.pPrev
        let h3 ← h2.setNext pNew it.p
        let nw ← h3.deref pNew
        let (h4, pHead) ←
          (if nw.pPrev ≠ none then do
            let h4 ← h3.setNext nw.pPrev pNew
            pure (h4, l.pHead)
          else
            pure (h3, pNew) : Except Fault (Heap α × Ptr))
        let nw1 ← h4.deref pNew
        let (h5, pTail) ←
          (if nw1.pNext ≠ none then do
            let h5 ← h4.setPrev nw1.pNext pNew
            pure (h5, l.pTail)
          else
            pure (h4, pNew) : Except Fault (Heap α × Ptr))
        pure (h5, ⟨size_inc l.numElements, pHead, pTail⟩, ⟨pNew⟩)

/-- The loop of `list::clear`: `for (p = pHead; p; p = pNext) { pNext = p->pNext; delete p; }`. -/
def list.clearLoop {α : Type} : Nat → Heap α → Ptr → Except Fault (Heap α)
  | _, h, none => .ok h
  | 0, _, some _ => .error .fuel
  | fuel + 1, h, some a => do
    let n ← h.deref (some a)
    let h1 ← h.delete (some a)
    list.clearLoop fuel h1 n.pNext

/-- The method `list::clear`. Every turn of the loop releases a live cell, so
the number of cells bounds the number of turns. -/
def list.clear {α : Type} (h : Heap α) (_l : list) : Except Fault (Heap α × list) := do
  let h1 ← list.clearLoop h.cells.length h _l.pHead
  pure (h1, ⟨0, none, none⟩)

/-- The address of the first cell, or the given pointer when there is none. -/
def firstPtr {α : Type} (cells : List (Nat × α)) (dflt : Ptr) : Ptr :=
  match cells with
  | [] => dflt
  | c :: _ => some c.1

/-- The address of the last cell, or the given pointer when there is none. -/
def lastPtr {α : Type} : List (Nat × α) → Ptr → Ptr
  | [], dflt => dflt
  | c :: rest, _ => lastPtr rest (some c.1)

/-- The cells form a doubly linked segment of the heap. -/
def seg {α : Type} (h : Heap α) : Ptr → List (Nat × α) → Ptr → Prop
  | _, [], _ => True
  | prev, c :: rest, nxt =>
    h.lookup c.1 = some ⟨c.2, firstPtr rest nxt, prev⟩ ∧ seg h (some c.1) rest nxt

/-- The list owns exactly the given cells, in this order. -/
def ListRep {α : Type} (h : Heap α) (l : list) (cells : List (Nat × α)) : Prop :=
  l.numElements = cells.length ∧ cells.length < SIZE_MOD ∧
  l.pHead = firstPtr cells none ∧ l.pTail = lastPtr cells none ∧
  seg h none cells none

/-- The assignment `*it = x` through a list iterator. -/
def list.iterator.assign {α : Type} (h : Heap α) (it : list.iterator) (x : α) :
    Except Fault (Heap α) :=
  match it.p with
  | none => .error (.thrown DEREF_MSG)
  | some a => h.setData (some a) x

/-- The first loop of the copy assignment:
`while (itRHS != rhs.end() && itLHS != end()) { *itLHS = *itRHS; ++itLHS; ++itRHS; }`. -/
def list.assignCopy {α : Type} :
    Nat → Heap α → list.iterator → list.iterator →
      Except Fault (Heap α × list.iterator × list.iterator)
  | 0, h, itRHS, itLHS =>
    if itRHS ≠ list.end ∧ itLHS ≠ list.end then .error .fuel else .ok (h, itRHS, itLHS)
  | fuel + 1, h, itRHS, itLHS =>
    if itRHS ≠ list.end ∧ itLHS ≠ list.end then do
      let x ← itRHS.deref h
      let h1 ← itLHS.assign h x
      let itLHS1 ← itLHS.next h1
      let itRHS1 ← itRHS.next h1
      list.assignCopy fuel h1 itRHS1 itLHS1
    else .ok (h, itRHS, itLHS)

/-- The loop `for (; itRHS != rhs.end(); ++itRHS) push_back(*itRHS);`. -/
def list.assignPush {α : Type} :
    Nat → Heap α → list → list.iterator → Except Fault (Heap α × list)
  | 0, h, l, itRHS => if itRHS ≠ list.end then .error .fuel else .ok (h, l)
  | fuel + 1, h, l, itRHS =>
    if itRHS ≠ list.end then do
      let x ← itRHS.deref h
      let (h1, l1) ← list.push_back h l x
      let itRHS1 ← itRHS.next h1
      list.assignPush fuel h1 l1 itRHS1
    else .ok (h, l)

/-- The loop `for (p = itLHS.p; p; p = pNext) { pNext = p->pNext; delete p; numElements--; }`;
the second component is `numElements`. -/
def list.assignTrim {α : Type} : Nat → Heap α → Nat → Ptr → Except Fault (Heap α × Nat)
  | _, h, n, none => .ok (h, n)
  | 0, _, _, some _ => .error .fuel
  | fuel + 1, h, n, some a => do
    let nd ← h.deref (some a)
    let h1 ← h.delete (some a)
    list.assignTrim fuel h1 (size_dec n) nd.pNext

/-- The copy assignment `list::operator = (list & rhs)`, for `*this` being `lhs`.
The members of `rhs` are read before any member of `*this` is written, so the
same function describes the self-assignment. No loop can take more turns
than the heap has cells unless it runs forever. -/
def list.assign {α : Type} (h : Heap α) (lhs rhs : list) : Except Fault (Heap α × list) := do
  let (h1, itRHS, itLHS) ← list.assignCopy h.cells.length h rhs.begin lhs.begin
  if itRHS ≠ list.end then
    list.assignPush h1.cells.length h1 lhs itRHS
  else if rhs.empty then
    list.clear h1 lhs
  else if itLHS ≠ list.end then do
    let p := itLHS.p
    cassert (p != none)
    let nd ← h1.deref p
    let pTail := nd.pPrev
    let _pNext := nd.pNext
    let (h2, n) ← list.assignTrim h1.cells.length h1 lhs.numElements p
    let h3 ← h2.setNext pTail none
    pure (h3, ⟨n, lhs.pHead, pTail⟩)
  else
    pure (h1, lhs)

/-- The addresses met from a pointer by following `pNext` up to `nullptr`;
`none` when a dead cell is met or more nodes than the fuel allows. -/
def list.forward {α : Type} : Nat → Heap α → Ptr → Option (List Nat)
  | _, _, none => some []
  | 0, _, some _ => none
  | fuel + 1, h, some a =>
    match h.lookup a with
    | none => none
    | some nd => (list.forward fuel h nd.pNext).map (fun as => a :: as)

/-- The addresses met from a pointer by following `pPrev` up to `nullptr`. -/
def list.backward {α : Type} : Nat → Heap α → Ptr → Option (List Nat)
  | _, _, none => some []
  | 0, _, some _ => none
  | fuel + 1, h, some a =>
    match h.lookup a with
    | none => none
    | some nd => (list.backward fuel h nd.pPrev).map (fun as => a :: as)

/-- List well-formedness: the chain from `pHead` by `pNext` ends at `nullptr`
after exactly `numElements` nodes, and the chain from `pTail` by `pPrev` is the
same chain walked the other way round. It follows that `numElements == 0` iff
`pHead == pTail == nullptr`, that `pHead->pPrev` and `pTail->pNext` are null
and that `n->pNext->pPrev == n` and `n->pPrev->pNext == n` on every link. -/
def list.wellFormed {α : Type} (h : Heap α) (l : list) : Bool :=
  decide (l.numElements < SIZE_MOD) &&
  match list.forward l.numElements h l.pHead, list.backward l.numElements h l.pTail with
  | some f, some b => f.length == l.numElements && b == f.reverse
  | _, _ => false

/-- The values of the list in forward order (empty when the chain is broken). -/
def list.toList {α : Type} (h : Heap α) (l : list) : List α :=
  match list.forward l.numElements h l.pHead with
  | none => []
  | some f => f.filterMap (fun a => (h.lookup a).map Node.data)

/-! ## `custom::unordered_set` -/

/-- The member variables of `custom::unordered_set <T>`: exactly ten buckets
and the element counter. -/
structure unordered_set where
  buckets : Fin 10 → list
  numElements : Nat

/-- The class `unordered_set <T> :: iterator`. A `list <T> *` into the bucket
array of the set is `buckets + i` with `0 ≤ i ≤ 10`, kept as `some i`; `none` is
`nullptr`. -/
structure unordered_set.iterator where
  pBucket : Option Nat
  pBucketEnd : Option Nat
  itList : list.iterator
deriving DecidableEq

/-- The default constructor `unordered_set()`. -/
def unordered_set.mk0 : unordered_set := ⟨fun _ => list.mk0, 0⟩

/-- The default constructor `iterator()` of the set iterator. -/
def unordered_set.iterator.mk0 : unordered_set.iterator := ⟨none, none, ⟨none⟩⟩

/-- The operator `==` of the set iterator. -/
def unordered_set.iterator.eq (it rhs : unordered_set.iterator) : Bool :=
  it.pBucket == rhs.pBucket && it.pBucketEnd == rhs.pBucketEnd && it.itList == rhs.itList

/-- The operator `!=` of the set iterator. -/
def unordered_set.iterator.ne (it rhs : unordered_set.iterator) : Bool :=
  it.pBucket != rhs.pBucket || it.pBucketEnd != rhs.pBucketEnd || it.itList != rhs.itList

/-- The operator `*it` of the set iterator. -/
def unordered_set.iterator.deref {α : Type} (h : Heap α) (it : unordered_set.iterator) :
    Except Fault α :=
  it.itList.deref h

/-- The statement `pBucket++` on a pointer into the bucket array; leaving the
range `buckets .. buckets + 10` or moving `nullptr` is undefined. -/
def bucketPtrInc (p : Option Nat) : Except Fault (Option Nat) :=
  match p with
  | none => .error .undefined
  | some i => if i < 10 then .ok (some (i + 1)) else .error .undefined

/-- The prefix operator `++it` of the set iterator. -/
def unordered_set.iterator.next {α : Type} (h : Heap α) (it : unordered_set.iterator) :
    Except Fault unordered_set.iterator := do
  let itList ← (if it.itList.p ≠ none then it.itList.next h else pure it.itList)
  if itList.p = none ∧ it.pBucket ≠ it.pBucketEnd then
    let pBucket ← bucketPtrInc it.pBucket
    pure ⟨pBucket, it.pBucketEnd, itList⟩
  else
    pure ⟨it.pBucket, it.pBucketEnd, itList⟩

/-- The postfix operator `it++` of the set iterator: the new state of the
iterator and the returned value (`return *this`, read after the advance). -/
def unordered_set.iterator.postInc {α : Type} (h : Heap α) (it : unordered_set.iterator) :
    Except Fault (unordered_set.iterator × unordered_set.iterator) := do
  let old := it.itList
  let itList ← it.itList.next h
  if old = ⟨none⟩ then
    if it.pBucket ≠ it.pBucketEnd then
      let pBucket ← bucketPtrInc it.pBucket
      pure (⟨pBucket, it.pBucketEnd, itList⟩, ⟨pBucket, it.pBucketEnd, itList⟩)
    else
      pure (⟨it.pBucket, it.pBucketEnd, itList⟩, ⟨it.pBucket, it.pBucketEnd, itList⟩)
  else
    pure (⟨it.pBucket, it.pBucketEnd, itList⟩, ⟨it.pBucket, it.pBucketEnd, itList⟩)

/-- The loop of `unordered_set::begin`, with `k` buckets left from index `i`. -/
def unordered_set.beginLoop (s : unordered_set) : Nat → Nat → unordered_set.iterator
  | 0, _ => unordered_set.iterator.mk0
  | k + 1, i =>
    if hi : i < 10 then
      if !(s.buckets ⟨i, hi⟩).empty then
        ⟨some i, some 10, (s.buckets ⟨i, hi⟩).begin⟩
      else
        unordered_set.beginLoop s k (i + 1)
    else unordered_set.iterator.mk0

/-- The method `unordered_set::begin()`. -/
def unordered_set.begin (s : unordered_set) : unordered_set.iterator :=
  s.beginLoop 10 0

/-- The method `unordered_set::end()`. The expression `buckets[10].end()` reads
no member of the list it names and yields the null list iterator. -/
def unordered_set.end (_s : unordered_set) : unordered_set.iterator :=
  ⟨some 10, some 10, list.end⟩

/-- The method `unordered_set::bucket`, whose body is `return numElements = t;`.
The conversion from `T` to `size_t` is a parameter. -/
def unordered_set.bucket {α : Type} (toSizeT : α → Nat) (s : unordered_set) (t : α) :
    unordered_set × Nat :=
  ({ s with numElements := toSizeT t }, toSizeT t)

/-- The conversion from `int` to `size_t`. -/
def int_to_size_t (t : Int) : Nat := (t % (SIZE_MOD : Int)).toNat

/-- The method `unordered_set::find`, whose body is `return iterator();`. -/
def unordered_set.find {α : Type} (h : Heap α) (s : unordered_set) (_t : α) :
    Heap α × unordered_set × unordered_set.iterator :=
  (h, s, unordered_set.iterator.mk0)

/-- The method `unordered_set::insert`, whose body is
`return pair(iterator(), true);`. -/
def unordered_set.insert {α : Type} (h : Heap α) (s : unordered_set) (_t : α) :
    Heap α × unordered_set × (unordered_set.iterator × Bool) :=
  (h, s, (unordered_set.iterator.mk0, true))

/-- The method `unordered_set::erase`, whose body is `return iterator();`. -/
def unordered_set.erase {α : Type} (h : Heap α) (s : unordered_set) (_t : α) :
    Heap α × unordered_set × unordered_set.iterator :=
  (h, s, unordered_set.iterator.mk0)

/-- The loop of `unordered_set::clear`, with `k` buckets left from index `i`. -/
def unordered_set.clearLoop {α : Type} :
    Nat → Nat → Heap α → unordered_set → Except Fault (Heap α × unordered_set)
  | 0, _, h, s => .ok (h, s)
  | k + 1, i, h, s =>
    if hi : i < 10 then do
      let (h1, b) ← list.clear h (s.buckets ⟨i, hi⟩)
      unordered_set.clearLoop k (i + 1) h1
        { s with buckets := Function.update s.buckets ⟨i, hi⟩ b }
    else .ok (h, s)

/-- The method `unordered_set::clear`. -/
def unordered_set.clear {α : Type} (h : Heap α) (s : unordered_set) :
    Except Fault (Heap α × unordered_set) := do
  let (h1, s1) ← unordered_set.clearLoop 10 0 h s
  pure (h1, { s1 with numElements := 0 })

/-- The method `unordered_set::size`. -/
def unordered_set.size (s : unordered_set) : Nat := s.numElements

/-- The method `unordered_set::empty`. -/
def unordered_set.empty (s : unordered_set) : Bool := decide (s.numElements ≤ 0)

/-- The method `unordered_set::bucket_count`. -/
def unordered_set.bucket_count (_s : unordered_set) : Nat := 10

/-- The method `unordered_set::bucket_size`; an index outside the array is
undefined behaviour. -/
def unordered_set.bucket_size (s : unordered_set) (i : Nat) : Except Fault Nat :=
  if hi : i < 10 then .ok (s.buckets ⟨i, hi⟩).size else .error .undefined

/-- The values stored in bucket `i`, in order. -/
def unordered_set.bucketList {α : Type} (h : Heap α) (s : unordered_set) (i : Fin 10) :
    List α :=
  (s.buckets i).toList h

/-- The loop `for (it = s.begin(); it != s.end(); ++it) visit(*it)`, started at
`it`: the outcome of every dereference, in order. A dereference that throws
is recorded and the walk goes on. -/
def unordered_set.traverse {α : Type} (h : Heap α) (s : unordered_set) :
    Nat → unordered_set.iterator → Except Fault (List (Except Fault α))
  | 0, it => if it.ne s.end then .error .fuel else .ok []
  | k + 1, it =>
    if it.ne s.end then do
      let it1 ← it.next h
      let rest ← unordered_set.traverse h s k it1
      pure (it.deref h :: rest)
    else .ok []

/-- Every cell holds its value and points forward to the next cell. -/
def nextOK {α : Type} (h : Heap α) : List (Nat × α) → Ptr → Prop
  | [], _ => True
  | c :: rest, n =>
    (∃ nd, h.lookup c.1 = some nd ∧ nd.data = c.2 ∧ nd.pNext = firstPtr rest n) ∧
      nextOK h rest n

/-- Every cell points back to the cell before it. -/
def prevOK {α : Type} (h : Heap α) : Ptr → List (Nat × α) → Prop
  | _, [] => True
  | p, c :: rest => (∃ nd, h.lookup c.1 = some nd ∧ nd.pPrev = p) ∧ prevOK h (some c.1) rest

/-- The cells of the left list after the first loop of the copy assignment:
the leading cells carry the values of the right list. -/
def relabel {α : Type} : List (Nat × α) → List (Nat × α) → List (Nat × α)
  | c :: L, d :: R => (c.1, d.2) :: relabel L R
  | [], _ => []
  | c :: L, [] => c :: L

/-- The addresses of the nodes of the list, from head to tail (empty when
the chain is broken). An iterator designates a valid position when its
pointer is one of them. -/
def list.nodes {α : Type} (h : Heap α) (l : list) : List Nat :=
  (list.forward l.numElements h l.pHead).getD []

/-- A two-element list `7, 8` at the addresses `0` and `1`. -/
def sampleHeap : Heap Nat :=
  ⟨[some ⟨7, some 1, none⟩, some ⟨8, none, some 0⟩]⟩

/-- The list object owning the two nodes of `sampleHeap`. -/
def sampleList : list := ⟨2, some 0, some 1⟩

/-- The store with no node. -/
def emptyHeap : Heap Int := ⟨[]⟩

/-- Three nodes `3, 13, 23` chained at the addresses `0, 1, 2`. -/
def heap3 : Heap Int :=
  ⟨[some ⟨3, some 1, none⟩, some ⟨13, some 2, some 0⟩, some ⟨23, none, some 1⟩]⟩

/-- The set holding `3, 13, 23`, all in bucket 3 (with `bucket_index(x) = x mod 10`). -/
def set3 : unordered_set :=
  ⟨fun i => if i = 3 then ⟨3, some 0, some 2⟩ else list.mk0, 3⟩

/-- Two nodes `10` and `11`, each a list of its own. -/
def heap2 : Heap Int :=
  ⟨[some ⟨10, none, none⟩, some ⟨11, none, none⟩]⟩

/-- The set holding `10` in bucket 0 and `11` in bucket 1. -/
def set2 : unordered_set :=
  ⟨fun i => if i = 0 then ⟨1, some 0, some 0⟩ else if i = 1 then ⟨1, some 1, some 1⟩
    else list.mk0, 2⟩

/-- The set holding only `10`, in bucket 0 (over `heap2`, whose second node it
does not own). -/
def set1 : unordered_set :=
  ⟨fun i => if i = 0 then ⟨1, some 0, some 0⟩ else list.mk0, 1⟩

/-- The move constructor `list(list && rhs)`: the new list and the source after
the call. -/
def list.moveCtor (rhs : list) : list × list :=
  (⟨rhs.numElements, rhs.pHead, rhs.pTail⟩, ⟨0, none, none⟩)

/-- The free function `swap(list &, list &)`: the two lists after the call. -/
def list.swap (lhs rhs : list) : list × list :=
  (⟨rhs.numElements, rhs.pHead, rhs.pTail⟩, ⟨lhs.numElements, lhs.pHead, lhs.pTail⟩)

/-- The move assignment `list::operator = (list && rhs)`, whose body is
`clear(); swap(*this, rhs);`: the heap, `*this` and `rhs` after the call. -/
def list.moveAssign {α : Type} (h : Heap α) (lhs rhs : list) :
    Except Fault (Heap α × list × list) := do
  let (h1, l1) ← list.clear h lhs
  pure (h1, (list.swap l1 rhs).1, (list.swap l1 rhs).2)

/-- The indices of the bucket array in the order of `for (int i = 0; i < 10; i++)`. -/
def bucketIndices : List (Fin 10) := [0, 1, 2, 3, 4, 5, 6, 7, 8, 9]

/-- The loop `for (int i = 0; i < 10; i++) dst[i] = src[i];` over two bucket
arrays, for the indices still to be visited. -/
def assignBuckets {α : Type} :
    List (Fin 10) → Heap α → (Fin 10 → list) → (Fin 10 → list) →
      Except Fault (Heap α × (Fin 10 → list))
  | [], h, dst, _ => .ok (h, dst)
  | i :: rest, h, dst, src => do
    let (h1, l1) ← list.assign h (dst i) (src i)
    assignBuckets rest h1 (Function.update dst i l1) src

/-- The destruction of a bucket array, one `~list()` (that is `clear()`) per
element, for the indices still to be visited. -/
def destroyBuckets {α : Type} :
    List (Fin 10) → Heap α → (Fin 10 → list) → Except Fault (Heap α)
  | [], h, _ => .ok h
  | i :: rest, h, bs => do
    let (h1, _) ← list.clear h (bs i)
    destroyBuckets rest h1 bs

/-- The copy constructor `unordered_set(unordered_set & rhs)`. -/
def unordered_set.copyCtor {α : Type} (h : Heap α) (rhs : unordered_set) :
    Except Fault (Heap α × unordered_set) := do
  let (h1, bs) ← assignBuckets bucketIndices h (fun _ => list.mk0) rhs.buckets
  pure (h1, ⟨bs, rhs.numElements⟩)

/-- The move constructor `unordered_set(unordered_set && rhs)`: every bucket is
move-constructed from the bucket of `rhs`, and the counter is copied (moving
a `size_t` leaves the source as it is). The new set and `rhs` after the call. -/
def unordered_set.moveCtor (rhs : unordered_set) : unordered_set × unordered_set :=
  (⟨fun i => (list.moveCtor (rhs.buckets i)).1, rhs.numElements⟩,
   ⟨fun i => (list.moveCtor (rhs.buckets i)).2, rhs.numElements⟩)

/-- The copy assignment `unordered_set::operator = (unordered_set & rhs)`. -/
def unordered_set.assign {α : Type} (h : Heap α) (s rhs : unordered_set) :
    Except Fault (Heap α × unordered_set) := do
  let (h1, bs) ← assignBuckets bucketIndices h s.buckets rhs.buckets
  pure (h1, ⟨bs, rhs.numElements⟩)

/-- The move assignment `unordered_set::operator = (unordered_set && rhs)`. Its
body is `buckets[i] = rhs.buckets[i]` for every `i`, where `rhs.buckets[i]` is an
lvalue, so every bucket is copy-assigned; then the counter is copied. The
heap, `*this` and `rhs` after the call. -/
def unordered_set.moveAssign {α : Type} (h : Heap α) (s rhs : unordered_set) :
    Except Fault (Heap α × unordered_set × unordered_set) := do
  let (h1, bs) ← assignBuckets bucketIndices h s.buckets rhs.buckets
  pure (h1, ⟨bs, rhs.numElements⟩, rhs)

/-- The member function `unordered_set::swap`: three copying loops through
`tempBuckets`, the exchange of the counters, and the destruction of
`tempBuckets` (last element first) on leaving the function. The heap, `*this`
and `rhs` after the call. -/
def unordered_set.swap {α : Type} (h : Heap α) (s rhs : unordered_set) :
    Except Fault (Heap α × unordered_set × unordered_set) := do
  let (h1, tempBuckets) ← assignBuckets bucketIndices h (fun _ => list.mk0) s.buckets
  let (h2, bs) ← assignBuckets bucketIndices h1 s.buckets rhs.buckets
  let (h3, rbs) ← assignBuckets bucketIndices h2 rhs.buckets tempBuckets
  let temp := s.numElements
  let h4 ← destroyBuckets bucketIndices.reverse h3 tempBuckets
  pure (h4, ⟨bs, rhs.numElements⟩, ⟨rbs, temp⟩)

/-- The free function `swap(unordered_set &, unordered_set &)`: `std::swap` on
the counters, and `std::swap` on the bucket arrays, which exchanges the
elements pairwise with `swap(list &, list &)`. The two sets after the call. -/
def swap (lhs rhs : unordered_set) : unordered_set × unordered_set :=
  (⟨fun i => (list.swap (lhs.buckets i) (rhs.buckets i)).1, rhs.numElements⟩,
   ⟨fun i => (list.swap (lhs.buckets i) (rhs.buckets i)).2, lhs.numElements⟩)

/-- The sum of the sizes of the ten buckets. -/
def unordered_set.bucketSum (s : unordered_set) : Nat :=
  (bucketIndices.map (fun i => (s.buckets i).size)).sum

/-- Set well-formedness: every bucket is a well-formed list, no node belongs
to two buckets, and the counter is the sum of the bucket sizes. -/
def unordered_set.wellFormed {α : Type} (h : Heap α) (s : unordered_set) : Bool :=
  decide (∀ i, list.wellFormed h (s.buckets i) = true) &&
  decide (∀ i j, i ≠ j → ∀ x ∈ list.nodes h (s.buckets i), x ∉ list.nodes h (s.buckets j)) &&
  decide (s.numElements = s.bucketSum)

/-- No node belongs to a bucket of each of the two sets. -/
def unordered_set.apart {α : Type} (h : Heap α) (a b : unordered_set) : Bool :=
  decide (∀ i j, ∀ x ∈ list.nodes h (a.buckets i), x ∉ list.nodes h (b.buckets j))

/-! ## Element access, sequences of calls, traversal and the fill constructor -/

/-- The method `list::front`. It returns a reference into the head node; the
result is the heap and the list after the call together with the value
referred to. Its `assert(numElements >= 0)` holds for every `size_t`. -/
def list.front {α : Type} (h : Heap α) (l : list) : Except Fault (Heap α × list × α) :=
  if !l.empty then do
    let n ← h.deref l.pHead
    pure (h, l, n.data)
  else .error (.thrown EMPTY_MSG)

/-- The method `list::back`. -/
def list.back {α : Type} (h : Heap α) (l : list) : Except Fault (Heap α × list × α) :=
  if !l.empty then do
    let n ← h.deref l.pTail
    pure (h, l, n.data)
  else .error (.thrown EMPTY_MSG)

/-- A store with two lists: `1, 2, 3` at the addresses `0, 1, 2` and `5, 6`
at the addresses `3, 4`. -/
def pairHeap : Heap Nat :=
  ⟨[some ⟨1, some 1, none⟩, some ⟨2, some 2, some 0⟩, some ⟨3, none, some 1⟩,
    some ⟨5, some 4, none⟩, some ⟨6, none, some 3⟩]⟩

/-- The list `1, 2, 3` of `pairHeap`. -/
def pairLong : list := ⟨3, some 0, some 2⟩

/-- The list `5, 6` of `pairHeap`. -/
def pairShort : list := ⟨2, some 3, some 4⟩

/-- One call of `push_back`, `push_front`, `pop_back` or `pop_front`. -/
inductive EndOp (α : Type) where
  | push_back (v : α)
  | push_front (v : α)
  | pop_back
  | pop_front
deriving DecidableEq

/-- Whether the call is a push. -/
def EndOp.isPush {α : Type} : EndOp α → Bool
  | .push_back _ => true
  | .push_front _ => true
  | .pop_back => false
  | .pop_front => false

/-- The call made on a list. -/
def list.applyOp {α : Type} (h : Heap α) (l : list) : EndOp α → Except Fault (Heap α × list)
  | .push_back v => list.push_back h l v
  | .push_front v => list.push_front h l v
  | .pop_back => list.pop_back h l
  | .pop_front => list.pop_front h l

/-- The calls made on a list one after the other. -/
def list.run {α : Type} : List (EndOp α) → Heap α → list → Except Fault (Heap α × list)
  | [], h, l => .ok (h, l)
  | op :: ops, h, l => do
    let (h1, l1) ← list.applyOp h l op
    list.run ops h1 l1

/-- The number of pushes in a sequence of calls. -/
def pushes {α : Type} : List (EndOp α) → Nat
  | [] => 0
  | op :: ops => (if op.isPush then 1 else 0) + pushes ops

/-- The number of pops in a sequence of calls. -/
def pops {α : Type} : List (EndOp α) → Nat
  | [] => 0
  | op :: ops => (if op.isPush then 0 else 1) + pops ops

/-- The number of pops in a sequence of calls that find the container
non-empty, for a container holding `n` elements at the start. -/
def popsTaken {α : Type} : List (EndOp α) → Nat → Nat
  | [], _ => 0
  | op :: ops, n =>
    if op.isPush then popsTaken ops (n + 1)
    else if n = 0 then popsTaken ops 0
    else popsTaken ops (n - 1) + 1

/-- No pop of the sequence finds the container empty, for a container holding
`n` elements at the start. -/
def neverPopsEmpty {α : Type} : List (EndOp α) → Nat → Bool
  | [], _ => true
  | op :: ops, n =>
    if op.isPush then neverPopsEmpty ops (n + 1)
    else decide (n ≠ 0) && neverPopsEmpty ops (n - 1)

/-- The cells of a list after a call, the node of a push being at address `a`. -/
def EndOp.act {α : Type} (a : Nat) : EndOp α → List (Nat × α) → List (Nat × α)
  | .push_back v, cs => cs ++ [(a, v)]
  | .push_front v, cs => (a, v) :: cs
  | .pop_back, cs => cs.dropLast
  | .pop_front, cs => cs.tail

/-- The loop `for (it = start; it != end(); ++it) visit(*it)`: the values
visited, in order. -/
def list.traverse {α : Type} (h : Heap α) : Nat → list.iterator → Except Fault (List α)
  | 0, it => if it ≠ list.end then .error .fuel else .ok []
  | k + 1, it =>
    if it ≠ list.end then do
      let x ← it.deref h
      let it1 ← it.next h
      let rest ← list.traverse h k it1
      pure (x :: rest)
    else .ok []

/-- The loop `for (it = start; it != end(); --it) visit(*it)`: the values
visited, in order. -/
def list.rtraverse {α : Type} (h : Heap α) : Nat → list.iterator → Except Fault (List α)
  | 0, it => if it ≠ list.end then .error .fuel else .ok []
  | k + 1, it =>
    if it ≠ list.end then do
      let x ← it.deref h
      let it1 ← it.prev h
      let rest ← list.rtraverse h k it1
      pure (x :: rest)
    else .ok []

/-- Forward traversal: from `begin()` by `++` until `end()`. A walk that
visits more nodes than the store has cells never ends. -/
def list.forwardValues {α : Type} (h : Heap α) (l : list) : Except Fault (List α) :=
  list.traverse h h.cells.length l.begin

/-- Backward traversal: from `rbegin()` by `--` until `end()`. -/
def list.backwardValues {α : Type} (h : Heap α) (l : list) : Except Fault (List α) :=
  list.rtraverse h h.cells.length l.rbegin

/-- The loop `for (size_t i = 1; i < num; i++)` of the fill constructor, with
`k = num - i` turns left. `new` stands outside any `try` block, so a
`std::bad_alloc` escapes as it is. The result is the heap and `pNew`. -/
def list.fillLoop {α : Type} (t : α) :
    Nat → Heap α → Ptr → Ptr → Except Fault (Heap α × Ptr)
  | 0, h, pNew, _ => .ok (h, pNew)
  | k + 1, h, _, pPrevious => do
    cassert (pPrevious != none)
    match h.new t with
    | none => .error .bad_alloc
    | some (h1, a) =>
      let pNew : Ptr := some a
      let h2 ← h1.setPrev pNew pPrevious
      let nw ← h2.deref pNew
      let h3 ← h2.setNext nw.pPrev pNew
      list.fillLoop t k h3 pNew pNew

/-- The fill constructor `list(size_t num, const T & t)`. -/
def list.fill {α : Type} (h : Heap α) (num : Nat) (t : α) : Except Fault (Heap α × list) :=
  if num ≠ 0 then
    match h.new t with
    | none => .error .bad_alloc
    | some (h1, a) => do
      let pHead : Ptr := some a
      let h2 ← h1.setPrev pHead none
      let (h3, pNew) ← list.fillLoop t (num - 1) h2 pHead pHead
      let h4 ← h3.setNext pNew none
      pure (h4, ⟨num, pHead, pNew⟩)
  else pure (h, ⟨0, none, none⟩)

/-! ## Heap lemmas -/

theorem Heap.lookup_lt {α : Type} {h : Heap α} {a : Nat} {n : Node α}
    (hl : h.lookup a = some n) : a < h.cells.length := by
  unfold Heap.lookup at hl
  by_contra hc
  rw [List.getElem?_eq_none (by omega)] at hl
  simp at hl

theorem Heap.lookup_upd_same {α : Type} {h : Heap α} {a : Nat} {m : Node α} (n : Node α)
    (hl : h.lookup a = some m) : (h.upd a n).lookup a = some n := by
  have := Heap.lookup_lt hl
  simp [Heap.lookup, Heap.upd, List.getElem?_set, this]

theorem Heap.lookup_upd_ne {α : Type} (h : Heap α) {a b : Nat} (n : Node α)
    (hne : b ≠ a) : (h.upd a n).lookup b = h.lookup b := by
  simp [Heap.lookup, Heap.upd, List.getElem?_set, Ne.symm hne]

theorem Heap.lookup_release_same {α : Type} (h : Heap α) (a : Nat) :
    (h.release a).lookup a = none := by
  simp only [Heap.lookup, Heap.release, List.getElem?_set]
  by_cases hlt : a < h.cells.length <;> simp [hlt]

theorem Heap.lookup_release_ne {α : Type} (h : Heap α) {a b : Nat}
    (hne : b ≠ a) : (h.release a).lookup b = h.lookup b := by
  simp [Heap.lookup, Heap.release, List.getElem?_set, Ne.symm hne]

theorem Heap.length_upd {α : Type} (h : Heap α) (a : Nat) (n : Node α) :
    (h.upd a n).cells.length = h.cells.length := by
  simp [Heap.upd]

theorem Heap.length_release {α : Type} (h : Heap α) (a : Nat) :
    (h.release a).cells.length = h.cells.length := by
  simp [Heap.release]

theorem Heap.lookup_length {α : Type} (h : Heap α) : h.lookup h.cells.length = none := by
  simp [Heap.lookup]

theorem Heap.new_spec {α : Type} {h h1 : Heap α} {v : α} {a : Nat}
    (hn : h.new v = some (h1, a)) :
    a = h.cells.length ∧ h.cells.length + 1 < SIZE_MOD ∧
    h1.cells.length = h.cells.length + 1 ∧
    h1.lookup a = some ⟨v, none, none⟩ ∧
    ∀ b, b ≠ a → h1.lookup b = h.lookup b := by
  unfold Heap.new at hn
  split at hn
  · simp only [Option.some.injEq, Prod.mk.injEq] at hn
    obtain ⟨rfl, rfl⟩ := hn
    refine ⟨rfl, by assumption, by simp, by simp [Heap.lookup], ?_⟩
    intro b hb
    simp only [Heap.lookup]
    by_cases hlt : b < h.cells.length
    · rw [List.getElem?_append_left hlt]
    · have : h.cells.length < b := by omega
      rw [List.getElem?_eq_none (by simp; omega), List.getElem?_eq_none (by omega)]
  · simp at hn

theorem Heap.new_ok {α : Type} (h : Heap α) (v : α) (hlt : h.cells.length + 1 < SIZE_MOD) :
    h.new v = some (⟨h.cells ++ [some ⟨v, none, none⟩]⟩, h.cells.length) := by
  simp [Heap.new, hlt]

theorem firstPtr_append {α : Type} (xs ys : List (Nat × α)) (d : Ptr) :
    firstPtr (xs ++ ys) d = firstPtr xs (firstPtr ys d) := by
  cases xs <;> simp [firstPtr]

theorem lastPtr_append {α : Type} (xs ys : List (Nat × α)) (d : Ptr) :
    lastPtr (xs ++ ys) d = lastPtr ys (lastPtr xs d) := by
  induction xs generalizing d with
  | nil => simp [lastPtr]
  | cons c rest ih => simp [lastPtr, ih]

theorem firstPtr_eq_none {α : Type} {xs : List (Nat × α)} (hx : firstPtr xs none = none) :
    xs = [] := by
  cases xs with
  | nil => rfl
  | cons c rest => simp [firstPtr] at hx

theorem lastPtr_cons_ne {α : Type} (d : Ptr) (c : Nat × α) (xs : List (Nat × α)) :
    lastPtr (c :: xs) d ≠ none := by
  induction xs generalizing c d with
  | nil => simp [lastPtr]
  | cons e rest ih => simpa [lastPtr] using ih (some c.1) e

theorem lastPtr_eq_none {α : Type} {xs : List (Nat × α)} (hx : lastPtr xs none = none) :
    xs = [] := by
  cases xs with
  | nil => rfl
  | cons c rest => exact absurd hx (lastPtr_cons_ne _ _ _)

theorem seg_append {α : Type} (h : Heap α) (xs ys : List (Nat × α)) (p n : Ptr) :
    seg h p (xs ++ ys) n ↔ seg h p xs (firstPtr ys n) ∧ seg h (lastPtr xs p) ys n := by
  induction xs generalizing p with
  | nil => simp [seg, lastPtr]
  | cons c rest ih =>
    show seg h p (c :: (rest ++ ys)) n ↔ _
    simp only [seg, ih, firstPtr_append, lastPtr, and_assoc]

theorem seg_frame {α : Type} {h h1 : Heap α} {cells : List (Nat × α)} {p n : Ptr}
    (hs : seg h p cells n) (hf : ∀ c ∈ cells, h1.lookup c.1 = h.lookup c.1) :
    seg h1 p cells n := by
  induction cells generalizing p with
  | nil => trivial
  | cons c rest ih =>
    refine ⟨?_, ih hs.2 (fun d hd => hf d (List.mem_cons_of_mem _ hd))⟩
    rw [hf c (List.mem_cons_self _ _)]; exact hs.1

theorem seg_lookup {α : Type} {h : Heap α} {cells : List (Nat × α)} {p n : Ptr}
    (hs : seg h p cells n) {c : Nat × α} (hc : c ∈ cells) :
    ∃ nd, h.lookup c.1 = some nd ∧ nd.data = c.2 := by
  induction cells generalizing p with
  | nil => simp at hc
  | cons d rest ih =>
    rcases List.mem_cons.1 hc with rfl | hc
    · exact ⟨_, hs.1, rfl⟩
    · exact ih hs.2 hc

theorem seg_det {α : Type} {h : Heap α} {xs ys : List (Nat × α)} {p q : Ptr}
    (hx : seg h p xs none) (hy : seg h q ys none)
    (hf : firstPtr xs none = firstPtr ys none) : xs = ys := by
  induction xs generalizing ys p q with
  | nil =>
    simp only [firstPtr] at hf
    exact (firstPtr_eq_none hf.symm).symm
  | cons c rest ih =>
    cases ys with
    | nil => simp [firstPtr] at hf
    | cons d rest1 =>
      simp only [firstPtr, Option.some.injEq] at hf
      have h1 := hx.1
      have h2 := hy.1
      rw [hf, h2] at h1
      simp only [Option.some.injEq, Node.mk.injEq] at h1
      have hr := ih hx.2 hy.2 h1.2.1.symm
      have : c = d := Prod.ext hf h1.1.symm
      rw [this, hr]

theorem seg_nodup {α : Type} {h : Heap α} {cells : List (Nat × α)} {p : Ptr}
    (hs : seg h p cells none) : (cells.map Prod.fst).Nodup := by
  induction cells generalizing p with
  | nil => simp
  | cons c rest ih =>
    rw [List.map_cons, List.nodup_cons]
    refine ⟨?_, ih hs.2⟩
    intro hmem
    obtain ⟨d, hd, hdc⟩ := List.mem_map.1 hmem
    obtain ⟨l1, l2, rfl⟩ := List.append_of_mem hd
    have hsuf := ((seg_append h l1 (d :: l2) (some c.1) none).1 hs.2).2
    have := seg_det hs hsuf (by simp [firstPtr, hdc])
    have hlen := congrArg List.length this
    simp at hlen
    omega

theorem seg_length_le {α : Type} {h : Heap α} {cells : List (Nat × α)} {p : Ptr}
    (hs : seg h p cells none) : cells.length ≤ h.cells.length := by
  have hnd := seg_nodup hs
  have hsub : (cells.map Prod.fst).toFinset ⊆ Finset.range h.cells.length := by
    intro a ha
    rw [List.mem_toFinset] at ha
    obtain ⟨c, hc, rfl⟩ := List.mem_map.1 ha
    obtain ⟨nd, hnd1, _⟩ := seg_lookup hs hc
    exact Finset.mem_range.2 (Heap.lookup_lt hnd1)
  have := Finset.card_le_card hsub
  rw [List.toFinset_card_of_nodup hnd] at this
  simpa using this

theorem Heap.deref_ok {α : Type} {h : Heap α} {a : Nat} {n : Node α}
    (hl : h.lookup a = some n) : h.deref (some a) = .ok n := by
  simp [Heap.deref, hl]

theorem Heap.setNext_ok {α : Type} {h : Heap α} {a : Nat} {n : Node α} (q : Ptr)
    (hl : h.lookup a = some n) :
    h.setNext (some a) q = .ok (h.upd a ⟨n.data, q, n.pPrev⟩) := by
  simp [Heap.setNext, hl]

theorem Heap.setPrev_ok {α : Type} {h : Heap α} {a : Nat} {n : Node α} (q : Ptr)
    (hl : h.lookup a = some n) :
    h.setPrev (some a) q = .ok (h.upd a ⟨n.data, n.pNext, q⟩) := by
  simp [Heap.setPrev, hl]

theorem Heap.setData_ok {α : Type} {h : Heap α} {a : Nat} {n : Node α} (x : α)
    (hl : h.lookup a = some n) :
    h.setData (some a) x = .ok (h.upd a ⟨x, n.pNext, n.pPrev⟩) := by
  simp [Heap.setData, hl]

theorem Heap.delete_ok {α : Type} {h : Heap α} {a : Nat} {n : Node α}
    (hl : h.lookup a = some n) : h.delete (some a) = .ok (h.release a) := by
  simp [Heap.delete, hl]

theorem seg_concat {α : Type} (h : Heap α) (xs : List (Nat × α)) (c : Nat × α) (p n : Ptr) :
    seg h p (xs ++ [c]) n ↔
      seg h p xs (some c.1) ∧ h.lookup c.1 = some ⟨c.2, n, lastPtr xs p⟩ := by
  rw [seg_append]; simp [seg, firstPtr]

theorem seg_mem_lt {α : Type} {h : Heap α} {cells : List (Nat × α)} {p n : Ptr}
    (hs : seg h p cells n) {c : Nat × α} (hc : c ∈ cells) : c.1 < h.cells.length := by
  obtain ⟨nd, hnd, _⟩ := seg_lookup hs hc
  exact Heap.lookup_lt hnd

theorem size_inc_eq {n : Nat} (hn : n + 1 < SIZE_MOD) : size_inc n = n + 1 := by
  unfold size_inc; exact Nat.mod_eq_of_lt hn

theorem size_dec_eq {n : Nat} (hn : n + 1 < SIZE_MOD) : size_dec (n + 1) = n := by
  unfold size_dec
  have : n + 1 + (SIZE_MOD - 1) = n + SIZE_MOD := by omega
  rw [this, Nat.add_mod_right]
  exact Nat.mod_eq_of_lt (by omega)

theorem eq_nil_or_snoc {β : Type} (xs : List β) :
    xs = [] ∨ ∃ init t, xs = init ++ [t] := by
  rcases List.eq_nil_or_concat xs with h | ⟨init, t, h⟩
  · exact Or.inl h
  · exact Or.inr ⟨init, t, by rw [h, List.concat_eq_append]⟩

theorem ListRep.push_back {α : Type} {h : Heap α} {l : list} {cells : List (Nat × α)}
    (hr : ListRep h l cells) (v : α) (hm : h.cells.length + 1 < SIZE_MOD) :
    ∃ h1 l1, list.push_back h l v = .ok (h1, l1) ∧
      ListRep h1 l1 (cells ++ [(h.cells.length, v)]) ∧
      h1.cells.length = h.cells.length + 1 ∧
      ∀ b, b ≠ h.cells.length → (∀ c ∈ cells, c.1 ≠ b) → h1.lookup b = h.lookup b := by
  obtain ⟨hn, hlt, hh, ht, hs⟩ := hr
  have hle := seg_length_le hs
  obtain ⟨h0, a, hnew⟩ : ∃ h0 a, h.new v = some (h0, a) := ⟨_, _, Heap.new_ok h v hm⟩
  obtain ⟨rfl, -, hlen0, hla, hfr⟩ := Heap.new_spec hnew
  rcases eq_nil_or_snoc cells with rfl | ⟨init, t, rfl⟩
  · simp only [lastPtr, firstPtr] at hh ht
    refine ⟨h0.upd h.cells.length ⟨v, none, none⟩, ⟨size_inc l.numElements, some h.cells.length, some h.cells.length⟩, ?_, ?_, ?_, ?_⟩
    · simp [list.push_back, hnew, Heap.setPrev_ok _ hla, ht, bind, Except.bind, pure, Except.pure]
    · refine ⟨?_, ?_, ?_, ?_, ?_⟩
      · simp [hn, size_inc_eq (show 0 + 1 < SIZE_MOD by omega)]
      · simp; omega
      · simp [firstPtr]
      · simp [lastPtr]
      · simp [seg, firstPtr, Heap.lookup_upd_same _ hla]
    · simp [Heap.length_upd, hlen0]
    · intro b hb _
      rw [Heap.lookup_upd_ne _ _ hb, hfr b hb]
  · rw [lastPtr_append] at ht
    simp only [lastPtr] at ht
    rw [seg_concat] at hs
    obtain ⟨hsi, hlt1⟩ := hs
    have hnd := seg_nodup ((seg_concat h init t none none).2 ⟨hsi, hlt1⟩)
    have htlt : t.1 < h.cells.length := Heap.lookup_lt hlt1
    have htne : t.1 ≠ h.cells.length := by omega
    have h0t : h0.lookup t.1 = some ⟨t.2, none, lastPtr init none⟩ := by rw [hfr _ htne, hlt1]
    refine ⟨(h0.upd h.cells.length ⟨v, none, some t.1⟩).upd t.1 ⟨t.2, some h.cells.length, lastPtr init none⟩,
      ⟨size_inc l.numElements, l.pHead, some h.cells.length⟩, ?_, ?_, ?_, ?_⟩
    · have e1 : (h0.upd h.cells.length ⟨v, none, some t.1⟩).lookup t.1
          = some ⟨t.2, none, lastPtr init none⟩ := by
        rw [Heap.lookup_upd_ne _ _ htne, h0t]
      simp [list.push_back, hnew, Heap.setPrev_ok _ hla, ht, Heap.setNext_ok _ e1,
        bind, Except.bind, pure, Except.pure]
    · have hfi : ∀ c ∈ init, ((h0.upd h.cells.length ⟨v, none, some t.1⟩).upd t.1
          ⟨t.2, some h.cells.length, lastPtr init none⟩).lookup c.1 = h.lookup c.1 := by
        intro c hc
        have hc1 : c.1 ≠ t.1 := by
          intro he
          rw [List.map_append, List.nodup_append] at hnd
          exact hnd.2.2 (List.mem_map_of_mem _ hc) (by simp [he])
        have hc2 : c.1 ≠ h.cells.length := Nat.ne_of_lt (seg_mem_lt hsi hc)
        rw [Heap.lookup_upd_ne _ _ hc1, Heap.lookup_upd_ne _ _ hc2, hfr _ hc2]
      refine ⟨?_, ?_, ?_, ?_, ?_⟩
      · simp only [List.length_append, List.length_singleton] at hn hlt hle ⊢
        rw [hn]; exact size_inc_eq (by omega)
      · simp only [List.length_append, List.length_singleton] at hle ⊢; omega
      · simp only [hh, firstPtr_append]; simp [firstPtr]
      · simp [lastPtr_append, lastPtr]
      · rw [seg_concat, seg_concat]
        refine ⟨⟨seg_frame hsi hfi, ?_⟩, ?_⟩
        · exact Heap.lookup_upd_same _ (by rw [Heap.lookup_upd_ne _ _ htne, h0t])
        · rw [Heap.lookup_upd_ne _ _ (Ne.symm htne), Heap.lookup_upd_same _ hla]
          simp [lastPtr_append, lastPtr]
    · simp [Heap.length_upd, hlen0]
    · intro b hb hbc
      have hbt : b ≠ t.1 := fun he => hbc t (by simp) he.symm
      rw [Heap.lookup_upd_ne _ _ hbt, Heap.lookup_upd_ne _ _ hb, hfr b hb]

theorem nodup_split {α : Type} {xs ys : List (Nat × α)} {c : Nat × α}
    (hnd : ((xs ++ c :: ys).map Prod.fst).Nodup) :
    (∀ d ∈ xs, d.1 ≠ c.1) ∧ (∀ d ∈ ys, d.1 ≠ c.1) ∧ (∀ d ∈ xs, ∀ e ∈ ys, d.1 ≠ e.1) := by
  rw [List.map_append, List.map_cons, List.nodup_append, List.nodup_cons] at hnd
  obtain ⟨-, ⟨hc, -⟩, hdis⟩ := hnd
  refine ⟨?_, ?_, ?_⟩
  · intro d hd he
    exact hdis (List.mem_map_of_mem _ hd) (by rw [he]; exact List.mem_cons_self _ _)
  · intro d hd he
    exact hc (he ▸ List.mem_map_of_mem _ hd)
  · intro d hd e he hde
    exact hdis (List.mem_map_of_mem _ hd)
      (List.mem_cons_of_mem _ (hde ▸ List.mem_map_of_mem _ he))

theorem ListRep.push_front {α : Type} {h : Heap α} {l : list} {cells : List (Nat × α)}
    (hr : ListRep h l cells) (v : α) (hm : h.cells.length + 1 < SIZE_MOD) :
    ∃ h1 l1, list.push_front h l v = .ok (h1, l1) ∧
      ListRep h1 l1 ((h.cells.length, v) :: cells) ∧
      h1.cells.length = h.cells.length + 1 ∧
      ∀ b, b ≠ h.cells.length → (∀ c ∈ cells, c.1 ≠ b) → h1.lookup b = h.lookup b := by
  obtain ⟨hn, hlt, hh, ht, hs⟩ := hr
  have hle := seg_length_le hs
  obtain ⟨h0, a, hnew⟩ : ∃ h0 a, h.new v = some (h0, a) := ⟨_, _, Heap.new_ok h v hm⟩
  obtain ⟨rfl, -, hlen0, hla, hfr⟩ := Heap.new_spec hnew
  cases cells with
  | nil =>
    simp only [lastPtr, firstPtr] at hh ht
    refine ⟨h0.upd h.cells.length ⟨v, none, none⟩,
      ⟨size_inc l.numElements, some h.cells.length, some h.cells.length⟩, ?_, ?_, ?_, ?_⟩
    · simp [list.push_front, hnew, Heap.setNext_ok _ hla, hh, bind, Except.bind, pure,
        Except.pure]
    · refine ⟨?_, ?_, ?_, ?_, ?_⟩
      · simp [hn, size_inc_eq (show 0 + 1 < SIZE_MOD by omega)]
      · simp; omega
      · simp [firstPtr]
      · simp [lastPtr]
      · simp [seg, firstPtr, Heap.lookup_upd_same _ hla]
    · simp [Heap.length_upd, hlen0]
    · intro b hb _
      rw [Heap.lookup_upd_ne _ _ hb, hfr b hb]
  | cons c rest =>
    simp only [firstPtr] at hh
    have hnd := seg_nodup hs
    obtain ⟨hlc, hsr⟩ := hs
    have hclt : c.1 < h.cells.length := Heap.lookup_lt hlc
    have hcne : c.1 ≠ h.cells.length := by omega
    have h0c : h0.lookup c.1 = some ⟨c.2, firstPtr rest none, none⟩ := by rw [hfr _ hcne, hlc]
    refine ⟨(h0.upd h.cells.length ⟨v, some c.1, none⟩).upd c.1
        ⟨c.2, firstPtr rest none, some h.cells.length⟩,
      ⟨size_inc l.numElements, some h.cells.length, l.pTail⟩, ?_, ?_, ?_, ?_⟩
    · have e1 : (h0.upd h.cells.length ⟨v, some c.1, none⟩).lookup c.1
          = some ⟨c.2, firstPtr rest none, none⟩ := by
        rw [Heap.lookup_upd_ne _ _ hcne, h0c]
      simp [list.push_front, hnew, Heap.setNext_ok _ hla, hh, Heap.setPrev_ok _ e1,
        bind, Except.bind, pure, Except.pure]
    · have hfi : ∀ d ∈ rest, ((h0.upd h.cells.length ⟨v, some c.1, none⟩).upd c.1
          ⟨c.2, firstPtr rest none, some h.cells.length⟩).lookup d.1 = h.lookup d.1 := by
        intro d hd
        have hd1 : d.1 ≠ c.1 := by
          intro he
          rw [List.map_cons, List.nodup_cons] at hnd
          exact hnd.1 (he ▸ List.mem_map_of_mem _ hd)
        have hd2 : d.1 ≠ h.cells.length := Nat.ne_of_lt (seg_mem_lt hsr hd)
        rw [Heap.lookup_upd_ne _ _ hd1, Heap.lookup_upd_ne _ _ hd2, hfr _ hd2]
      refine ⟨?_, ?_, ?_, ?_, ?_⟩
      · simp only [List.length_cons] at hn hlt hle ⊢
        rw [hn]; exact size_inc_eq (by omega)
      · simp only [List.length_cons] at hle ⊢; omega
      · simp [firstPtr]
      · simp only [ht, lastPtr]
      · refine ⟨?_, ?_, seg_frame hsr hfi⟩
        · rw [Heap.lookup_upd_ne _ _ (Ne.symm hcne), Heap.lookup_upd_same _ hla]
          simp [firstPtr]
        · exact Heap.lookup_upd_same _ (by rw [Heap.lookup_upd_ne _ _ hcne, h0c])
    · simp [Heap.length_upd, hlen0]
    · intro b hb hbc
      have hbt : b ≠ c.1 := fun he => hbc c (by simp) he.symm
      rw [Heap.lookup_upd_ne _ _ hbt, Heap.lookup_upd_ne _ _ hb, hfr b hb]

theorem cassert_true : cassert true = .ok () := rfl

theorem ListRep.pop_back {α : Type} {h : Heap α} {l : list} {cells : List (Nat × α)}
    (hr : ListRep h l cells) :
    ∃ h1 l1, list.pop_back h l = .ok (h1, l1) ∧
      ListRep h1 l1 cells.dropLast ∧
      h1.cells.length = h.cells.length ∧
      ∀ b, (∀ c ∈ cells, c.1 ≠ b) → h1.lookup b = h.lookup b := by
  obtain ⟨hn, hlt, hh, ht, hs⟩ := hr
  rcases eq_nil_or_snoc cells with rfl | ⟨init, t, rfl⟩
  · refine ⟨h, l, ?_, ⟨hn, hlt, hh, ht, hs⟩, rfl, fun _ _ => rfl⟩
    simp only [List.length_nil] at hn
    simp [list.pop_back, hn, pure, Except.pure]
  · rw [lastPtr_append] at ht
    simp only [lastPtr] at ht
    have hnd := seg_nodup hs
    rw [seg_concat] at hs
    obtain ⟨hsi, hlt1⟩ := hs
    rw [List.dropLast_concat]
    rcases eq_nil_or_snoc init with rfl | ⟨init1, s, rfl⟩
    · simp only [firstPtr, List.nil_append, List.length_singleton] at hh hn
      refine ⟨h.release t.1, ⟨0, none, none⟩, ?_, ?_, ?_, ?_⟩
      · simp [list.pop_back, hn, ht, hh, cassert, Heap.delete_ok hlt1, bind, Except.bind,
          pure, Except.pure]
      · exact ⟨rfl, by simp [SIZE_MOD], rfl, rfl, trivial⟩
      · exact Heap.length_release _ _
      · intro b hb
        exact Heap.lookup_release_ne _ (fun he => hb t (by simp) he.symm)
    · rw [seg_concat] at hsi
      obtain ⟨hsi1, hls⟩ := hsi
      simp only [lastPtr_append, lastPtr] at hlt1
      rw [List.append_assoc] at hnd
      obtain ⟨hn1s, hn2s, hn3s⟩ := nodup_split hnd
      have hst : s.1 ≠ t.1 := Ne.symm (hn2s t (by simp))
      have hn1 : l.numElements = init1.length + 1 + 1 := by simpa using hn
      refine ⟨(h.release t.1).upd s.1 ⟨s.2, none, lastPtr init1 none⟩,
        ⟨size_dec l.numElements, l.pHead, some s.1⟩, ?_, ?_, ?_, ?_⟩
      · have e1 : (h.release t.1).lookup s.1 = some ⟨s.2, some t.1, lastPtr init1 none⟩ := by
          rw [Heap.lookup_release_ne _ hst, hls]
        simp [list.pop_back, hn1, ht, cassert, Heap.deref_ok hlt1, Heap.deref_ok hls,
          Heap.delete_ok hlt1, Heap.setNext_ok _ e1, bind, Except.bind, pure, Except.pure]
      · have hfi : ∀ c ∈ init1, ((h.release t.1).upd s.1
            ⟨s.2, none, lastPtr init1 none⟩).lookup c.1 = h.lookup c.1 := by
          intro c hc
          have hc1 : c.1 ≠ s.1 := hn1s c hc
          have hc2 : c.1 ≠ t.1 := hn3s c hc t (by simp)
          rw [Heap.lookup_upd_ne _ _ hc1, Heap.lookup_release_ne _ hc2]
        refine ⟨?_, ?_, ?_, ?_, ?_⟩
        · simp only [List.length_append, List.length_singleton] at hlt ⊢
          rw [hn1]; exact size_dec_eq (by omega)
        · simp only [List.length_append, List.length_singleton] at hlt ⊢; omega
        · simp only [hh, firstPtr_append]; simp [firstPtr]
        · simp [lastPtr_append, lastPtr]
        · rw [seg_concat]
          refine ⟨seg_frame hsi1 hfi, ?_⟩
          exact Heap.lookup_upd_same _ (by rw [Heap.lookup_release_ne _ hst, hls])
      · simp [Heap.length_upd, Heap.length_release]
      · intro b hb
        have hbt : b ≠ t.1 := fun he => hb t (by simp) he.symm
        have hbs : b ≠ s.1 := fun he => hb s (by simp) he.symm
        rw [Heap.lookup_upd_ne _ _ hbs, Heap.lookup_release_ne _ hbt]

theorem nodup_parts {α : Type} {xs ys : List (Nat × α)}
    (hnd : ((xs ++ ys).map Prod.fst).Nodup) :
    (xs.map Prod.fst).Nodup ∧ (ys.map Prod.fst).Nodup := by
  rw [List.map_append, List.nodup_append] at hnd
  exact ⟨hnd.1, hnd.2.1⟩

theorem nodup_head {α : Type} {ys : List (Nat × α)} {d : Nat × α}
    (hnd : ((d :: ys).map Prod.fst).Nodup) : ∀ c ∈ ys, c.1 ≠ d.1 :=
  (@nodup_split _ [] _ _ hnd).2.1

theorem nodup_last {α : Type} {xs : List (Nat × α)} {b : Nat × α}
    (hnd : ((xs ++ [b]).map Prod.fst).Nodup) : ∀ c ∈ xs, c.1 ≠ b.1 :=
  (nodup_split hnd).1

theorem seg_frame_upd {α : Type} {h : Heap α} {xs : List (Nat × α)} {p n : Ptr}
    (hs : seg h p xs n) {a : Nat} (nd : Node α) (hne : ∀ c ∈ xs, c.1 ≠ a) :
    seg (h.upd a nd) p xs n :=
  seg_frame hs (fun c hc => Heap.lookup_upd_ne _ _ (hne c hc))

theorem seg_frame_release {α : Type} {h : Heap α} {xs : List (Nat × α)} {p n : Ptr}
    (hs : seg h p xs n) {a : Nat} (hne : ∀ c ∈ xs, c.1 ≠ a) :
    seg (h.release a) p xs n :=
  seg_frame hs (fun c hc => Heap.lookup_release_ne _ (hne c hc))

theorem seg_upd_prev_head {α : Type} {h : Heap α} {d : Nat × α} {ys : List (Nat × α)}
    {p n : Ptr} (hs : seg h p (d :: ys) n) (hne : ∀ c ∈ ys, c.1 ≠ d.1) (q : Ptr) :
    seg (h.upd d.1 ⟨d.2, firstPtr ys n, q⟩) q (d :: ys) n :=
  ⟨Heap.lookup_upd_same _ hs.1, seg_frame_upd hs.2 _ hne⟩

theorem seg_upd_next_last {α : Type} {h : Heap α} {b : Nat × α} {xs : List (Nat × α)}
    {p n : Ptr} (hs : seg h p (xs ++ [b]) n) (hne : ∀ c ∈ xs, c.1 ≠ b.1) (q : Ptr) :
    seg (h.upd b.1 ⟨b.2, q, lastPtr xs p⟩) p (xs ++ [b]) q := by
  rw [seg_concat] at hs ⊢
  exact ⟨seg_frame_upd hs.1 _ hne, Heap.lookup_upd_same _ hs.2⟩

theorem ListRep.pop_front {α : Type} {h : Heap α} {l : list} {cells : List (Nat × α)}
    (hr : ListRep h l cells) :
    ∃ h1 l1, list.pop_front h l = .ok (h1, l1) ∧
      ListRep h1 l1 cells.tail ∧
      h1.cells.length = h.cells.length ∧
      ∀ b, (∀ c ∈ cells, c.1 ≠ b) → h1.lookup b = h.lookup b := by
  obtain ⟨hn, hlt, hh, ht, hs⟩ := hr
  have hnd := seg_nodup hs
  match cells, hn, hlt, hh, ht, hs, hnd with
  | [], hn, hlt, hh, ht, hs, _ =>
    refine ⟨h, l, ?_, ⟨hn, hlt, hh, ht, hs⟩, rfl, fun _ _ => rfl⟩
    simp only [List.length_nil] at hn
    simp [list.pop_front, hn, pure, Except.pure]
  | [c], hn, hlt, hh, ht, hs, _ =>
    simp only [firstPtr, lastPtr, List.length_singleton] at hh ht hn
    refine ⟨h.release c.1, ⟨0, none, none⟩, ?_, ?_, ?_, ?_⟩
    · simp [list.pop_front, hn, ht, hh, cassert, Heap.delete_ok hs.1, bind, Except.bind,
        pure, Except.pure]
    · exact ⟨rfl, by simp [SIZE_MOD], rfl, rfl, trivial⟩
    · exact Heap.length_release _ _
    · intro b hb
      exact Heap.lookup_release_ne _ (fun he => hb c (by simp) he.symm)
  | c :: d :: rest, hn, hlt, hh, ht, hs, hnd =>
    simp only [firstPtr] at hh
    simp only [lastPtr] at ht
    obtain ⟨hlc, hsd⟩ := hs
    simp only [firstPtr] at hlc
    have hdc : d.1 ≠ c.1 := nodup_head hnd d (by simp)
    have hnd2 := (@nodup_parts _ [c] _ hnd).2
    have hn1 : l.numElements = rest.length + 1 + 1 := by simpa using hn
    refine ⟨(h.release c.1).upd d.1 ⟨d.2, firstPtr rest none, none⟩,
      ⟨size_dec l.numElements, some d.1, l.pTail⟩, ?_, ?_, ?_, ?_⟩
    · have e1 : (h.release c.1).lookup d.1 = some ⟨d.2, firstPtr rest none, some c.1⟩ := by
        rw [Heap.lookup_release_ne _ hdc, hsd.1]
      simp [list.pop_front, hn1, hh, cassert, Heap.deref_ok hlc, Heap.deref_ok hsd.1,
        Heap.delete_ok hlc, Heap.setPrev_ok _ e1, bind, Except.bind, pure, Except.pure]
    · refine ⟨?_, ?_, ?_, ?_, ?_⟩
      · simp only [List.length_cons, List.tail_cons] at hlt ⊢
        rw [hn1]; exact size_dec_eq (by omega)
      · simp only [List.length_cons, List.tail_cons] at hlt ⊢; omega
      · simp [firstPtr]
      · simp only [List.tail_cons, lastPtr, ht]
      · have h1 : seg (h.release c.1) (some c.1) (d :: rest) none :=
          seg_frame_release hsd (fun e he => nodup_head hnd e he)
        exact seg_upd_prev_head h1 (nodup_head hnd2) none
    · simp [Heap.length_upd, Heap.length_release]
    · intro b hb
      have hbc : b ≠ c.1 := fun he => hb c (by simp) he.symm
      have hbd : b ≠ d.1 := fun he => hb d (by simp) he.symm
      rw [Heap.lookup_upd_ne _ _ hbd, Heap.lookup_release_ne _ hbc]

theorem firstPtr_cons_ne {α : Type} (d : Ptr) (c : Nat × α) (xs : List (Nat × α)) :
    firstPtr (c :: xs) d ≠ none := by
  simp [firstPtr]

theorem firstPtr_some_ne {α : Type} (xs : List (Nat × α)) (a : Nat) :
    firstPtr xs (some a) ≠ none := by
  cases xs <;> simp [firstPtr]

theorem lastPtr_some_ne {α : Type} (xs : List (Nat × α)) (a : Nat) :
    lastPtr xs (some a) ≠ none := by
  cases xs with
  | nil => simp [lastPtr]
  | cons c rest => exact lastPtr_cons_ne _ _ _

theorem ListRep.erase {α : Type} {h : Heap α} {l : list} {pre post : List (Nat × α)}
    {c : Nat × α} (hr : ListRep h l (pre ++ c :: post)) :
    ∃ h1 l1, list.erase h l ⟨some c.1⟩ = .ok (h1, l1, ⟨firstPtr post none⟩) ∧
      ListRep h1 l1 (pre ++ post) ∧
      h1.cells.length = h.cells.length ∧
      ∀ b, (∀ e ∈ pre ++ c :: post, e.1 ≠ b) → h1.lookup b = h.lookup b := by
  obtain ⟨hn, hlt, hh, ht, hs⟩ := hr
  have hnd := seg_nodup hs
  obtain ⟨hn1, hn2, hn3⟩ := nodup_split hnd
  obtain ⟨hndpre, hndcpost⟩ := nodup_parts hnd
  have hndpost := (@nodup_parts _ [c] _ hndcpost).2
  rw [seg_append] at hs
  obtain ⟨hspre, hlc, hspost⟩ := hs
  simp only [firstPtr] at hspre
  rw [firstPtr_append] at hh
  simp only [firstPtr] at hh
  rw [lastPtr_append] at ht
  simp only [lastPtr] at ht
  have hnum : l.numElements = (pre ++ post).length + 1 := by
    simp only [List.length_append, List.length_cons] at hn ⊢; omega
  have hlt2 : (pre ++ post).length + 1 < SIZE_MOD := by
    simp only [List.length_append, List.length_cons] at hlt ⊢; omega
  have hhne : l.pHead ≠ none := hh ▸ firstPtr_some_ne _ _
  have htne : l.pTail ≠ none := ht ▸ lastPtr_some_ne _ _
  have hit : ((⟨some c.1⟩ : list.iterator) = list.end) = False := by simp [list.end]
  rcases eq_nil_or_snoc pre with rfl | ⟨pre1, b, rfl⟩
  · simp only [firstPtr] at hh
    simp only [lastPtr] at hlc
    cases post with
    | nil =>
      simp only [lastPtr] at ht
      simp only [firstPtr] at hlc
      refine ⟨h.release c.1, ⟨size_dec l.numElements, none, none⟩, ?_, ?_, ?_, ?_⟩
      · show list.erase h l ⟨some c.1⟩ = .ok (_, _, ⟨none⟩)
        simp [list.erase, hit, hh, ht, cassert, Heap.deref_ok hlc, Heap.delete_ok hlc, bind,
          Except.bind, pure, Except.pure, list.end]
      · refine ⟨?_, by simp [SIZE_MOD], rfl, rfl, trivial⟩
        rw [hnum]; exact size_dec_eq hlt2
      · exact Heap.length_release _ _
      · intro e he
        exact Heap.lookup_release_ne _ (fun hx => he c (by simp) hx.symm)
    | cons d post1 =>
      simp only [firstPtr] at hlc
      have hdc : d.1 ≠ c.1 := hn2 d (by simp)
      have hld := hspost.1
      have e1 : (h.upd d.1 ⟨d.2, firstPtr post1 none, none⟩).lookup c.1
          = some ⟨c.2, some d.1, none⟩ := by
        rw [Heap.lookup_upd_ne _ _ (Ne.symm hdc), hlc]
      refine ⟨(h.upd d.1 ⟨d.2, firstPtr post1 none, none⟩).release c.1,
        ⟨size_dec l.numElements, some d.1, l.pTail⟩, ?_, ?_, ?_, ?_⟩
      · show list.erase h l ⟨some c.1⟩ = .ok (_, _, ⟨some d.1⟩)
        simp [list.erase, hit, hh, htne, cassert, Heap.deref_ok hlc, Heap.setPrev_ok _ hld,
          Heap.deref_ok e1, Heap.delete_ok e1, bind, Except.bind, pure, Except.pure]
      · refine ⟨?_, Nat.lt_of_succ_lt hlt2, ?_, ?_, ?_⟩
        · rw [hnum]; exact size_dec_eq hlt2
        · simp [firstPtr]
        · simp only [List.nil_append, lastPtr, ht]
        · have h1 := seg_upd_prev_head hspost (nodup_head hndpost) none
          exact seg_frame_release h1 hn2
      · simp [Heap.length_upd, Heap.length_release]
      · intro e he
        have hec : e ≠ c.1 := fun hx => he c (by simp) hx.symm
        have hed : e ≠ d.1 := fun hx => he d (by simp) hx.symm
        rw [Heap.lookup_release_ne _ hec, Heap.lookup_upd_ne _ _ hed]
  · have hnb := nodup_last hndpre
    have hbc : b.1 ≠ c.1 := hn1 b (by simp)
    rw [seg_concat] at hspre
    obtain ⟨hspre1, hlb⟩ := hspre
    simp only [lastPtr_append, lastPtr] at hlc
    have hspre' : seg h none (pre1 ++ [b]) (some c.1) := (seg_concat _ _ _ _ _).2 ⟨hspre1, hlb⟩
    have hhd : ∀ x : Ptr, firstPtr (pre1 ++ [b]) x = l.pHead := by
      intro x; rw [hh]; cases pre1 <;> simp [firstPtr]
    cases post with
    | nil =>
      simp only [lastPtr] at ht
      simp only [firstPtr] at hlc
      have e1 : (h.upd b.1 ⟨b.2, none, lastPtr pre1 none⟩).lookup c.1
          = some ⟨c.2, none, some b.1⟩ := by
        rw [Heap.lookup_upd_ne _ _ (Ne.symm hbc), hlc]
      refine ⟨(h.upd b.1 ⟨b.2, none, lastPtr pre1 none⟩).release c.1,
        ⟨size_dec l.numElements, l.pHead, some b.1⟩, ?_, ?_, ?_, ?_⟩
      · show list.erase h l ⟨some c.1⟩ = .ok (_, _, ⟨none⟩)
        simp [list.erase, hit, hhne, ht, cassert, Heap.deref_ok hlc, Heap.setNext_ok _ hlb,
          Heap.delete_ok e1, bind, Except.bind, pure, Except.pure, list.end]
      · refine ⟨?_, Nat.lt_of_succ_lt hlt2, ?_, ?_, ?_⟩
        · rw [hnum]; exact size_dec_eq hlt2
        · rw [List.append_nil]; exact (hhd none).symm
        · simp [lastPtr_append, lastPtr]
        · rw [List.append_nil]
          exact seg_frame_release (seg_upd_next_last hspre' hnb none) hn1
      · simp [Heap.length_upd, Heap.length_release]
      · intro e he
        have hec : e ≠ c.1 := fun hx => he c (by simp) hx.symm
        have heb : e ≠ b.1 := fun hx => he b (by simp) hx.symm
        rw [Heap.lookup_release_ne _ hec, Heap.lookup_upd_ne _ _ heb]
    | cons d post1 =>
      simp only [firstPtr] at hlc
      have hdc : d.1 ≠ c.1 := hn2 d (by simp)
      have hbd : b.1 ≠ d.1 := hn3 b (by simp) d (by simp)
      have hld := hspost.1
      have e0 : (h.upd d.1 ⟨d.2, firstPtr post1 none, some b.1⟩).lookup b.1
          = some ⟨b.2, some c.1, lastPtr pre1 none⟩ := by
        rw [Heap.lookup_upd_ne _ _ hbd, hlb]
      have e1 : (h.upd d.1 ⟨d.2, firstPtr post1 none, some b.1⟩).lookup c.1
          = some ⟨c.2, some d.1, some b.1⟩ := by
        rw [Heap.lookup_upd_ne _ _ (Ne.symm hdc), hlc]
      have e2 : ((h.upd d.1 ⟨d.2, firstPtr post1 none, some b.1⟩).upd b.1
          ⟨b.2, some d.1, lastPtr pre1 none⟩).lookup c.1
          = some ⟨c.2, some d.1, some b.1⟩ := by
        rw [Heap.lookup_upd_ne _ _ (Ne.symm hbc), e1]
      refine ⟨((h.upd d.1 ⟨d.2, firstPtr post1 none, some b.1⟩).upd b.1
          ⟨b.2, some d.1, lastPtr pre1 none⟩).release c.1,
        ⟨size_dec l.numElements, l.pHead, l.pTail⟩, ?_, ?_, ?_, ?_⟩
      · show list.erase h l ⟨some c.1⟩ = .ok (_, _, ⟨some d.1⟩)
        simp [list.erase, hit, hhne, htne, cassert, Heap.deref_ok hlc, Heap.setPrev_ok _ hld,
          Heap.deref_ok e1, Heap.setNext_ok _ e0, Heap.delete_ok e2, bind, Except.bind, pure,
          Except.pure]
      · refine ⟨?_, Nat.lt_of_succ_lt hlt2, ?_, ?_, ?_⟩
        · rw [hnum]; exact size_dec_eq hlt2
        · rw [firstPtr_append]; exact (hhd _).symm
        · rw [lastPtr_append, ht]; simp [lastPtr]
        · rw [seg_append]
          constructor
          · have h1 : seg (h.upd d.1 ⟨d.2, firstPtr post1 none, some b.1⟩) none
                (pre1 ++ [b]) (some c.1) :=
              seg_frame_upd hspre' _ (fun x hx => hn3 x hx d (by simp))
            exact seg_frame_release (seg_upd_next_last h1 hnb (some d.1)) hn1
          · simp only [lastPtr_append, lastPtr]
            have h1 := seg_upd_prev_head hspost (nodup_head hndpost) (some b.1)
            have h2 : seg ((h.upd d.1 ⟨d.2, firstPtr post1 none, some b.1⟩).upd b.1
                ⟨b.2, some d.1, lastPtr pre1 none⟩) (some b.1) (d :: post1) none :=
              seg_frame_upd h1 _ (fun x hx => (hn3 b (by simp) x hx).symm)
            exact seg_frame_release h2 hn2
      · simp [Heap.length_upd, Heap.length_release]
      · intro e he
        have hec : e ≠ c.1 := fun hx => he c (by simp) hx.symm
        have heb : e ≠ b.1 := fun hx => he b (by simp) hx.symm
        have hed : e ≠ d.1 := fun hx => he d (by simp) hx.symm
        rw [Heap.lookup_release_ne _ hec, Heap.lookup_upd_ne _ _ heb,
          Heap.lookup_upd_ne _ _ hed]

theorem seg_head_prev {α : Type} {h : Heap α} {cells : List (Nat × α)} {p n : Ptr}
    (hs : seg h p cells n) (hne : cells ≠ []) :
    ∃ a nd, firstPtr cells none = some a ∧ h.lookup a = some nd ∧ nd.pPrev = p := by
  cases cells with
  | nil => exact absurd rfl hne
  | cons c rest => exact ⟨c.1, _, rfl, hs.1, rfl⟩

theorem seg_last_next {α : Type} {h : Heap α} {cells : List (Nat × α)} {p n : Ptr}
    (hs : seg h p cells n) (hne : cells ≠ []) :
    ∃ a nd, lastPtr cells none = some a ∧ h.lookup a = some nd ∧ nd.pNext = n := by
  rcases eq_nil_or_snoc cells with rfl | ⟨init, t, rfl⟩
  · exact absurd rfl hne
  · rw [seg_concat] at hs
    exact ⟨t.1, _, by simp [lastPtr_append, lastPtr], hs.2, rfl⟩

theorem ListRep.insert_empty {α : Type} {h : Heap α} {l : list}
    (hr : ListRep h l ([] : List (Nat × α))) (it : list.iterator) (v : α)
    (hm : h.cells.length + 1 < SIZE_MOD) :
    ∃ h1 l1, list.insert h l it v = .ok (h1, l1, ⟨some h.cells.length⟩) ∧
      ListRep h1 l1 [(h.cells.length, v)] ∧
      h1.cells.length = h.cells.length + 1 ∧
      ∀ b, b ≠ h.cells.length → h1.lookup b = h.lookup b := by
  obtain ⟨hn, hlt, hh, ht, hs⟩ := hr
  obtain ⟨h0, a, hnew⟩ : ∃ h0 a, h.new v = some (h0, a) := ⟨_, _, Heap.new_ok h v hm⟩
  obtain ⟨rfl, -, hlen0, hla, hfr⟩ := Heap.new_spec hnew
  simp only [firstPtr, lastPtr, List.length_nil] at hh ht hn
  refine ⟨h0, ⟨1, some h.cells.length, some h.cells.length⟩, ?_, ?_, hlen0, hfr⟩
  · simp [list.insert, list.empty, list.size, hn, hh, ht, cassert, hnew, list.begin, bind,
      Except.bind, pure, Except.pure]
  · exact ⟨rfl, by simp [SIZE_MOD], rfl, rfl, by simp [seg, firstPtr, hla]⟩

theorem ListRep.insert_end {α : Type} {h : Heap α} {l : list} {cells : List (Nat × α)}
    (hr : ListRep h l cells) (v : α) (hm : h.cells.length + 1 < SIZE_MOD) :
    ∃ h1 l1, list.insert h l list.end v = .ok (h1, l1, ⟨some h.cells.length⟩) ∧
      ListRep h1 l1 (cells ++ [(h.cells.length, v)]) ∧
      h1.cells.length = h.cells.length + 1 ∧
      ∀ b, b ≠ h.cells.length → (∀ c ∈ cells, c.1 ≠ b) → h1.lookup b = h.lookup b := by
  rcases eq_nil_or_snoc cells with rfl | ⟨init, t, rfl⟩
  · obtain ⟨h1, l1, e, r, len, fr⟩ := ListRep.insert_empty hr list.end v hm
    exact ⟨h1, l1, e, r, len, fun b hb _ => fr b hb⟩
  obtain ⟨hn, hlt, hh, ht, hs⟩ := hr
  have hle := seg_length_le hs
  have hnd := seg_nodup hs
  obtain ⟨a0, nd0, hf0, hl0, hp0⟩ := seg_head_prev hs (by simp)
  obtain ⟨h0, a, hnew⟩ : ∃ h0 a, h.new v = some (h0, a) := ⟨_, _, Heap.new_ok h v hm⟩
  obtain ⟨rfl, -, hlen0, hla, hfr⟩ := Heap.new_spec hnew
  rw [lastPtr_append] at ht
  simp only [lastPtr] at ht
  rw [hf0] at hh
  rw [seg_concat] at hs
  obtain ⟨hsi, hlt1⟩ := hs
  have htlt : t.1 < h.cells.length := Heap.lookup_lt hlt1
  have htne : t.1 ≠ h.cells.length := by omega
  have h0t : h0.lookup t.1 = some ⟨t.2, none, lastPtr init none⟩ := by rw [hfr _ htne, hlt1]
  have hne0 : l.numElements ≠ 0 := by simp [hn]
  refine ⟨(h0.upd t.1 ⟨t.2, some h.cells.length, lastPtr init none⟩).upd h.cells.length
      ⟨v, none, some t.1⟩, ⟨size_inc l.numElements, l.pHead, some h.cells.length⟩,
    ?_, ?_, ?_, ?_⟩
  · have e1 : (h0.upd t.1 ⟨t.2, some h.cells.length, lastPtr init none⟩).lookup h.cells.length
        = some ⟨v, none, none⟩ := by
      rw [Heap.lookup_upd_ne _ _ (Ne.symm htne), hla]
    simp [list.insert, list.empty, list.size, hne0, hh, ht, cassert, Heap.deref_ok hl0, hp0,
      Heap.deref_ok hlt1, hnew, Heap.setNext_ok _ h0t, Heap.setPrev_ok _ e1, bind,
      Except.bind, pure, Except.pure]
  · have hn1 := nodup_last hnd
    have hfi : ∀ c ∈ init, ((h0.upd t.1 ⟨t.2, some h.cells.length, lastPtr init none⟩).upd
        h.cells.length ⟨v, none, some t.1⟩).lookup c.1 = h.lookup c.1 := by
      intro c hc
      have hc2 : c.1 ≠ h.cells.length := Nat.ne_of_lt (seg_mem_lt hsi hc)
      rw [Heap.lookup_upd_ne _ _ hc2, Heap.lookup_upd_ne _ _ (hn1 c hc), hfr _ hc2]
    refine ⟨?_, ?_, ?_, ?_, ?_⟩
    · simp only [List.length_append, List.length_singleton] at hn hlt hle ⊢
      rw [hn]; exact size_inc_eq (by omega)
    · simp only [List.length_append, List.length_singleton] at hle ⊢; omega
    · rw [hh, ← hf0]; simp only [firstPtr_append]; cases init <;> simp [firstPtr]
    · simp [lastPtr_append, lastPtr]
    · rw [seg_concat, seg_concat]
      refine ⟨⟨seg_frame hsi hfi, ?_⟩, ?_⟩
      · rw [Heap.lookup_upd_ne _ _ htne]
        exact Heap.lookup_upd_same _ h0t
      · simp only [lastPtr_append, lastPtr]
        exact Heap.lookup_upd_same _ (by rw [Heap.lookup_upd_ne _ _ (Ne.symm htne), hla])
  · simp [Heap.length_upd, hlen0]
  · intro b hb hbc
    have hbt : b ≠ t.1 := fun he => hbc t (by simp) he.symm
    rw [Heap.lookup_upd_ne _ _ hb, Heap.lookup_upd_ne _ _ hbt, hfr b hb]

theorem seg_frame_new {α : Type} {h h0 : Heap α} {xs : List (Nat × α)} {p n : Ptr}
    (hs : seg h p xs n) (hfr : ∀ b, b ≠ h.cells.length → h0.lookup b = h.lookup b) :
    seg h0 p xs n :=
  seg_frame hs (fun _ hc => hfr _ (Nat.ne_of_lt (seg_mem_lt hs hc)))

theorem ListRep.insert_at {α : Type} {h : Heap α} {l : list} {pre post : List (Nat × α)}
    {c : Nat × α} (hr : ListRep h l (pre ++ c :: post)) (v : α)
    (hm : h.cells.length + 1 < SIZE_MOD) :
    ∃ h1 l1, list.insert h l ⟨some c.1⟩ v = .ok (h1, l1, ⟨some h.cells.length⟩) ∧
      ListRep h1 l1 (pre ++ (h.cells.length, v) :: c :: post) ∧
      h1.cells.length = h.cells.length + 1 ∧
      ∀ b, b ≠ h.cells.length → (∀ e ∈ pre ++ c :: post, e.1 ≠ b) →
        h1.lookup b = h.lookup b := by
  obtain ⟨hn, hlt, hh, ht, hs⟩ := hr
  have hle := seg_length_le hs
  have hnd := seg_nodup hs
  obtain ⟨hn1, hn2, hn3⟩ := nodup_split hnd
  obtain ⟨hndpre, hndcpost⟩ := nodup_parts hnd
  obtain ⟨a0, nd0, hf0, hl0, hp0⟩ := seg_head_prev hs (by simp)
  obtain ⟨a1, nd1, hf1, hl1, hp1⟩ := seg_last_next hs (by simp)
  obtain ⟨h0, a, hnew⟩ : ∃ h0 a, h.new v = some (h0, a) := ⟨_, _, Heap.new_ok h v hm⟩
  obtain ⟨rfl, -, hlen0, hla, hfr⟩ := Heap.new_spec hnew
  have hh0 := hh
  have ht0 := ht
  rw [hf0] at hh
  rw [hf1] at ht
  rw [seg_append] at hs
  obtain ⟨hspre, hlc, hspost⟩ := hs
  simp only [firstPtr] at hspre
  have hclt : c.1 < h.cells.length := Heap.lookup_lt hlc
  have hca : c.1 ≠ h.cells.length := by omega
  have hne0 : l.numElements ≠ 0 := by simp [hn]
  have hit : ((⟨some c.1⟩ : list.iterator) = list.end) = False := by simp [list.end]
  have h0c : h0.lookup c.1 = some ⟨c.2, firstPtr post none, lastPtr pre none⟩ := by
    rw [hfr _ hca, hlc]
  have hnum : size_inc l.numElements = (pre ++ (h.cells.length, v) :: c :: post).length := by
    simp only [List.length_append, List.length_cons] at hn hlt hle ⊢
    rw [hn]; exact size_inc_eq (by omega)
  have hlt2 : (pre ++ (h.cells.length, v) :: c :: post).length < SIZE_MOD := by
    simp only [List.length_append, List.length_cons] at hle ⊢; omega
  have htl : l.pTail = lastPtr (pre ++ (h.cells.length, v) :: c :: post) none := by
    rw [ht0]; simp [lastPtr_append, lastPtr]
  rcases eq_nil_or_snoc pre with rfl | ⟨pre1, b, rfl⟩
  · simp only [lastPtr] at hlc h0c
    have e2 : (h0.upd h.cells.length ⟨v, none, none⟩).lookup h.cells.length
        = some ⟨v, none, none⟩ := Heap.lookup_upd_same _ hla
    have e3 : ((h0.upd h.cells.length ⟨v, none, none⟩).upd h.cells.length
        ⟨v, some c.1, none⟩).lookup h.cells.length = some ⟨v, some c.1, none⟩ :=
      Heap.lookup_upd_same _ e2
    have e4 : ((h0.upd h.cells.length ⟨v, none, none⟩).upd h.cells.length
        ⟨v, some c.1, none⟩).lookup c.1 = some ⟨c.2, firstPtr post none, none⟩ := by
      rw [Heap.lookup_upd_ne _ _ hca, Heap.lookup_upd_ne _ _ hca, h0c]
    refine ⟨(((h0.upd h.cells.length ⟨v, none, none⟩).upd h.cells.length
        ⟨v, some c.1, none⟩).upd c.1 ⟨c.2, firstPtr post none, some h.cells.length⟩),
      ⟨size_inc l.numElements, some h.cells.length, l.pTail⟩, ?_, ?_, ?_, ?_⟩
    · simp [list.insert, list.empty, list.size, hne0, hh, ht, cassert, Heap.deref_ok hl0, hp0,
        Heap.deref_ok hl1, hp1, hnew, hit, Heap.deref_ok h0c, Heap.setPrev_ok _ hla,
        Heap.setNext_ok _ e2, Heap.deref_ok e3, Heap.setPrev_ok _ e4, bind,
        Except.bind, pure, Except.pure]
    · refine ⟨hnum, hlt2, by simp [firstPtr], htl, ?_, ?_, ?_⟩
      · rw [Heap.lookup_upd_ne _ _ (Ne.symm hca), e3]; simp [firstPtr, lastPtr]
      · exact Heap.lookup_upd_same _ e4
      · refine seg_frame hspost (fun d hd => ?_)
        have hd1 : d.1 ≠ c.1 := hn2 d hd
        have hd2 : d.1 ≠ h.cells.length := Nat.ne_of_lt (seg_mem_lt hspost hd)
        rw [Heap.lookup_upd_ne _ _ hd1, Heap.lookup_upd_ne _ _ hd2,
          Heap.lookup_upd_ne _ _ hd2, hfr _ hd2]
    · simp [Heap.length_upd, hlen0]
    · intro e he hec
      have hec1 : e ≠ c.1 := fun hx => hec c (by simp) hx.symm
      rw [Heap.lookup_upd_ne _ _ hec1, Heap.lookup_upd_ne _ _ he,
        Heap.lookup_upd_ne _ _ he, hfr e he]
  · have hnb := nodup_last hndpre
    have hbc : b.1 ≠ c.1 := hn1 b (by simp)
    rw [seg_concat] at hspre
    obtain ⟨hspre1, hlb⟩ := hspre
    have hba : b.1 ≠ h.cells.length := Nat.ne_of_lt (Heap.lookup_lt hlb)
    simp only [lastPtr_append, lastPtr] at hlc h0c
    have e2 : (h0.upd h.cells.length ⟨v, none, some b.1⟩).lookup h.cells.length
        = some ⟨v, none, some b.1⟩ := Heap.lookup_upd_same _ hla
    have e3 : ((h0.upd h.cells.length ⟨v, none, some b.1⟩).upd h.cells.length
        ⟨v, some c.1, some b.1⟩).lookup h.cells.length = some ⟨v, some c.1, some b.1⟩ :=
      Heap.lookup_upd_same _ e2
    have e3b : ((h0.upd h.cells.length ⟨v, none, some b.1⟩).upd h.cells.length
        ⟨v, some c.1, some b.1⟩).lookup b.1 = some ⟨b.2, some c.1, lastPtr pre1 none⟩ := by
      rw [Heap.lookup_upd_ne _ _ hba, Heap.lookup_upd_ne _ _ hba, hfr _ hba, hlb]
    have e4a : (((h0.upd h.cells.length ⟨v, none, some b.1⟩).upd h.cells.length
        ⟨v, some c.1, some b.1⟩).upd b.1 ⟨b.2, some h.cells.length, lastPtr pre1 none⟩).lookup
        h.cells.length = some ⟨v, some c.1, some b.1⟩ := by
      rw [Heap.lookup_upd_ne _ _ (Ne.symm hba), e3]
    have e4 : (((h0.upd h.cells.length ⟨v, none, some b.1⟩).upd h.cells.length
        ⟨v, some c.1, some b.1⟩).upd b.1 ⟨b.2, some h.cells.length, lastPtr pre1 none⟩).lookup
        c.1 = some ⟨c.2, firstPtr post none, some b.1⟩ := by
      rw [Heap.lookup_upd_ne _ _ (Ne.symm hbc), Heap.lookup_upd_ne _ _ hca,
        Heap.lookup_upd_ne _ _ hca, h0c]
    refine ⟨((((h0.upd h.cells.length ⟨v, none, some b.1⟩).upd h.cells.length
        ⟨v, some c.1, some b.1⟩).upd b.1 ⟨b.2, some h.cells.length, lastPtr pre1 none⟩).upd
        c.1 ⟨c.2, firstPtr post none, some h.cells.length⟩),
      ⟨size_inc l.numElements, l.pHead, l.pTail⟩, ?_, ?_, ?_, ?_⟩
    · simp [list.insert, list.empty, list.size, hne0, hh, ht, cassert, Heap.deref_ok hl0, hp0,
        Heap.deref_ok hl1, hp1, hnew, hit, Heap.deref_ok h0c, Heap.setPrev_ok _ hla,
        Heap.setNext_ok _ e2, Heap.deref_ok e3, Heap.setNext_ok _ e3b, Heap.deref_ok e4a,
        Heap.setPrev_ok _ e4, bind, Except.bind, pure, Except.pure]
    · refine ⟨hnum, hlt2, ?_, htl, ?_⟩
      · rw [hh0]; simp only [firstPtr_append]; cases pre1 <;> simp [firstPtr]
      · rw [seg_append, seg_concat]
        refine ⟨⟨?_, ?_⟩, ?_, ?_, ?_⟩
        · refine seg_frame hspre1 (fun d hd => ?_)
          have hd0 : d.1 ≠ h.cells.length := Nat.ne_of_lt (seg_mem_lt hspre1 hd)
          have hd1 : d.1 ≠ c.1 := hn1 d (by simp [hd])
          have hd2 : d.1 ≠ b.1 := hnb d hd
          rw [Heap.lookup_upd_ne _ _ hd1, Heap.lookup_upd_ne _ _ hd2,
            Heap.lookup_upd_ne _ _ hd0, Heap.lookup_upd_ne _ _ hd0, hfr _ hd0]
        · rw [Heap.lookup_upd_ne _ _ hbc]
          simp only [firstPtr]
          exact Heap.lookup_upd_same _ e3b
        · rw [Heap.lookup_upd_ne _ _ (Ne.symm hca), e4a]
          simp [firstPtr, lastPtr_append, lastPtr]
        · exact Heap.lookup_upd_same _ e4
        · refine seg_frame hspost (fun d hd => ?_)
          have hd0 : d.1 ≠ h.cells.length := Nat.ne_of_lt (seg_mem_lt hspost hd)
          have hd1 : d.1 ≠ c.1 := hn2 d hd
          have hd2 : d.1 ≠ b.1 := (hn3 b (by simp) d hd).symm
          rw [Heap.lookup_upd_ne _ _ hd1, Heap.lookup_upd_ne _ _ hd2,
            Heap.lookup_upd_ne _ _ hd0, Heap.lookup_upd_ne _ _ hd0, hfr _ hd0]
    · simp [Heap.length_upd, hlen0]
    · intro e he hec
      have hec1 : e ≠ c.1 := fun hx => hec c (by simp) hx.symm
      have heb : e ≠ b.1 := fun hx => hec b (by simp) hx.symm
      rw [Heap.lookup_upd_ne _ _ hec1, Heap.lookup_upd_ne _ _ heb,
        Heap.lookup_upd_ne _ _ he, Heap.lookup_upd_ne _ _ he, hfr e he]

theorem clearLoop_spec {α : Type} (cells : List (Nat × α)) :
    ∀ (fuel : Nat) (h : Heap α) (p : Ptr), seg h p cells none →
      (cells.map Prod.fst).Nodup →
      cells.length ≤ fuel →
      ∃ h1, list.clearLoop fuel h (firstPtr cells none) = .ok h1 ∧
        h1.cells.length = h.cells.length ∧
        (∀ b, (∀ c ∈ cells, c.1 ≠ b) → h1.lookup b = h.lookup b) ∧
        (∀ c ∈ cells, h1.lookup c.1 = none) := by
  induction cells with
  | nil =>
    intro fuel h p _ _ _
    refine ⟨h, ?_, rfl, fun _ _ => rfl, by simp⟩
    cases fuel <;> simp [firstPtr, list.clearLoop]
  | cons c rest ih =>
    intro fuel h p hs hnd hlen
    cases fuel with
    | zero => simp at hlen
    | succ fuel =>
      have hne := nodup_head hnd
      have hs1 : seg (h.release c.1) (some c.1) rest none := seg_frame_release hs.2 hne
      obtain ⟨h1, he, hl, hfr, hdead⟩ := ih fuel (h.release c.1) (some c.1) hs1
        (@nodup_parts _ [c] _ hnd).2 (by simpa using hlen)
      refine ⟨h1, ?_, ?_, ?_, ?_⟩
      · show list.clearLoop (fuel + 1) h (some c.1) = _
        simp only [list.clearLoop, Heap.deref_ok hs.1, Heap.delete_ok hs.1, bind, Except.bind]
        exact he
      · rw [hl, Heap.length_release]
      · intro b hb
        rw [hfr b (fun x hx => hb x (List.mem_cons_of_mem _ hx)),
          Heap.lookup_release_ne _ (fun hx => hb c (List.mem_cons_self _ _) hx.symm)]
      · intro x hx
        rcases List.mem_cons.1 hx with rfl | hx
        · rw [hfr _ (fun y hy => hne y hy), Heap.lookup_release_same]
        · exact hdead x hx

theorem ListRep.nil {α : Type} (h : Heap α) : ListRep h ⟨0, none, none⟩ ([] : List (Nat × α)) :=
  ⟨rfl, by simp [SIZE_MOD], rfl, rfl, trivial⟩

theorem ListRep.clear {α : Type} {h : Heap α} {l : list} {cells : List (Nat × α)}
    (hr : ListRep h l cells) :
    ∃ h1, list.clear h l = .ok (h1, ⟨0, none, none⟩) ∧
      ListRep h1 ⟨0, none, none⟩ ([] : List (Nat × α)) ∧
      h1.cells.length = h.cells.length ∧
      (∀ b, (∀ c ∈ cells, c.1 ≠ b) → h1.lookup b = h.lookup b) := by
  obtain ⟨hn, hlt, hh, ht, hs⟩ := hr
  obtain ⟨h1, he, hl, hfr, -⟩ :=
    clearLoop_spec cells h.cells.length h none hs (seg_nodup hs) (seg_length_le hs)
  refine ⟨h1, ?_, ListRep.nil h1, hl, hfr⟩
  simp [list.clear, hh, he, bind, Except.bind, pure, Except.pure]

theorem seg_iff_next_prev {α : Type} (h : Heap α) (cells : List (Nat × α)) (p n : Ptr) :
    seg h p cells n ↔ nextOK h cells n ∧ prevOK h p cells := by
  induction cells generalizing p with
  | nil => simp [seg, nextOK, prevOK]
  | cons c rest ih =>
    simp only [seg, nextOK, prevOK, ih]
    constructor
    · rintro ⟨hl, hn, hp⟩
      exact ⟨⟨⟨_, hl, rfl, rfl⟩, hn⟩, ⟨_, hl, rfl⟩, hp⟩
    · rintro ⟨⟨⟨nd, hl, hd, hnx⟩, hn⟩, ⟨nd1, hl1, hpv⟩, hp⟩
      refine ⟨?_, hn, hp⟩
      rw [hl] at hl1
      cases hl1
      rw [hl, ← hd, ← hnx, ← hpv]

theorem prevOK_concat {α : Type} (h : Heap α) (xs : List (Nat × α)) (c : Nat × α) (p : Ptr) :
    prevOK h p (xs ++ [c]) ↔
      prevOK h p xs ∧ ∃ nd, h.lookup c.1 = some nd ∧ nd.pPrev = lastPtr xs p := by
  induction xs generalizing p with
  | nil => simp [prevOK, lastPtr]
  | cons d rest ih =>
    show prevOK h p (d :: (rest ++ [c])) ↔ _
    simp only [prevOK, ih, lastPtr, and_assoc]

theorem forward_of_seg {α : Type} {h : Heap α} {cells : List (Nat × α)} {p : Ptr}
    (hs : seg h p cells none) {fuel : Nat} (hf : cells.length ≤ fuel) :
    list.forward fuel h (firstPtr cells none) = some (cells.map Prod.fst) := by
  induction cells generalizing p fuel with
  | nil => cases fuel <;> simp [firstPtr, list.forward]
  | cons c rest ih =>
    cases fuel with
    | zero => simp at hf
    | succ fuel =>
      show list.forward (fuel + 1) h (some c.1) = _
      simp only [list.forward, hs.1]
      rw [ih hs.2 (by simpa using hf)]
      rfl

theorem backward_of_seg {α : Type} {h : Heap α} {cells : List (Nat × α)} {n : Ptr}
    (hs : seg h none cells n) {fuel : Nat} (hf : cells.length ≤ fuel) :
    list.backward fuel h (lastPtr cells none) = some (cells.map Prod.fst).reverse := by
  induction cells using List.reverseRecOn generalizing n fuel with
  | nil => cases fuel <;> simp [lastPtr, list.backward]
  | append_singleton xs c ih =>
    rw [seg_concat] at hs
    cases fuel with
    | zero => simp at hf
    | succ fuel =>
      rw [lastPtr_append]
      show list.backward (fuel + 1) h (some c.1) = _
      simp only [list.backward, hs.2]
      rw [ih hs.1 (by simpa using hf)]
      simp

theorem wellFormed_of_rep {α : Type} {h : Heap α} {l : list} {cells : List (Nat × α)}
    (hr : ListRep h l cells) : list.wellFormed h l = true := by
  obtain ⟨hn, hlt, hh, ht, hs⟩ := hr
  unfold list.wellFormed
  rw [hh, ht, forward_of_seg hs (Nat.le_of_eq hn.symm),
    backward_of_seg hs (Nat.le_of_eq hn.symm)]
  simp [hn, hlt]

theorem nextOK_of_forward {α : Type} {h : Heap α} :
    ∀ (fuel : Nat) (p : Ptr) (f : List Nat), list.forward fuel h p = some f →
      ∃ cells : List (Nat × α), cells.map Prod.fst = f ∧ p = firstPtr cells none ∧
        nextOK h cells none := by
  intro fuel
  induction fuel with
  | zero =>
    intro p f hf
    cases p with
    | none =>
      simp only [list.forward, Option.some.injEq] at hf
      exact ⟨[], by simp [hf], rfl, trivial⟩
    | some a => simp [list.forward] at hf
  | succ fuel ih =>
    intro p f hf
    cases p with
    | none =>
      simp only [list.forward, Option.some.injEq] at hf
      exact ⟨[], by simp [hf], rfl, trivial⟩
    | some a =>
      simp only [list.forward] at hf
      cases hl : h.lookup a with
      | none => simp [hl] at hf
      | some nd =>
        simp only [hl, Option.map_eq_some'] at hf
        obtain ⟨f1, hf1, rfl⟩ := hf
        obtain ⟨cells, hm, hp, hnx⟩ := ih nd.pNext f1 hf1
        exact ⟨(a, nd.data) :: cells, by simp [hm], rfl, ⟨nd, hl, rfl, hp⟩, hnx⟩

theorem prevOK_of_backward {α : Type} {h : Heap α} :
    ∀ (fuel : Nat) (q : Ptr) (cells : List (Nat × α)),
      list.backward fuel h q = some (cells.map Prod.fst).reverse →
      q = lastPtr cells none ∧ prevOK h none cells := by
  intro fuel
  induction fuel with
  | zero =>
    intro q cells hb
    cases q with
    | none =>
      simp only [list.backward, Option.some.injEq] at hb
      have : cells = [] := by simpa using hb.symm
      subst this
      exact ⟨rfl, trivial⟩
    | some a => simp [list.backward] at hb
  | succ fuel ih =>
    intro q cells hb
    cases q with
    | none =>
      simp only [list.backward, Option.some.injEq] at hb
      have : cells = [] := by simpa using hb.symm
      subst this
      exact ⟨rfl, trivial⟩
    | some a =>
      simp only [list.backward] at hb
      cases hl : h.lookup a with
      | none => simp [hl] at hb
      | some nd =>
        simp only [hl, Option.map_eq_some'] at hb
        obtain ⟨g, hg, hag⟩ := hb
        rcases eq_nil_or_snoc cells with rfl | ⟨xs, c, rfl⟩
        · simp at hag
        · simp only [List.map_append, List.map_cons, List.map_nil, List.reverse_append,
            List.reverse_cons, List.reverse_nil, List.nil_append, List.singleton_append,
            List.cons.injEq] at hag
          obtain ⟨rfl, rfl⟩ := hag
          obtain ⟨hq, hp⟩ := ih nd.pPrev xs hg
          refine ⟨by simp [lastPtr_append, lastPtr], ?_⟩
          rw [prevOK_concat]
          exact ⟨hp, nd, hl, hq⟩

theorem rep_of_wellFormed {α : Type} {h : Heap α} {l : list}
    (hw : list.wellFormed h l = true) : ∃ cells : List (Nat × α), ListRep h l cells := by
  unfold list.wellFormed at hw
  rw [Bool.and_eq_true] at hw
  obtain ⟨hlt, hw⟩ := hw
  cases hf : list.forward l.numElements h l.pHead with
  | none => simp [hf] at hw
  | some f =>
    cases hb : list.backward l.numElements h l.pTail with
    | none => simp [hf, hb] at hw
    | some b =>
      simp only [hf, hb, Bool.and_eq_true, beq_iff_eq] at hw
      obtain ⟨hlen, rfl⟩ := hw
      obtain ⟨cells, hm, hp, hnx⟩ := nextOK_of_forward (α := α) _ _ _ hf
      subst hm
      obtain ⟨hq, hpv⟩ := prevOK_of_backward _ _ cells hb
      have hlen' : cells.length = l.numElements := by simpa using hlen
      refine ⟨cells, hlen'.symm, ?_, hp, hq, (seg_iff_next_prev _ _ _ _).2 ⟨hnx, hpv⟩⟩
      rw [hlen']; exact of_decide_eq_true hlt

theorem wellFormed_iff {α : Type} (h : Heap α) (l : list) :
    list.wellFormed h l = true ↔ ∃ cells : List (Nat × α), ListRep h l cells :=
  ⟨rep_of_wellFormed, fun ⟨_, hr⟩ => wellFormed_of_rep hr⟩

theorem relabel_fst {α : Type} (L R : List (Nat × α)) :
    (relabel L R).map Prod.fst = L.map Prod.fst := by
  induction L generalizing R with
  | nil => simp [relabel]
  | cons c L ih => cases R <;> simp [relabel, ih]

theorem relabel_length {α : Type} (L R : List (Nat × α)) :
    (relabel L R).length = L.length := by
  simpa using congrArg List.length (relabel_fst L R)

theorem relabel_firstPtr {α : Type} (L R : List (Nat × α)) (d : Ptr) :
    firstPtr (relabel L R) d = firstPtr L d := by
  cases L <;> cases R <;> simp [relabel, firstPtr]

theorem relabel_mem {α : Type} {L R : List (Nat × α)} {x : Nat × α} (hx : x ∈ relabel L R) :
    ∃ c ∈ L, c.1 = x.1 := by
  have : x.1 ∈ (relabel L R).map Prod.fst := List.mem_map_of_mem _ hx
  rw [relabel_fst] at this
  obtain ⟨c, hc, he⟩ := List.mem_map.1 this
  exact ⟨c, hc, he⟩

theorem iterator_ne_end (a : Nat) : ((⟨some a⟩ : list.iterator) ≠ list.end) := by
  simp [list.end]

theorem assignCopy_spec {α : Type} (L : List (Nat × α)) :
    ∀ (R : List (Nat × α)) (fuel : Nat) (h : Heap α) (p q : Ptr),
      seg h p L none → seg h q R none → (∀ c ∈ L, ∀ d ∈ R, c.1 ≠ d.1) → L.length ≤ fuel →
      ∃ h1, list.assignCopy fuel h ⟨firstPtr R none⟩ ⟨firstPtr L none⟩
          = .ok (h1, ⟨firstPtr (R.drop L.length) none⟩, ⟨firstPtr (L.drop R.length) none⟩) ∧
        seg h1 p (relabel L R) none ∧ seg h1 q R none ∧
        h1.cells.length = h.cells.length ∧
        ∀ b, (∀ c ∈ L, c.1 ≠ b) → h1.lookup b = h.lookup b := by
  induction L with
  | nil =>
    intro R fuel h p q _ hR _ _
    refine ⟨h, ?_, trivial, hR, rfl, fun _ _ => rfl⟩
    cases fuel <;> simp [list.assignCopy, firstPtr, list.end]
  | cons c L ih =>
    intro R fuel h p q hL hR hdis hfuel
    cases R with
    | nil =>
      refine ⟨h, ?_, hL, hR, rfl, fun _ _ => rfl⟩
      cases fuel <;> simp [list.assignCopy, firstPtr, list.end]
    | cons d R =>
      cases fuel with
      | zero => simp at hfuel
      | succ fuel =>
        have hnd := seg_nodup hL
        have hcd : c.1 ≠ d.1 := hdis c (by simp) d (by simp)
        have hLc := nodup_head hnd
        have e1 : (h.upd c.1 ⟨d.2, firstPtr L none, p⟩).lookup c.1
            = some ⟨d.2, firstPtr L none, p⟩ := Heap.lookup_upd_same _ hL.1
        have e2 : (h.upd c.1 ⟨d.2, firstPtr L none, p⟩).lookup d.1
            = some ⟨d.2, firstPtr R none, q⟩ := by
          rw [Heap.lookup_upd_ne _ _ (Ne.symm hcd)]; exact hR.1
        have hL1 : seg (h.upd c.1 ⟨d.2, firstPtr L none, p⟩) (some c.1) L none :=
          seg_frame_upd hL.2 _ hLc
        have hR1 : seg (h.upd c.1 ⟨d.2, firstPtr L none, p⟩) (some d.1) R none :=
          seg_frame_upd hR.2 _ (fun x hx => (hdis c (by simp) x (by simp [hx])).symm)
        obtain ⟨h1, he, hsL, hsR, hlen, hfr⟩ := ih R fuel _ (some c.1) (some d.1) hL1 hR1
          (fun x hx y hy => hdis x (by simp [hx]) y (by simp [hy])) (by simpa using hfuel)
        refine ⟨h1, ?_, ?_, ?_, ?_, ?_⟩
        · show list.assignCopy (fuel + 1) h ⟨some d.1⟩ ⟨some c.1⟩ = _
          simp only [list.assignCopy, iterator_ne_end, ne_eq, not_false_eq_true, and_self,
            if_true, list.iterator.deref, list.iterator.assign, list.iterator.next,
            Heap.deref_ok hR.1, Heap.setData_ok _ hL.1, Heap.deref_ok e1, Heap.deref_ok e2,
            bind, Except.bind, pure, Except.pure]
          simpa using he
        · refine ⟨?_, hsL⟩
          rw [hfr _ hLc, e1, relabel_firstPtr]
        · refine ⟨?_, hsR⟩
          rw [hfr _ (fun x hx => hdis x (by simp [hx]) d (by simp)), e2]
        · rw [hlen, Heap.length_upd]
        · intro b hb
          rw [hfr b (fun x hx => hb x (by simp [hx])),
            Heap.lookup_upd_ne _ _ (fun hx => hb c (by simp) hx.symm)]

theorem push_back_fail {α : Type} (h : Heap α) (l : list) (v : α)
    (hm : ¬ h.cells.length + 1 < SIZE_MOD) :
    list.push_back h l v = .error (.thrown ALLOC_MSG) := by
  simp [list.push_back, Heap.new, hm]

theorem assignPush_spec {α : Type} (R : List (Nat × α)) :
    ∀ (fuel : Nat) (h : Heap α) (l : list) (cur : List (Nat × α)) (q : Ptr),
      ListRep h l cur → seg h q R none → (∀ c ∈ cur, ∀ d ∈ R, c.1 ≠ d.1) →
      R.length ≤ fuel → (R ≠ [] → h.cells.length + R.length < SIZE_MOD) →
      ∃ h1 l1 news, list.assignPush fuel h l ⟨firstPtr R none⟩ = .ok (h1, l1) ∧
        ListRep h1 l1 (cur ++ news) ∧ news.map Prod.snd = R.map Prod.snd ∧
        seg h1 q R none ∧ h1.cells.length = h.cells.length + R.length ∧
        (∀ b, b < h.cells.length → (∀ c ∈ cur, c.1 ≠ b) → h1.lookup b = h.lookup b) ∧
        ∀ c ∈ news, h.cells.length ≤ c.1 := by
  induction R with
  | nil =>
    intro fuel h l cur q hr _ _ _ _
    refine ⟨h, l, [], ?_, by simpa using hr, rfl, trivial, rfl, fun _ _ _ => rfl,
      fun c hc => absurd hc (List.not_mem_nil c)⟩
    cases fuel <;> simp [list.assignPush, firstPtr, list.end]
  | cons d R ih =>
    intro fuel h l cur q hr hR hdis hfuel hroom
    cases fuel with
    | zero => simp at hfuel
    | succ fuel =>
      have hroom1 := hroom (by simp)
      simp only [List.length_cons] at hroom1
      obtain ⟨h1, l1, he1, hr1, hlen1, hfr1⟩ := hr.push_back d.2 (by omega)
      have hdlt : d.1 < h.cells.length := Heap.lookup_lt hR.1
      have hfrR : ∀ x ∈ d :: R, h1.lookup x.1 = h.lookup x.1 := by
        intro x hx
        exact hfr1 _ (Nat.ne_of_lt (seg_mem_lt hR hx)) (fun c hc => hdis c hc x hx)
      have hR1 : seg h1 q (d :: R) none := seg_frame hR hfrR
      have hdis1 : ∀ c ∈ cur ++ [(h.cells.length, d.2)], ∀ x ∈ R, c.1 ≠ x.1 := by
        intro c hc x hx
        rcases List.mem_append.1 hc with hc | hc
        · exact hdis c hc x (by simp [hx])
        · simp only [List.mem_singleton] at hc
          subst hc
          exact Ne.symm (Nat.ne_of_lt (seg_mem_lt hR.2 hx))
      obtain ⟨h2, l2, news, he2, hr2, hnews, hsR2, hlen2, hfr2, hge2⟩ :=
        ih fuel h1 l1 _ (some d.1) hr1 hR1.2 hdis1 (by simpa using hfuel)
          (fun _ => by rw [hlen1]; omega)
      refine ⟨h2, l2, (h.cells.length, d.2) :: news, ?_, ?_, ?_, ?_, ?_, ?_, ?_⟩
      · show list.assignPush (fuel + 1) h l ⟨some d.1⟩ = _
        simp only [list.assignPush, iterator_ne_end, ne_eq, not_false_eq_true, if_true,
          list.iterator.deref, list.iterator.next, Heap.deref_ok hR.1, he1,
          Heap.deref_ok hR1.1, bind, Except.bind, pure, Except.pure]
        exact he2
      · simpa using hr2
      · simp [hnews]
      · refine ⟨?_, hsR2⟩
        rw [hfr2 _ (by rw [hlen1]; omega) (fun c hc => ?_), hR1.1]
        rcases List.mem_append.1 hc with hc | hc
        · exact hdis c hc d (by simp)
        · simp only [List.mem_singleton] at hc
          subst hc
          exact Ne.symm (Nat.ne_of_lt hdlt)
      · rw [hlen2, hlen1]; simp only [List.length_cons]; omega
      · intro b hb hbc
        rw [hfr2 b (by rw [hlen1]; omega) (fun c hc => ?_), hfr1 b (Nat.ne_of_lt hb) hbc]
        rcases List.mem_append.1 hc with hc | hc
        · exact hbc c hc
        · simp only [List.mem_singleton] at hc
          subst hc
          exact Ne.symm (Nat.ne_of_lt hb)
      · intro c hc
        rcases List.mem_cons.1 hc with rfl | hc
        · exact Nat.le_refl _
        · have := hge2 c hc
          rw [hlen1] at this
          omega

theorem assignPush_fail {α : Type} (R : List (Nat × α)) :
    ∀ (fuel : Nat) (h : Heap α) (l : list) (cur : List (Nat × α)) (q : Ptr),
      ListRep h l cur → seg h q R none → (∀ c ∈ cur, ∀ d ∈ R, c.1 ≠ d.1) →
      R.length ≤ fuel → R ≠ [] → ¬ h.cells.length + R.length < SIZE_MOD →
      list.assignPush fuel h l ⟨firstPtr R none⟩ = .error (.thrown ALLOC_MSG) := by
  induction R with
  | nil => intro _ _ _ _ _ _ _ _ _ hne; exact absurd rfl hne
  | cons d R ih =>
    intro fuel h l cur q hr hR hdis hfuel _ hroom
    cases fuel with
    | zero => simp at hfuel
    | succ fuel =>
      simp only [List.length_cons] at hroom
      by_cases hm : h.cells.length + 1 < SIZE_MOD
      · obtain ⟨h1, l1, he1, hr1, hlen1, hfr1⟩ := hr.push_back d.2 hm
        have hfrR : ∀ x ∈ d :: R, h1.lookup x.1 = h.lookup x.1 := by
          intro x hx
          exact hfr1 _ (Nat.ne_of_lt (seg_mem_lt hR hx)) (fun c hc => hdis c hc x hx)
        have hR1 : seg h1 q (d :: R) none := seg_frame hR hfrR
        have hdis1 : ∀ c ∈ cur ++ [(h.cells.length, d.2)], ∀ x ∈ R, c.1 ≠ x.1 := by
          intro c hc x hx
          rcases List.mem_append.1 hc with hc | hc
          · exact hdis c hc x (by simp [hx])
          · simp only [List.mem_singleton] at hc
            subst hc
            exact Ne.symm (Nat.ne_of_lt (seg_mem_lt hR.2 hx))
        have hne : R ≠ [] := by
          rintro rfl
          simp at hroom
          omega
        have := ih fuel h1 l1 _ (some d.1) hr1 hR1.2 hdis1 (by simpa using hfuel) hne
          (by rw [hlen1]; omega)
        show list.assignPush (fuel + 1) h l ⟨some d.1⟩ = _
        simp only [list.assignPush, iterator_ne_end, ne_eq, not_false_eq_true, if_true,
          list.iterator.deref, list.iterator.next, Heap.deref_ok hR.1, he1,
          Heap.deref_ok hR1.1, bind, Except.bind, pure, Except.pure]
        exact this
      · show list.assignPush (fuel + 1) h l ⟨some d.1⟩ = _
        simp only [list.assignPush, iterator_ne_end, ne_eq, not_false_eq_true, if_true,
          list.iterator.deref, Heap.deref_ok hR.1, push_back_fail h l d.2 hm,
          bind, Except.bind, pure, Except.pure]

theorem size_dec_sub {n : Nat} (k : Nat) (hk : k ≤ n) (hn : n < SIZE_MOD) :
    (size_dec^[k]) n = n - k := by
  induction k generalizing n with
  | zero => rfl
  | succ k ih =>
    rw [Function.iterate_succ_apply]
    obtain ⟨m, rfl⟩ : ∃ m, n = m + 1 := ⟨n - 1, by omega⟩
    rw [size_dec_eq hn, ih (by omega) (by omega)]
    omega

theorem assignTrim_spec {α : Type} (cells : List (Nat × α)) :
    ∀ (fuel : Nat) (h : Heap α) (p : Ptr) (n : Nat), seg h p cells none →
      (cells.map Prod.fst).Nodup → cells.length ≤ fuel →
      ∃ h1, list.assignTrim fuel h n (firstPtr cells none)
          = .ok (h1, (size_dec^[cells.length]) n) ∧
        h1.cells.length = h.cells.length ∧
        (∀ b, (∀ c ∈ cells, c.1 ≠ b) → h1.lookup b = h.lookup b) := by
  induction cells with
  | nil =>
    intro fuel h p n _ _ _
    refine ⟨h, ?_, rfl, fun _ _ => rfl⟩
    cases fuel <;> simp [firstPtr, list.assignTrim]
  | cons c rest ih =>
    intro fuel h p n hs hnd hlen
    cases fuel with
    | zero => simp at hlen
    | succ fuel =>
      have hne := nodup_head hnd
      have hs1 : seg (h.release c.1) (some c.1) rest none := seg_frame_release hs.2 hne
      obtain ⟨h1, he, hl, hfr⟩ := ih fuel (h.release c.1) (some c.1) (size_dec n) hs1
        (@nodup_parts _ [c] _ hnd).2 (by simpa using hlen)
      refine ⟨h1, ?_, ?_, ?_⟩
      · show list.assignTrim (fuel + 1) h n (some c.1) = _
        simp only [list.assignTrim, Heap.deref_ok hs.1, Heap.delete_ok hs.1, bind,
          Except.bind]
        rw [he, List.length_cons, Function.iterate_succ_apply]
      · rw [hl, Heap.length_release]
      · intro b hb
        rw [hfr b (fun x hx => hb x (List.mem_cons_of_mem _ hx)),
          Heap.lookup_release_ne _ (fun hx => hb c (List.mem_cons_self _ _) hx.symm)]

theorem relabel_lastPtr {α : Type} (L R : List (Nat × α)) (d : Ptr) :
    lastPtr (relabel L R) d = lastPtr L d := by
  induction L generalizing R d with
  | nil => simp [relabel]
  | cons c L ih => cases R <;> simp [relabel, lastPtr, ih]

theorem relabel_snd_of_le {α : Type} (L R : List (Nat × α)) (hle : L.length ≤ R.length) :
    (relabel L R).map Prod.snd = (R.take L.length).map Prod.snd := by
  induction L generalizing R with
  | nil => simp [relabel]
  | cons c L ih =>
    cases R with
    | nil => simp at hle
    | cons d R => simp [relabel, ih R (by simpa using hle)]

theorem relabel_split {α : Type} (L R : List (Nat × α)) (hle : R.length ≤ L.length) :
    relabel L R = relabel (L.take R.length) R ++ L.drop R.length := by
  induction L generalizing R with
  | nil => cases R <;> simp [relabel]
  | cons c L ih =>
    cases R with
    | nil => simp [relabel]
    | cons d R =>
      simp only [relabel, List.length_cons, List.take_succ_cons, List.drop_succ_cons,
        List.cons_append, List.cons.injEq, true_and]
      exact ih R (by simpa using hle)

theorem ListRep.after_copy {α : Type} {h h1 : Heap α} {l : list} {L : List (Nat × α)}
    (hr : ListRep h l L) (R : List (Nat × α)) (hs : seg h1 none (relabel L R) none) :
    ListRep h1 l (relabel L R) := by
  obtain ⟨hn, hlt, hh, ht, -⟩ := hr
  exact ⟨by rw [relabel_length]; exact hn, by rw [relabel_length]; exact hlt,
    by rw [relabel_firstPtr]; exact hh, by rw [relabel_lastPtr]; exact ht, hs⟩

theorem firstPtr_ne_nil {α : Type} {xs : List (Nat × α)} (hx : xs ≠ []) :
    ∃ a, firstPtr xs none = some a := by
  cases xs with
  | nil => exact absurd rfl hx
  | cons c rest => exact ⟨c.1, rfl⟩

theorem ListRep.empty_iff {α : Type} {h : Heap α} {l : list} {cells : List (Nat × α)}
    (hr : ListRep h l cells) : l.empty = true ↔ cells = [] := by
  simp [list.empty, list.size, hr.1]

theorem assign_unfold {α : Type} {h h1 : Heap α} {lhs rhs : list} {itR itL : list.iterator}
    (he : list.assignCopy h.cells.length h rhs.begin lhs.begin = .ok (h1, itR, itL)) :
    list.assign h lhs rhs =
      (if itR ≠ list.end then list.assignPush h1.cells.length h1 lhs itR
      else if rhs.empty then list.clear h1 lhs
      else if itL ≠ list.end then do
        cassert (itL.p != none)
        let nd ← h1.deref itL.p
        let (h2, n) ← list.assignTrim h1.cells.length h1 lhs.numElements itL.p
        let h3 ← h2.setNext nd.pPrev none
        pure (h3, ⟨n, lhs.pHead, nd.pPrev⟩)
      else pure (h1, lhs)) := by
  unfold list.assign
  rw [he]
  rfl

theorem ListRep.assign_disjoint {α : Type} {h : Heap α} {lhs rhs : list}
    {L R : List (Nat × α)} (hL : ListRep h lhs L) (hR : ListRep h rhs R)
    (hdis : ∀ c ∈ L, ∀ d ∈ R, c.1 ≠ d.1)
    (hroom : L.length < R.length → h.cells.length + (R.length - L.length) < SIZE_MOD) :
    ∃ h1 l1 cells, list.assign h lhs rhs = .ok (h1, l1) ∧ ListRep h1 l1 cells ∧
      cells.map Prod.snd = R.map Prod.snd ∧ ListRep h1 rhs R ∧
      (h.cells.length ≤ h1.cells.length ∧ h1.cells.length ≤ h.cells.length + R.length ∧
        (∀ b, b < h.cells.length → (∀ c ∈ L, c.1 ≠ b) → h1.lookup b = h.lookup b) ∧
        ∀ c ∈ cells, (∃ d ∈ L, d.1 = c.1) ∨ h.cells.length ≤ c.1) := by
  have hLs := hL.2.2.2.2
  have hRs := hR.2.2.2.2
  obtain ⟨h1, he, hsL, hsR, hlen, hfr⟩ :=
    assignCopy_spec L R h.cells.length h none none hLs hRs hdis (seg_length_le hLs)
  have hb1 : rhs.begin = ⟨firstPtr R none⟩ := by simp [list.begin, hR.2.2.1]
  have hb2 : lhs.begin = ⟨firstPtr L none⟩ := by simp [list.begin, hL.2.2.1]
  rw [← hb1, ← hb2] at he
  have hL1 : ListRep h1 lhs (relabel L R) := hL.after_copy R hsL
  have hR1 : ListRep h1 rhs R := ⟨hR.1, hR.2.1, hR.2.2.1, hR.2.2.2.1, hsR⟩
  have hdis1 : ∀ c ∈ relabel L R, ∀ d ∈ R, c.1 ≠ d.1 := by
    intro c hc d hd
    obtain ⟨c0, hc0, hc1⟩ := relabel_mem hc
    rw [← hc1]; exact hdis c0 hc0 d hd
  rcases Nat.lt_or_ge L.length R.length with hlt | hge
  · -- the right list is longer: push the rest
    have hdrop : R.drop L.length ≠ [] := by
      intro hx
      have := congrArg List.length hx
      simp at this; omega
    obtain ⟨a, ha⟩ := firstPtr_ne_nil hdrop
    have hsplit : seg h1 none (R.take L.length ++ R.drop L.length) none := by
      rw [List.take_append_drop]; exact hsR
    rw [seg_append] at hsplit
    have hdl : (R.drop L.length).length = R.length - L.length := by simp
    obtain ⟨h2, l2, news, he2, hr2, hnews, -, hlen2, hfr2, hge2⟩ :=
      assignPush_spec (R.drop L.length) h1.cells.length h1 lhs (relabel L R) _ hL1 hsplit.2
        (fun c hc d hd => hdis1 c hc d (List.mem_of_mem_drop hd))
        (seg_length_le hsplit.2)
        (fun _ => by rw [hdl, hlen]; exact hroom hlt)
    refine ⟨h2, l2, relabel L R ++ news, ?_, hr2, ?_, ?_, ?_⟩
    · rw [assign_unfold he, ha, if_pos (iterator_ne_end a), ← ha]
      exact he2
    · rw [List.map_append, relabel_snd_of_le L R hlt.le, hnews, ← List.map_append,
        List.take_append_drop]
    · refine ⟨hR.1, hR.2.1, hR.2.2.1, hR.2.2.2.1, seg_frame hsR (fun d hd => ?_)⟩
      exact hfr2 _ (seg_mem_lt hsR hd) (fun c hc => hdis1 c hc d hd)
    · rw [hdl, hlen] at hlen2
      refine ⟨by omega, by omega, ?_, ?_⟩
      · intro b hb hbL
        have hb1 : b < h1.cells.length := by omega
        rw [hfr2 b hb1 (fun c hc => ?_), hfr b hbL]
        obtain ⟨c0, hc0, hc1⟩ := relabel_mem hc
        rw [← hc1]; exact hbL c0 hc0
      · intro c hc
        rcases List.mem_append.1 hc with hc | hc
        · exact Or.inl (relabel_mem hc)
        · right
          have := hge2 c hc
          omega
  · have hdropR : R.drop L.length = [] := List.drop_eq_nil_of_le hge
    by_cases hRe : R = []
    · -- the right list is empty: clear
      subst hRe
      have hemp : rhs.empty = true := (hR.empty_iff).2 rfl
      obtain ⟨h2, he2, hr2, hlenc, hfrc⟩ := hL1.clear
      refine ⟨h2, ⟨0, none, none⟩, [], ?_, hr2, rfl, ?_, ?_⟩
      · rw [assign_unfold he, hdropR]
        simp only [firstPtr]
        rw [if_neg (by simp [list.end]), if_pos hemp]
        exact he2
      · exact ⟨hR.1, hR.2.1, hR.2.2.1, hR.2.2.2.1, trivial⟩
      · refine ⟨by omega, by omega, ?_, fun c hc => absurd hc (List.not_mem_nil c)⟩
        intro b _ hbL
        rw [hfrc b (fun c hc => ?_), hfr b hbL]
        obtain ⟨c0, hc0, hc1⟩ := relabel_mem hc
        rw [← hc1]; exact hbL c0 hc0
    · have hemp : rhs.empty = false := by
        rw [Bool.eq_false_iff]; intro hx; exact hRe ((hR.empty_iff).1 hx)
      rcases Nat.eq_or_lt_of_le hge with heq | hgt
      · -- equal lengths: nothing more to do
        have hdropL : L.drop R.length = [] := List.drop_eq_nil_of_le (by omega)
        refine ⟨h1, lhs, relabel L R, ?_, hL1, ?_, hR1, ?_⟩
        · rw [assign_unfold he, hdropR, hdropL]
          simp only [firstPtr]
          rw [if_neg (by simp [list.end]), if_neg (by simp [hemp]),
            if_neg (by simp [list.end])]
          rfl
        · rw [relabel_snd_of_le L R (by omega), ← heq, List.take_length]
        · exact ⟨by omega, by omega, fun b _ hbL => hfr b hbL,
            fun c hc => Or.inl (relabel_mem hc)⟩
      · -- the left list is longer: release the excess
        have hsp := relabel_split L R hgt.le
        have hTne : L.drop R.length ≠ [] := by
          intro hx
          have := congrArg List.length hx
          simp at this; omega
        obtain ⟨c, L2, hT⟩ : ∃ c L2, L.drop R.length = c :: L2 := by
          cases hd : L.drop R.length with
          | nil => exact absurd hd hTne
          | cons c L2 => exact ⟨c, L2, rfl⟩
        have hMlen : (relabel (L.take R.length) R).length = R.length := by
          rw [relabel_length, List.length_take]; omega
        have hRpos : 0 < R.length := List.length_pos.2 hRe
        obtain ⟨M1, t, hM⟩ : ∃ M1 t, relabel (L.take R.length) R = M1 ++ [t] := by
          rcases eq_nil_or_snoc (relabel (L.take R.length) R) with hx | hx
          · rw [hx] at hMlen; simp at hMlen; omega
          · exact hx
        rw [hT, hM] at hsp
        have haddr : ∀ x ∈ M1 ++ [t] ++ c :: L2, ∃ d ∈ L, d.1 = x.1 :=
          fun x hx => relabel_mem (hsp.symm ▸ hx)
        rw [hsp] at hsL hL1 hdis1
        have hnd := seg_nodup hsL
        obtain ⟨hn1, hn2, hn3⟩ := nodup_split hnd
        have hsL0 := hsL
        rw [seg_append] at hsL
        obtain ⟨hsM, hlc, hsL2⟩ := hsL
        simp only [firstPtr] at hsM
        simp only [lastPtr_append, lastPtr] at hlc
        have hsT : seg h1 (some t.1) (c :: L2) none := ⟨hlc, hsL2⟩
        obtain ⟨h2, he2, hlen2, hfr2⟩ := assignTrim_spec (c :: L2) h1.cells.length h1
          (some t.1) lhs.numElements hsT (seg_nodup hsT) (seg_length_le hsT)
        have hsM2 : seg h2 none (M1 ++ [t]) (some c.1) :=
          seg_frame hsM (fun x hx => hfr2 _ (fun y hy => by
            rcases List.mem_cons.1 hy with rfl | hy
            · exact Ne.symm (hn1 x hx)
            · exact Ne.symm (hn3 x hx y hy)))
        have hlt2 : h2.lookup t.1 = some ⟨t.2, some c.1, lastPtr M1 none⟩ :=
          ((seg_concat _ _ _ _ _).1 hsM2).2
        have hndM := (nodup_parts hnd).1
        have hsM3 := seg_upd_next_last hsM2 (nodup_last hndM) none
        have hnum : lhs.numElements = (M1 ++ [t]).length + (c :: L2).length := by
          rw [hL1.1]
          simp only [List.length_append, List.length_cons, List.length_nil]
        have hltS : (M1 ++ [t] ++ c :: L2).length < SIZE_MOD := hL1.2.1
        have hcount : (size_dec^[(c :: L2).length]) lhs.numElements = (M1 ++ [t]).length := by
          rw [size_dec_sub _ (by omega) (hL1.1 ▸ hltS), hnum]; omega
        rw [hcount] at he2
        refine ⟨h2.upd t.1 ⟨t.2, none, lastPtr M1 none⟩,
          ⟨(M1 ++ [t]).length, lhs.pHead, some t.1⟩, M1 ++ [t], ?_, ?_, ?_, ?_, ?_⟩
        · rw [assign_unfold he, hdropR, hT]
          simp only [firstPtr]
          rw [if_neg (by simp [list.end]), if_neg (by simp [hemp]),
            if_pos (iterator_ne_end c.1)]
          simp only [firstPtr] at he2
          simp [cassert, Heap.deref_ok hlc, he2, Heap.setNext_ok _ hlt2, bind, Except.bind,
            pure, Except.pure]
        · refine ⟨rfl, ?_, ?_, by simp [lastPtr_append, lastPtr], hsM3⟩
          · simp only [List.length_append] at hltS ⊢; omega
          · rw [hL1.2.2.1]; simp only [firstPtr_append]; cases M1 <;> simp [firstPtr]
        · rw [← hM, relabel_snd_of_le _ R (by rw [List.length_take]; omega),
            List.length_take, Nat.min_eq_left hgt.le, List.take_length]
        · refine ⟨hR.1, hR.2.1, hR.2.2.1, hR.2.2.2.1, seg_frame hsR (fun d hd => ?_)⟩
          have hdt : d.1 ≠ t.1 := Ne.symm (hdis1 t (by simp) d hd)
          rw [Heap.lookup_upd_ne _ _ hdt]
          exact hfr2 _ (fun y hy => hdis1 y (by simp [List.mem_cons.1 hy]) d hd)
        · rw [Heap.length_upd, hlen2, hlen]
          refine ⟨Nat.le_refl _, Nat.le_add_right _ _, ?_, ?_⟩
          · intro b _ hbL
            have hnot : ∀ x ∈ M1 ++ [t] ++ c :: L2, x.1 ≠ b := by
              intro x hx hxb
              obtain ⟨d, hd, hd1⟩ := haddr x hx
              exact hbL d hd (hd1.trans hxb)
            rw [Heap.lookup_upd_ne _ _ (Ne.symm (hnot t (by simp))),
              hfr2 b (fun y hy => hnot y (by simp [List.mem_cons.1 hy])), hfr b hbL]
          · intro x hx
            exact Or.inl (haddr x (List.mem_append_left _ hx))

theorem seg_det_back {α : Type} {h : Heap α} {xs ys : List (Nat × α)} {n m : Ptr}
    (hx : seg h none xs n) (hy : seg h none ys m)
    (hl : lastPtr xs none = lastPtr ys none) : xs = ys := by
  induction xs using List.reverseRecOn generalizing ys n m with
  | nil =>
    simp only [lastPtr] at hl
    exact (lastPtr_eq_none hl.symm).symm
  | append_singleton xs1 t ih =>
    rcases eq_nil_or_snoc ys with rfl | ⟨ys1, u, rfl⟩
    · simp [lastPtr_append, lastPtr] at hl
    · simp only [lastPtr_append, lastPtr, Option.some.injEq] at hl
      rw [seg_concat] at hx hy
      have h1 := hx.2
      rw [hl, hy.2] at h1
      simp only [Option.some.injEq, Node.mk.injEq] at h1
      have hr := ih hx.1 hy.1 h1.2.2.symm
      have : t = u := Prod.ext hl h1.1.symm
      rw [this, hr]

theorem ListRep.eq_of_shared {α : Type} {h : Heap α} {lhs rhs : list}
    {L R : List (Nat × α)} (hL : ListRep h lhs L) (hR : ListRep h rhs R)
    {c d : Nat × α} (hc : c ∈ L) (hd : d ∈ R) (hcd : c.1 = d.1) : L = R ∧ lhs = rhs := by
  obtain ⟨L1, L2, rfl⟩ := List.append_of_mem hc
  obtain ⟨R1, R2, rfl⟩ := List.append_of_mem hd
  have hsL := hL.2.2.2.2
  have hsR := hR.2.2.2.2
  rw [seg_append] at hsL hsR
  obtain ⟨hL1, hlc, hL2⟩ := hsL
  obtain ⟨hR1, hld, hR2⟩ := hsR
  rw [hcd, hld] at hlc
  simp only [Option.some.injEq, Node.mk.injEq] at hlc
  have e2 : L2 = R2 := seg_det hL2 hR2 hlc.2.1.symm
  have e1 : L1 = R1 := seg_det_back hL1 hR1 hlc.2.2.symm
  have e0 : c = d := Prod.ext hcd hlc.1.symm
  subst e0 e1 e2
  refine ⟨rfl, ?_⟩
  obtain ⟨a1, a2, a3, a4, -⟩ := hL
  obtain ⟨b1, b2, b3, b4, -⟩ := hR
  cases lhs; cases rhs
  simp only [list.mk.injEq]
  simp only at a1 a3 a4 b1 b3 b4
  exact ⟨a1.trans b1.symm, a3.trans b3.symm, a4.trans b4.symm⟩

theorem Heap.lookup_upd_self {α : Type} {h : Heap α} {a : Nat} {nd : Node α}
    (hl : h.lookup a = some nd) (b : Nat) : (h.upd a nd).lookup b = h.lookup b := by
  by_cases hb : b = a
  · subst hb; rw [Heap.lookup_upd_same _ hl, hl]
  · exact Heap.lookup_upd_ne _ _ hb

theorem assignCopy_self {α : Type} (L : List (Nat × α)) :
    ∀ (fuel : Nat) (h : Heap α) (p : Ptr), seg h p L none → L.length ≤ fuel →
      ∃ h1, list.assignCopy fuel h ⟨firstPtr L none⟩ ⟨firstPtr L none⟩
          = .ok (h1, list.end, list.end) ∧
        h1.cells.length = h.cells.length ∧ ∀ b, h1.lookup b = h.lookup b := by
  induction L with
  | nil =>
    intro fuel h p _ _
    refine ⟨h, ?_, rfl, fun _ => rfl⟩
    cases fuel <;> simp [list.assignCopy, firstPtr, list.end]
  | cons c L ih =>
    intro fuel h p hs hfuel
    cases fuel with
    | zero => simp at hfuel
    | succ fuel =>
      have hsame := Heap.lookup_upd_self hs.1
      have e1 : (h.upd c.1 ⟨c.2, firstPtr L none, p⟩).lookup c.1
          = some ⟨c.2, firstPtr L none, p⟩ := Heap.lookup_upd_same _ hs.1
      have hs1 : seg (h.upd c.1 ⟨c.2, firstPtr L none, p⟩) (some c.1) L none :=
        seg_frame hs.2 (fun x _ => hsame x.1)
      obtain ⟨h1, he, hlen, hfr⟩ := ih fuel _ (some c.1) hs1 (by simpa using hfuel)
      refine ⟨h1, ?_, ?_, ?_⟩
      · show list.assignCopy (fuel + 1) h ⟨some c.1⟩ ⟨some c.1⟩ = _
        simp only [list.assignCopy, iterator_ne_end, ne_eq, not_false_eq_true, and_self,
          if_true, list.iterator.deref, list.iterator.assign, list.iterator.next,
          Heap.deref_ok hs.1, Heap.setData_ok _ hs.1, Heap.deref_ok e1,
          bind, Except.bind, pure, Except.pure]
        exact he
      · rw [hlen, Heap.length_upd]
      · intro b; rw [hfr b, hsame b]

theorem ListRep.assign_self {α : Type} {h : Heap α} {l : list} {L : List (Nat × α)}
    (hL : ListRep h l L) :
    ∃ h1 l1 cells, list.assign h l l = .ok (h1, l1) ∧ ListRep h1 l1 cells ∧
      cells.map Prod.snd = L.map Prod.snd ∧ ListRep h1 l L := by
  have hLs := hL.2.2.2.2
  obtain ⟨h1, he, hlen, hfr⟩ := assignCopy_self L h.cells.length h none hLs (seg_length_le hLs)
  have hb : l.begin = ⟨firstPtr L none⟩ := by simp [list.begin, hL.2.2.1]
  rw [← hb] at he
  have hL1 : ListRep h1 l L :=
    ⟨hL.1, hL.2.1, hL.2.2.1, hL.2.2.2.1, seg_frame hLs (fun x _ => hfr x.1)⟩
  by_cases hLe : L = []
  · subst hLe
    have hemp : l.empty = true := (hL.empty_iff).2 rfl
    obtain ⟨h2, he2, hr2, -, -⟩ := hL1.clear
    refine ⟨h2, ⟨0, none, none⟩, [], ?_, hr2, rfl,
      ⟨hL.1, hL.2.1, hL.2.2.1, hL.2.2.2.1, trivial⟩⟩
    rw [assign_unfold he, if_neg (by simp), if_pos hemp]
    exact he2
  · have hemp : l.empty = false := by
      rw [Bool.eq_false_iff]; intro hx; exact hLe ((hL.empty_iff).1 hx)
    refine ⟨h1, l, L, ?_, hL1, rfl, hL1⟩
    rw [assign_unfold he, if_neg (by simp), if_neg (by simp [hemp]), if_neg (by simp)]
    rfl

theorem ListRep.assign {α : Type} {h : Heap α} {lhs rhs : list}
    {L R : List (Nat × α)} (hL : ListRep h lhs L) (hR : ListRep h rhs R)
    (hroom : L.length < R.length → h.cells.length + (R.length - L.length) < SIZE_MOD) :
    ∃ h1 l1 cells, list.assign h lhs rhs = .ok (h1, l1) ∧ ListRep h1 l1 cells ∧
      cells.map Prod.snd = R.map Prod.snd ∧ ListRep h1 rhs R := by
  by_cases hsh : ∃ c ∈ L, ∃ d ∈ R, c.1 = d.1
  · obtain ⟨c, hc, d, hd, hcd⟩ := hsh
    obtain ⟨rfl, rfl⟩ := hL.eq_of_shared hR hc hd hcd
    exact hL.assign_self
  · obtain ⟨h1, l1, cells, he, hr1, hsnd, hR1, -⟩ :=
      hL.assign_disjoint hR (fun c hc d hd hcd => hsh ⟨c, hc, d, hd, hcd⟩) hroom
    exact ⟨h1, l1, cells, he, hr1, hsnd, hR1⟩

theorem ListRep.assign_fail {α : Type} {h : Heap α} {lhs rhs : list}
    {L R : List (Nat × α)} (hL : ListRep h lhs L) (hR : ListRep h rhs R)
    (hlt : L.length < R.length)
    (hroom : ¬ h.cells.length + (R.length - L.length) < SIZE_MOD) :
    list.assign h lhs rhs = .error (.thrown ALLOC_MSG) := by
  have hdis : ∀ c ∈ L, ∀ d ∈ R, c.1 ≠ d.1 := by
    intro c hc d hd hcd
    have := (hL.eq_of_shared hR hc hd hcd).1
    rw [this] at hlt
    exact absurd hlt (lt_irrefl _)
  have hLs := hL.2.2.2.2
  have hRs := hR.2.2.2.2
  obtain ⟨h1, he, hsL, hsR, hlen, hfr⟩ :=
    assignCopy_spec L R h.cells.length h none none hLs hRs hdis (seg_length_le hLs)
  have hb1 : rhs.begin = ⟨firstPtr R none⟩ := by simp [list.begin, hR.2.2.1]
  have hb2 : lhs.begin = ⟨firstPtr L none⟩ := by simp [list.begin, hL.2.2.1]
  rw [← hb1, ← hb2] at he
  have hL1 : ListRep h1 lhs (relabel L R) := hL.after_copy R hsL
  have hdis1 : ∀ c ∈ relabel L R, ∀ d ∈ R, c.1 ≠ d.1 := by
    intro c hc d hd
    obtain ⟨c0, hc0, hc1⟩ := relabel_mem hc
    rw [← hc1]; exact hdis c0 hc0 d hd
  have hdrop : R.drop L.length ≠ [] := by
    intro hx
    have := congrArg List.length hx
    simp at this; omega
  obtain ⟨a, ha⟩ := firstPtr_ne_nil hdrop
  have hsplit : seg h1 none (R.take L.length ++ R.drop L.length) none := by
    rw [List.take_append_drop]; exact hsR
  rw [seg_append] at hsplit
  have hdl : (R.drop L.length).length = R.length - L.length := by simp
  have := assignPush_fail (R.drop L.length) h1.cells.length h1 lhs (relabel L R) _ hL1
    hsplit.2 (fun c hc d hd => hdis1 c hc d (List.mem_of_mem_drop hd))
    (seg_length_le hsplit.2) hdrop (by rw [hdl, hlen]; exact hroom)
  rw [assign_unfold he, ha, if_pos (iterator_ne_end a), ← ha]
  exact this

theorem ListRep.nodes_eq {α : Type} {h : Heap α} {l : list} {cells : List (Nat × α)}
    (hr : ListRep h l cells) : list.nodes h l = cells.map Prod.fst := by
  unfold list.nodes
  rw [hr.2.2.1, forward_of_seg hr.2.2.2.2 (Nat.le_of_eq hr.1.symm)]
  rfl

theorem ListRep.insert_fail {α : Type} {h : Heap α} {l : list} {cells : List (Nat × α)}
    (hr : ListRep h l cells) (it : list.iterator) (v : α)
    (hm : ¬ h.cells.length + 1 < SIZE_MOD) :
    list.insert h l it v = .error (if l.empty then .bad_alloc else .thrown ALLOC_MSG) := by
  obtain ⟨hn, hlt, hh, ht, hs⟩ := hr
  cases cells with
  | nil =>
    simp only [firstPtr, lastPtr, List.length_nil] at hh ht hn
    simp [list.insert, list.empty, list.size, hn, hh, ht, cassert, Heap.new, hm, bind,
      Except.bind]
  | cons c rest =>
    obtain ⟨a0, nd0, hf0, hl0, hp0⟩ := seg_head_prev hs (by simp)
    obtain ⟨a1, nd1, hf1, hl1, hp1⟩ := seg_last_next hs (by simp)
    rw [hf0] at hh
    rw [hf1] at ht
    have hne0 : l.numElements ≠ 0 := by simp [hn]
    simp [list.insert, list.empty, list.size, hne0, hh, ht, cassert, Heap.deref_ok hl0, hp0,
      Heap.deref_ok hl1, hp1, Heap.new, hm, bind, Except.bind]

theorem push_front_fail {α : Type} (h : Heap α) (l : list) (v : α)
    (hm : ¬ h.cells.length + 1 < SIZE_MOD) :
    list.push_front h l v = .error (.thrown ALLOC_MSG) := by
  simp [list.push_front, Heap.new, hm]

theorem erase_end {α : Type} (h : Heap α) (l : list) :
    list.erase h l list.end = .ok (h, l, list.end) := by
  simp [list.erase, pure, Except.pure]

/-- C1. List well-formedness is an invariant of every mutating list operation.
For every well-formed list: `push_front` and `push_back` return a well-formed
list whenever the store has room for a node, and otherwise only throw the
allocation error before touching the list; `pop_front` and `pop_back` return a
well-formed list, and leave an empty list as it is; `insert` at `end()` or at
an iterator to one of the nodes returns a well-formed list when there is room
and otherwise only throws; `erase` at an iterator to one of the nodes returns a
well-formed list and `erase(end())` returns the list as it is; `clear` returns
a well-formed list; the copy assignment from any well-formed list returns a
well-formed list, leaving the source well-formed, when there is room for the
nodes it has to add, and otherwise only throws the allocation error. -/
theorem C1_wellFormed_preserved {α : Type} (h : Heap α) (l : list)
    (hw : list.wellFormed h l = true) :
    (∀ v : α,
      (h.cells.length + 1 < SIZE_MOD →
        (∃ h1 l1, list.push_front h l v = .ok (h1, l1) ∧ list.wellFormed h1 l1 = true) ∧
        (∃ h1 l1, list.push_back h l v = .ok (h1, l1) ∧ list.wellFormed h1 l1 = true)) ∧
      (¬ h.cells.length + 1 < SIZE_MOD →
        list.push_front h l v = .error (.thrown ALLOC_MSG) ∧
        list.push_back h l v = .error (.thrown ALLOC_MSG))) ∧
    (∃ h1 l1, list.pop_front h l = .ok (h1, l1) ∧ list.wellFormed h1 l1 = true) ∧
    (∃ h1 l1, list.pop_back h l = .ok (h1, l1) ∧ list.wellFormed h1 l1 = true) ∧
    (l.numElements = 0 → list.pop_front h l = .ok (h, l) ∧ list.pop_back h l = .ok (h, l)) ∧
    (∀ (it : list.iterator) (v : α), (∀ a, it.p = some a → a ∈ list.nodes h l) →
      (h.cells.length + 1 < SIZE_MOD →
        ∃ h1 l1 it1, list.insert h l it v = .ok (h1, l1, it1) ∧
          list.wellFormed h1 l1 = true) ∧
      (¬ h.cells.length + 1 < SIZE_MOD →
        list.insert h l it v = .error (if l.empty then .bad_alloc else .thrown ALLOC_MSG))) ∧
    (∀ it : list.iterator, (∀ a, it.p = some a → a ∈ list.nodes h l) →
      ∃ h1 l1 it1, list.erase h l it = .ok (h1, l1, it1) ∧ list.wellFormed h1 l1 = true) ∧
    list.erase h l list.end = .ok (h, l, list.end) ∧
    (∃ h1 l1, list.clear h l = .ok (h1, l1) ∧ list.wellFormed h1 l1 = true) ∧
    (∀ rhs : list, list.wellFormed h rhs = true →
      ((l.numElements < rhs.numElements →
          h.cells.length + (rhs.numElements - l.numElements) < SIZE_MOD) →
        ∃ h1 l1, list.assign h l rhs = .ok (h1, l1) ∧ list.wellFormed h1 l1 = true ∧
          list.wellFormed h1 rhs = true) ∧
      (l.numElements < rhs.numElements →
        ¬ h.cells.length + (rhs.numElements - l.numElements) < SIZE_MOD →
        list.assign h l rhs = .error (.thrown ALLOC_MSG))) := by
  obtain ⟨cells, hr⟩ := rep_of_wellFormed (α := α) hw
  refine ⟨?_, ?_, ?_, ?_, ?_, ?_, erase_end h l, ?_, ?_⟩
  · intro v
    refine ⟨fun hm => ⟨?_, ?_⟩, fun hm => ⟨push_front_fail h l v hm, push_back_fail h l v hm⟩⟩
    · obtain ⟨h1, l1, he, hr1, -, -⟩ := hr.push_front v hm
      exact ⟨h1, l1, he, wellFormed_of_rep hr1⟩
    · obtain ⟨h1, l1, he, hr1, -, -⟩ := hr.push_back v hm
      exact ⟨h1, l1, he, wellFormed_of_rep hr1⟩
  · obtain ⟨h1, l1, he, hr1, -, -⟩ := hr.pop_front
    exact ⟨h1, l1, he, wellFormed_of_rep hr1⟩
  · obtain ⟨h1, l1, he, hr1, -, -⟩ := hr.pop_back
    exact ⟨h1, l1, he, wellFormed_of_rep hr1⟩
  · intro h0
    constructor
    · simp [list.pop_front, h0, pure, Except.pure]
    · simp [list.pop_back, h0, pure, Except.pure]
  · intro it v hit
    refine ⟨fun hm => ?_, fun hm => hr.insert_fail it v hm⟩
    cases hp : it.p with
    | none =>
      have : it = list.end := by cases it; simpa [list.end] using hp
      subst this
      obtain ⟨h1, l1, he, hr1, -, -⟩ := hr.insert_end v hm
      exact ⟨h1, l1, _, he, wellFormed_of_rep hr1⟩
    | some a =>
      have ha := hit a hp
      rw [hr.nodes_eq] at ha
      obtain ⟨c, hc, rfl⟩ := List.mem_map.1 ha
      obtain ⟨pre, post, rfl⟩ := List.append_of_mem hc
      have : it = ⟨some c.1⟩ := by cases it; simpa using hp
      subst this
      obtain ⟨h1, l1, he, hr1, -, -⟩ := hr.insert_at v hm
      exact ⟨h1, l1, _, he, wellFormed_of_rep hr1⟩
  · intro it hit
    cases hp : it.p with
    | none =>
      have : it = list.end := by cases it; simpa [list.end] using hp
      subst this
      exact ⟨h, l, _, erase_end h l, hw⟩
    | some a =>
      have ha := hit a hp
      rw [hr.nodes_eq] at ha
      obtain ⟨c, hc, rfl⟩ := List.mem_map.1 ha
      obtain ⟨pre, post, rfl⟩ := List.append_of_mem hc
      have : it = ⟨some c.1⟩ := by cases it; simpa using hp
      subst this
      obtain ⟨h1, l1, he, hr1, -, -⟩ := hr.erase
      exact ⟨h1, l1, _, he, wellFormed_of_rep hr1⟩
  · obtain ⟨h1, he, hr1, -, -⟩ := hr.clear
    exact ⟨h1, _, he, wellFormed_of_rep hr1⟩
  · intro rhs hwr
    obtain ⟨R, hR⟩ := rep_of_wellFormed (α := α) hwr
    have e1 : l.numElements = cells.length := hr.1
    have e2 : rhs.numElements = R.length := hR.1
    constructor
    · intro hroom
      rw [e1, e2] at hroom
      obtain ⟨h1, l1, cs, he, hr1, -, hR1⟩ := hr.assign hR hroom
      exact ⟨h1, l1, he, wellFormed_of_rep hr1, wellFormed_of_rep hR1⟩
    · intro hlt hroom
      rw [e1, e2] at hlt hroom
      exact hr.assign_fail hR hlt hroom

/-- The two-element sample list is well formed, so every operation of C1
applies to it; here popping at the back yields a well-formed list. -/
theorem C1_wellFormed_preserved_witness :
    list.wellFormed sampleHeap sampleList = true ∧
    ∃ h1 l1, list.pop_back sampleHeap sampleList = .ok (h1, l1) ∧
      list.wellFormed h1 l1 = true :=
  ⟨by decide, (C1_wellFormed_preserved sampleHeap sampleList (by decide)).2.2.1⟩

/-- C2 (the code departs from it). `insert` stores nothing: for every set and
value the heap and the set come back as they were, so `size()` does not grow
and no bucket gains an element; the returned iterator is the null iterator,
whose dereference throws, and the flag is `true`. On the empty set, inserting
`3` leaves `size() == 0` and bucket 3 empty. -/
theorem C2_insert_stores_nothing :
    (∀ (h : Heap Int) (s : unordered_set) (v : Int),
      (unordered_set.insert h s v).1 = h ∧ (unordered_set.insert h s v).2.1 = s ∧
      (unordered_set.insert h s v).2.2 = (unordered_set.iterator.mk0, true) ∧
      (unordered_set.insert h s v).2.2.1.deref h = .error (.thrown DEREF_MSG)) ∧
    (unordered_set.insert emptyHeap unordered_set.mk0 3).2.1.size = 0 ∧
    unordered_set.bucketList (unordered_set.insert emptyHeap unordered_set.mk0 3).1
      (unordered_set.insert emptyHeap unordered_set.mk0 3).2.1 3 = [] :=
  ⟨fun _ _ _ => ⟨rfl, rfl, rfl, rfl⟩, by decide, by decide⟩

/-- C3 (the code departs from it). Inserting a value a second time leaves the
set as it was, but the second `insert` again reports `true`, and its iterator
is the null iterator, not one to a stored element. -/
theorem C3_second_insert_reports_true :
    ∀ (h : Heap Int) (s : unordered_set) (v : Int),
      (unordered_set.insert (unordered_set.insert h s v).1
        (unordered_set.insert h s v).2.1 v) = (h, s, (unordered_set.iterator.mk0, true)) :=
  fun _ _ _ => rfl

/-- C4 (the code departs from it). After inserting `3` into the empty set,
`find(3)` returns the null iterator: it differs from `end()`, but its
dereference throws instead of yielding `3`. -/
theorem C4_find_after_insert_null :
    (unordered_set.find (unordered_set.insert emptyHeap unordered_set.mk0 3).1
      (unordered_set.insert emptyHeap unordered_set.mk0 3).2.1 (3 : Int)).2.2
        = unordered_set.iterator.mk0 ∧
    unordered_set.iterator.mk0.ne unordered_set.mk0.end = true ∧
    unordered_set.iterator.mk0.deref emptyHeap = .error (.thrown DEREF_MSG) :=
  ⟨rfl, by decide, rfl⟩

/-- C5 (the code departs from it). For every set and value, `find` returns an
iterator that is not equal to `end()` under the operator `==`. -/
theorem C5_find_never_end :
    ∀ (h : Heap Int) (s : unordered_set) (v : Int),
      (unordered_set.find h s v).2.2.eq (unordered_set.find h s v).2.1.end = false :=
  fun _ _ _ => rfl

/-- C6 (the code departs from it). The set holding `3, 13, 23` has
`bucket_size(3) == 3` and `size() == 3`; after `erase(13)` bucket 3 still holds
`3, 13, 23` and `size()` is still 3. -/
theorem C6_erase_removes_nothing :
    set3.bucket_size 3 = .ok 3 ∧ set3.size = 3 ∧
    unordered_set.bucketList heap3 set3 3 = [3, 13, 23] ∧
    unordered_set.bucketList (unordered_set.erase heap3 set3 13).1
      (unordered_set.erase heap3 set3 13).2.1 3 = [3, 13, 23] ∧
    (unordered_set.erase heap3 set3 (13 : Int)).2.1.size = 3 :=
  ⟨rfl, by decide, by decide, by decide, by decide⟩

/-- C7 (the code departs from it). For every set and value, `erase` leaves
the heap and the set as they were, and returns an iterator that is not equal
to `end()` under the operator `==`. -/
theorem C7_erase_never_end :
    ∀ (h : Heap Int) (s : unordered_set) (v : Int),
      (unordered_set.erase h s v).1 = h ∧ (unordered_set.erase h s v).2.1 = s ∧
      (unordered_set.erase h s v).2.2.eq (unordered_set.erase h s v).2.1.end = false :=
  fun _ _ _ => ⟨rfl, rfl, rfl⟩

/-- C8 (the code departs from it). On the empty set `bucket(13)` returns 13,
which is no index in `[0, 9]` and so differs from `hash(13) mod 10` whatever
the hash function, and the call sets the element counter to 13. -/
theorem C8_bucket_assigns_counter :
    (unordered_set.bucket int_to_size_t unordered_set.mk0 13).2 = 13 ∧
    (∀ hash : Int → Nat,
      (unordered_set.bucket int_to_size_t unordered_set.mk0 13).2 ≠ hash 13 % 10) ∧
    unordered_set.mk0.size = 0 ∧
    (unordered_set.bucket int_to_size_t unordered_set.mk0 13).1.size = 13 := by
  refine ⟨by decide, fun hash => ?_, by decide, by decide⟩
  have h13 : (unordered_set.bucket int_to_size_t unordered_set.mk0 13).2 = 13 := by decide
  rw [h13]
  have := Nat.mod_lt (hash 13) (show 10 > 0 by decide)
  omega

/-- C9 (the code departs from it). Clearing the empty set, once and again,
leaves `size() == 0` and every bucket empty, but `begin()` is the null
iterator, which is not equal to `end()` under the operator `==`. -/
theorem C9_clear_begin_not_end :
    ∃ h1 s1, unordered_set.clear emptyHeap unordered_set.mk0 = .ok (h1, s1) ∧
      s1.size = 0 ∧ (∀ i, s1.buckets i = list.mk0) ∧
      s1.begin = unordered_set.iterator.mk0 ∧ s1.begin.eq s1.end = false ∧
      ∃ h2 s2, unordered_set.clear h1 s1 = .ok (h2, s2) ∧
        s2.size = 0 ∧ (∀ i, s2.buckets i = list.mk0) ∧ s2.begin.eq s2.end = false := by
  refine ⟨_, _, rfl, by decide, by decide, by decide, by decide, _, _, rfl, by decide,
    by decide, by decide⟩

/-- C10 (the code departs from it). On the set holding `10` in bucket 0 and
`11` in bucket 1 (`size() == 2`), the walk from `begin()` by `++` reaches
`end()` after ten steps, not two: it dereferences `10`, then meets nine null
positions whose dereference throws, and never yields `11`. -/
theorem C10_traverse_skips_elements :
    set2.size = 2 ∧
    unordered_set.bucketList heap2 set2 0 = [10] ∧
    unordered_set.bucketList heap2 set2 1 = [11] ∧
    unordered_set.traverse heap2 set2 20 set2.begin =
      .ok [.ok 10, .error (.thrown DEREF_MSG), .error (.thrown DEREF_MSG),
        .error (.thrown DEREF_MSG), .error (.thrown DEREF_MSG), .error (.thrown DEREF_MSG),
        .error (.thrown DEREF_MSG), .error (.thrown DEREF_MSG), .error (.thrown DEREF_MSG),
        .error (.thrown DEREF_MSG)] :=
  ⟨by decide, by decide, by decide, rfl⟩

/-- C11 (the code departs from it). From the last (only) element of bucket 0,
with bucket 1 holding `11`, `++` yields bucket 1 with a null inner iterator: it
is not bucket 1's `begin()` and its dereference throws. When no non-empty
bucket follows, `++` yields `(buckets + 1, buckets + 10, null)`, which is not
equal to `end()`. -/
theorem C11_advance_drops_inner :
    set2.begin = ⟨some 0, some 10, ⟨some 0⟩⟩ ∧
    unordered_set.iterator.next heap2 ⟨some 0, some 10, ⟨some 0⟩⟩
      = .ok ⟨some 1, some 10, ⟨none⟩⟩ ∧
    (set2.buckets 1).begin = ⟨some 1⟩ ∧
    unordered_set.iterator.deref heap2 ⟨some 1, some 10, ⟨none⟩⟩
      = .error (.thrown DEREF_MSG) ∧
    set1.begin = ⟨some 0, some 10, ⟨some 0⟩⟩ ∧
    (∀ i : Fin 10, i ≠ 0 → (set1.buckets i).empty = true) ∧
    unordered_set.iterator.eq ⟨some 1, some 10, ⟨none⟩⟩ set1.end = false :=
  ⟨by decide, rfl, by decide, rfl, by decide, by decide, by decide⟩

/-- C12 (the code departs from it). On a set with elements `begin()` designates
the first element of the lowest non-empty bucket, but on the empty set
`begin()` is the null iterator, which is not equal to `end()`. -/
theorem C12_begin_empty_not_end :
    set2.begin = ⟨some 0, some 10, (set2.buckets 0).begin⟩ ∧
    set2.begin.deref heap2 = .ok 10 ∧
    unordered_set.mk0.size = 0 ∧
    unordered_set.mk0.begin = unordered_set.iterator.mk0 ∧
    unordered_set.mk0.begin.eq unordered_set.mk0.end = false :=
  ⟨by decide, rfl, by decide, by decide, by decide⟩

theorem filterMap_data {α : Type} {h : Heap α} {cells : List (Nat × α)}
    (hc : ∀ c ∈ cells, ∃ nd, h.lookup c.1 = some nd ∧ nd.data = c.2) :
    (cells.map Prod.fst).filterMap (fun a => (h.lookup a).map Node.data)
      = cells.map Prod.snd := by
  induction cells with
  | nil => rfl
  | cons c rest ih =>
    obtain ⟨nd, hl, hd⟩ := hc c (List.mem_cons_self _ _)
    rw [List.map_cons, List.filterMap_cons, hl]
    simp only [Option.map_some', List.map_cons, hd]
    rw [ih (fun d hd => hc d (List.mem_cons_of_mem _ hd))]

theorem ListRep.toList_eq {α : Type} {h : Heap α} {l : list} {cells : List (Nat × α)}
    (hr : ListRep h l cells) : list.toList h l = cells.map Prod.snd := by
  unfold list.toList
  rw [hr.2.2.1, forward_of_seg hr.2.2.2.2 (Nat.le_of_eq hr.1.symm)]
  exact filterMap_data (fun c hc => seg_lookup hr.2.2.2.2 hc)

theorem ListRep.size_eq {α : Type} {h : Heap α} {l : list} {cells : List (Nat × α)}
    (hr : ListRep h l cells) : l.size = cells.length := hr.1

/-- C16. For every well-formed list with forward contents `xs` and every value
`v`, when the store has room for a node, `push_back(v)` yields the contents
`xs ++ [v]` and `push_front(v)` yields `v :: xs`; in both cases `size()` grows
by exactly 1 and the list stays well formed. -/
theorem C16_push_contents {α : Type} (h : Heap α) (l : list) (v : α)
    (hw : list.wellFormed h l = true) (hm : h.cells.length + 1 < SIZE_MOD) :
    (∃ h1 l1, list.push_back h l v = .ok (h1, l1) ∧
      list.toList h1 l1 = list.toList h l ++ [v] ∧ l1.size = l.size + 1 ∧
      list.wellFormed h1 l1 = true) ∧
    (∃ h1 l1, list.push_front h l v = .ok (h1, l1) ∧
      list.toList h1 l1 = v :: list.toList h l ∧ l1.size = l.size + 1 ∧
      list.wellFormed h1 l1 = true) := by
  obtain ⟨cells, hr⟩ := rep_of_wellFormed (α := α) hw
  constructor
  · obtain ⟨h1, l1, he, hr1, -, -⟩ := hr.push_back v hm
    refine ⟨h1, l1, he, ?_, ?_, wellFormed_of_rep hr1⟩
    · rw [hr1.toList_eq, hr.toList_eq]; simp
    · rw [hr1.size_eq, hr.size_eq]; simp
  · obtain ⟨h1, l1, he, hr1, -, -⟩ := hr.push_front v hm
    refine ⟨h1, l1, he, ?_, ?_, wellFormed_of_rep hr1⟩
    · rw [hr1.toList_eq, hr.toList_eq]; simp
    · rw [hr1.size_eq, hr.size_eq]; simp

/-- On the two-element sample list `7, 8`, pushing `9` at the back gives
`7, 8, 9` and at the front `9, 7, 8`. -/
theorem C16_push_contents_witness :
    list.toList sampleHeap sampleList = [7, 8] ∧
    (∃ h1 l1, list.push_back sampleHeap sampleList 9 = .ok (h1, l1) ∧
      list.toList h1 l1 = list.toList sampleHeap sampleList ++ [9] ∧
      l1.size = sampleList.size + 1 ∧ list.wellFormed h1 l1 = true) ∧
    (∃ h1 l1, list.push_front sampleHeap sampleList 9 = .ok (h1, l1) ∧
      list.toList h1 l1 = 9 :: list.toList sampleHeap sampleList ∧
      l1.size = sampleList.size + 1 ∧ list.wellFormed h1 l1 = true) :=
  ⟨by decide, C16_push_contents sampleHeap sampleList 9 (by decide) (by decide)⟩

/-- C17. For every well-formed list, `pop_front()` yields the contents without
their first element and `pop_back()` the contents without their last one, and
on a non-empty list each decreases `size()` by exactly 1; on an empty list
both leave the heap and the list as they are, with `size() == 0` and head and
tail null. -/
theorem C17_pop_contents {α : Type} (h : Heap α) (l : list)
    (hw : list.wellFormed h l = true) :
    (∃ h1 l1, list.pop_front h l = .ok (h1, l1) ∧
      list.toList h1 l1 = (list.toList h l).tail ∧
      (list.toList h l ≠ [] → l1.size + 1 = l.size) ∧ list.wellFormed h1 l1 = true) ∧
    (∃ h1 l1, list.pop_back h l = .ok (h1, l1) ∧
      list.toList h1 l1 = (list.toList h l).dropLast ∧
      (list.toList h l ≠ [] → l1.size + 1 = l.size) ∧ list.wellFormed h1 l1 = true) ∧
    (list.toList h l = ([] : List α) →
      list.pop_front h l = .ok (h, l) ∧ list.pop_back h l = .ok (h, l) ∧
      l.size = 0 ∧ l.pHead = none ∧ l.pTail = none) := by
  obtain ⟨cells, hr⟩ := rep_of_wellFormed (α := α) hw
  have hne : list.toList h l ≠ [] → cells.length = cells.length - 1 + 1 := by
    intro hx
    rw [hr.toList_eq] at hx
    have : cells ≠ [] := fun hc => hx (by rw [hc]; rfl)
    have := List.length_pos.2 this
    omega
  refine ⟨?_, ?_, ?_⟩
  · obtain ⟨h1, l1, he, hr1, -, -⟩ := hr.pop_front
    refine ⟨h1, l1, he, ?_, fun hx => ?_, wellFormed_of_rep hr1⟩
    · rw [hr1.toList_eq, hr.toList_eq]; simp
    · rw [hr1.size_eq, hr.size_eq, List.length_tail]; exact (hne hx).symm
  · obtain ⟨h1, l1, he, hr1, -, -⟩ := hr.pop_back
    refine ⟨h1, l1, he, ?_, fun hx => ?_, wellFormed_of_rep hr1⟩
    · rw [hr1.toList_eq, hr.toList_eq]; simp
    · rw [hr1.size_eq, hr.size_eq, List.length_dropLast]; exact (hne hx).symm
  · intro hx
    rw [hr.toList_eq] at hx
    have hc : cells = [] := by simpa using hx
    subst hc
    obtain ⟨hn, -, hh, ht, -⟩ := hr
    simp only [List.length_nil] at hn
    refine ⟨?_, ?_, hn, hh, ht⟩
    · simp [list.pop_front, hn, pure, Except.pure]
    · simp [list.pop_back, hn, pure, Except.pure]

/-- On the two-element sample list `7, 8`, popping at the front leaves `8` and
popping at the back leaves `7`. -/
theorem C17_pop_contents_witness :
    list.toList sampleHeap sampleList = [7, 8] ∧
    ∃ h1 l1, list.pop_front sampleHeap sampleList = .ok (h1, l1) ∧
      list.toList h1 l1 = (list.toList sampleHeap sampleList).tail ∧
      (list.toList sampleHeap sampleList ≠ [] → l1.size + 1 = sampleList.size) ∧
      list.wellFormed h1 l1 = true :=
  ⟨by decide, (C17_pop_contents sampleHeap sampleList (by decide)).1⟩

/-- C20. For every list, well formed or not, `erase(end())` returns the heap
and the list as they are (same contents, same `size()`, same head and tail)
together with `end()`. -/
theorem C20_erase_end_noop {α : Type} (h : Heap α) (l : list) :
    list.erase h l list.end = .ok (h, l, list.end) :=
  erase_end h l

theorem Heap.ext_lookup {α : Type} {h1 h2 : Heap α} (hlen : h1.cells.length = h2.cells.length)
    (hl : ∀ a, h1.lookup a = h2.lookup a) : h1 = h2 := by
  cases h1 with
  | mk c1 =>
    cases h2 with
    | mk c2 =>
      simp only [Heap.mk.injEq]
      apply List.ext_getElem? 
      intro a
      have := hl a
      simp only [Heap.lookup] at this hlen
      by_cases ha : a < c1.length
      · have ha2 : a < c2.length := by omega
        rw [List.getElem?_eq_getElem ha, List.getElem?_eq_getElem ha2] at this ⊢
        simp only [Option.join] at this
        cases h1 : c1[a] <;> cases h2 : c2[a] <;> simp_all
      · rw [List.getElem?_eq_none (by omega), List.getElem?_eq_none (by omega)]

theorem seg_lookup_eq {α : Type} {h1 h2 : Heap α} {cells : List (Nat × α)} {p n : Ptr}
    (hs1 : seg h1 p cells n) (hs2 : seg h2 p cells n) :
    ∀ c ∈ cells, h1.lookup c.1 = h2.lookup c.1 := by
  induction cells generalizing p with
  | nil => intro c hc; simp at hc
  | cons d rest ih =>
    intro c hc
    rcases List.mem_cons.1 hc with rfl | hc
    · rw [hs1.1, hs2.1]
    · exact ih hs1.2 hs2.2 c hc

theorem ListRep.struct_eq {α : Type} {h1 h2 : Heap α} {l1 l2 : list} {cells : List (Nat × α)}
    (hr1 : ListRep h1 l1 cells) (hr2 : ListRep h2 l2 cells) : l1 = l2 := by
  obtain ⟨a1, -, a3, a4, -⟩ := hr1
  obtain ⟨b1, -, b3, b4, -⟩ := hr2
  cases l1; cases l2
  simp only [list.mk.injEq]
  simp only at a1 a3 a4 b1 b3 b4
  exact ⟨a1.trans b1.symm, a3.trans b3.symm, a4.trans b4.symm⟩

theorem insert_end_eq_push_back {α : Type} {h : Heap α} {l : list} {cells : List (Nat × α)}
    (hr : ListRep h l cells) (v : α) (hm : h.cells.length + 1 < SIZE_MOD) :
    ∃ h1 l1 it1, list.insert h l list.end v = .ok (h1, l1, it1) ∧
      list.push_back h l v = .ok (h1, l1) := by
  obtain ⟨h1, l1, he1, hr1, hlen1, hfr1⟩ := hr.insert_end v hm
  obtain ⟨h2, l2, he2, hr2, hlen2, hfr2⟩ := hr.push_back v hm
  have hl : l1 = l2 := hr1.struct_eq hr2
  have hh : h1 = h2 := by
    apply Heap.ext_lookup (by rw [hlen1, hlen2])
    intro a
    by_cases ha : ∃ c ∈ cells ++ [(h.cells.length, v)], c.1 = a
    · obtain ⟨c, hc, rfl⟩ := ha
      exact seg_lookup_eq hr1.2.2.2.2 hr2.2.2.2.2 c hc
    · have h1a : a ≠ h.cells.length := fun hx => ha ⟨(h.cells.length, v), by simp, hx.symm⟩
      have h2a : ∀ c ∈ cells, c.1 ≠ a := fun c hc hx => ha ⟨c, by simp [hc], hx⟩
      rw [hfr1 a h1a h2a, hfr2 a h1a h2a]
  subst hl hh
  exact ⟨h1, l1, _, he1, he2⟩

theorem cells_split {β : Type} (cells : List β) (i : Nat) (hi : i < cells.length) :
    ∃ pre c post, cells = pre ++ c :: post ∧ pre.length = i := by
  refine ⟨cells.take i, cells[i], cells.drop (i + 1), ?_, ?_⟩
  · rw [← List.drop_eq_getElem_cons hi, List.take_append_drop]
  · rw [List.length_take]; omega

theorem take_map_left {β γ : Type} (f : β → γ) (pre rest : List β) :
    ((pre ++ rest).map f).take pre.length = pre.map f := by
  rw [List.map_append]
  exact List.take_left' (by simp)

theorem drop_map_left {β γ : Type} (f : β → γ) (pre rest : List β) :
    ((pre ++ rest).map f).drop pre.length = rest.map f := by
  rw [List.map_append]
  exact List.drop_left' (by simp)

theorem getElem?_map_left {β γ : Type} (f : β → γ) (pre rest : List β) :
    ((pre ++ rest).map f)[pre.length]? = (rest.map f)[0]? := by
  rw [List.map_append, List.getElem?_append_right (by simp)]
  simp

theorem iterator_eq_of_p {it : list.iterator} {p : Ptr} (hp : it.p = p) : it = ⟨p⟩ := by
  cases it; simpa using hp

/-- C18. For every well-formed list with contents `xs`, every index `i ≤ |xs|`
with the position being the iterator to the `i`-th node (`end()` when
`i = |xs|`) and every value `v`, when the store has room for a node,
`insert(position, v)` yields the contents `take i xs ++ [v] ++ drop i xs` with
`size() == |xs| + 1`, and returns an iterator that dereferences to `v` and
designates the node at index `i` of the new list; `insert(end(), v)` produces
the same heap and list as `push_back(v)`; on an empty list `v` becomes the
sole element whatever the position. -/
theorem C18_insert_contents {α : Type} (h : Heap α) (l : list) (i : Nat)
    (it : list.iterator) (v : α) (hw : list.wellFormed h l = true)
    (hi : i ≤ (list.toList h l).length) (hit : it.p = (list.nodes h l)[i]?)
    (hm : h.cells.length + 1 < SIZE_MOD) :
    (∃ h1 l1 it1, list.insert h l it v = .ok (h1, l1, it1) ∧
      list.toList h1 l1 = (list.toList h l).take i ++ [v] ++ (list.toList h l).drop i ∧
      l1.size = (list.toList h l).length + 1 ∧
      it1.deref h1 = .ok v ∧ it1.p ≠ none ∧ (list.nodes h1 l1)[i]? = it1.p ∧
      list.wellFormed h1 l1 = true) ∧
    (∃ h1 l1 it1, list.insert h l list.end v = .ok (h1, l1, it1) ∧
      list.push_back h l v = .ok (h1, l1)) ∧
    (list.toList h l = [] → ∀ pos : list.iterator,
      ∃ h1 l1 it1, list.insert h l pos v = .ok (h1, l1, it1) ∧ list.toList h1 l1 = [v]) := by
  obtain ⟨cells, hr⟩ := rep_of_wellFormed (α := α) hw
  rw [hr.toList_eq] at hi ⊢
  rw [hr.nodes_eq] at hit
  simp only [List.length_map] at hi ⊢
  refine ⟨?_, insert_end_eq_push_back hr v hm, ?_⟩
  · rcases Nat.lt_or_ge i cells.length with hlt | hge
    · obtain ⟨pre, c, post, rfl, rfl⟩ := cells_split cells i hlt
      rw [getElem?_map_left] at hit
      simp only [List.map_cons, List.getElem?_cons_zero] at hit
      have hit2 := iterator_eq_of_p hit
      subst hit2
      obtain ⟨h1, l1, he, hr1, -, -⟩ := hr.insert_at v hm
      have hmem : ((h.cells.length, v) : Nat × α) ∈
          pre ++ (h.cells.length, v) :: c :: post := by simp
      obtain ⟨nd, hnd, hdata⟩ := seg_lookup hr1.2.2.2.2 hmem
      refine ⟨h1, l1, _, he, ?_, ?_, ?_, by simp, ?_, wellFormed_of_rep hr1⟩
      · rw [hr1.toList_eq, take_map_left, drop_map_left]
        simp
      · rw [hr1.size_eq]
        simp only [List.length_append, List.length_cons]
        omega
      · simp [list.iterator.deref, Heap.deref_ok hnd, hdata, bind, Except.bind, pure,
          Except.pure]
      · rw [hr1.nodes_eq, getElem?_map_left]
        simp
    · have hie : i = cells.length := by omega
      subst hie
      rw [List.getElem?_eq_none (by simp)] at hit
      have hit2 : it = list.end := iterator_eq_of_p hit
      subst hit2
      obtain ⟨h1, l1, he, hr1, -, -⟩ := hr.insert_end v hm
      have hmem : ((h.cells.length, v) : Nat × α) ∈ cells ++ [(h.cells.length, v)] := by simp
      obtain ⟨nd, hnd, hdata⟩ := seg_lookup hr1.2.2.2.2 hmem
      refine ⟨h1, l1, _, he, ?_, ?_, ?_, by simp, ?_, wellFormed_of_rep hr1⟩
      · rw [hr1.toList_eq, List.take_of_length_le (by simp), List.drop_of_length_le (by simp)]
        simp
      · rw [hr1.size_eq]; simp
      · simp [list.iterator.deref, Heap.deref_ok hnd, hdata, bind, Except.bind, pure,
          Except.pure]
      · rw [hr1.nodes_eq, List.map_append, List.getElem?_append_right (by simp)]
        simp
  · intro hx pos
    have hc : cells = [] := by simpa using hx
    subst hc
    obtain ⟨h1, l1, he, hr1, -, -⟩ := hr.insert_empty pos v hm
    exact ⟨h1, l1, _, he, by rw [hr1.toList_eq]; rfl⟩

/-- On the two-element sample list `7, 8`, inserting `9` at the iterator to the
node at index 1 gives `7, 9, 8`. -/
theorem C18_insert_contents_witness :
    list.toList sampleHeap sampleList = [7, 8] ∧
    ∃ h1 l1 it1, list.insert sampleHeap sampleList ⟨some 1⟩ 9 = .ok (h1, l1, it1) ∧
      list.toList h1 l1 = (list.toList sampleHeap sampleList).take 1 ++ [9] ++
        (list.toList sampleHeap sampleList).drop 1 ∧
      l1.size = (list.toList sampleHeap sampleList).length + 1 ∧
      it1.deref h1 = .ok 9 ∧ it1.p ≠ none ∧ (list.nodes h1 l1)[1]? = it1.p ∧
      list.wellFormed h1 l1 = true :=
  ⟨by decide, (C18_insert_contents sampleHeap sampleList 1 ⟨some 1⟩ 9 (by decide)
    (by decide) (by decide) (by decide)).1⟩

theorem firstPtr_eq_head? {α : Type} (cells : List (Nat × α)) :
    firstPtr cells none = (cells.map Prod.fst).head? := by
  cases cells <;> rfl

theorem lastPtr_eq_getLast? {α : Type} (cells : List (Nat × α)) :
    lastPtr cells none = (cells.map Prod.fst).getLast? := by
  rcases eq_nil_or_snoc cells with rfl | ⟨init, t, rfl⟩
  · rfl
  · simp [lastPtr_append, lastPtr]

theorem eraseIdx_split {β : Type} (pre post : List β) (c : β) :
    (pre ++ c :: post).eraseIdx pre.length = pre ++ post := by
  rw [List.eraseIdx_append_of_length_le (Nat.le_refl _)]
  simp

/-- C19. For every well-formed list with contents `xs` and every position
designating the node at an index `i < |xs|`, `erase(position)` yields the
contents `take i xs ++ drop (i+1) xs` with `size() == |xs| - 1`; the nodes of
the new list are the old ones without the `i`-th, head and tail being the
first and the last of them (so the head changes exactly when `i == 0` and the
tail exactly when `i == |xs| - 1`); the returned iterator points to the node
that was at index `i+1` and dereferences to its value, and is `end()` when the
erased element was the last. -/
theorem C19_erase_contents {α : Type} (h : Heap α) (l : list) (i : Nat)
    (it : list.iterator) (hw : list.wellFormed h l = true)
    (hi : i < (list.toList h l).length) (hit : it.p = (list.nodes h l)[i]?) :
    ∃ h1 l1 it1, list.erase h l it = .ok (h1, l1, it1) ∧
      list.toList h1 l1 = (list.toList h l).take i ++ (list.toList h l).drop (i + 1) ∧
      l1.size + 1 = (list.toList h l).length ∧
      list.nodes h1 l1 = (list.nodes h l).eraseIdx i ∧
      l1.pHead = (list.nodes h1 l1).head? ∧ l1.pTail = (list.nodes h1 l1).getLast? ∧
      (0 < i → l1.pHead = l.pHead) ∧ (i + 1 < (list.toList h l).length → l1.pTail = l.pTail) ∧
      it1.p = (list.nodes h l)[i + 1]? ∧
      (i + 1 = (list.toList h l).length → it1 = list.end) ∧
      (∀ x, (list.toList h l)[i + 1]? = some x → it1.deref h1 = .ok x) ∧
      list.wellFormed h1 l1 = true := by
  obtain ⟨cells, hr⟩ := rep_of_wellFormed (α := α) hw
  rw [hr.toList_eq] at hi ⊢
  rw [hr.nodes_eq] at hit ⊢
  simp only [List.length_map] at hi ⊢
  obtain ⟨pre, c, post, rfl, rfl⟩ := cells_split cells i hi
  rw [getElem?_map_left] at hit
  simp only [List.map_cons, List.getElem?_cons_zero] at hit
  have hit2 := iterator_eq_of_p hit
  subst hit2
  obtain ⟨h1, l1, he, hr1, -, -⟩ := hr.erase
  have hpH := hr.2.2.1
  have hpT := hr.2.2.2.1
  refine ⟨h1, l1, _, he, ?_, ?_, ?_, ?_, ?_, ?_, ?_, ?_, ?_, ?_, wellFormed_of_rep hr1⟩
  · rw [hr1.toList_eq, take_map_left]
    have : pre ++ c :: post = (pre ++ [c]) ++ post := by simp
    rw [this]
    have hlen : (pre ++ [c]).length = pre.length + 1 := by simp
    rw [← hlen, drop_map_left]
    simp
  · rw [hr1.size_eq]
    simp only [List.length_append, List.length_cons]
    omega
  · rw [hr1.nodes_eq, List.map_append, List.map_append, List.map_cons]
    rw [← List.length_map pre Prod.fst, eraseIdx_split]
  · rw [hr1.2.2.1, hr1.nodes_eq]; exact firstPtr_eq_head? _
  · rw [hr1.2.2.2.1, hr1.nodes_eq]; exact lastPtr_eq_getLast? _
  · intro hpos
    rw [hr1.2.2.1, hpH]
    cases pre with
    | nil => simp at hpos
    | cons d pre1 => rfl
  · intro hlt
    rw [hr1.2.2.2.1, hpT]
    cases post with
    | nil => simp at hlt
    | cons d post1 => simp [lastPtr_append, lastPtr]
  · show firstPtr post none = _
    have : pre ++ c :: post = (pre ++ [c]) ++ post := by simp
    rw [this]
    have hlen : (pre ++ [c]).length = pre.length + 1 := by simp
    rw [← hlen, getElem?_map_left]
    cases post <;> simp [firstPtr]
  · intro hlast
    have : post = [] := by
      simp only [List.length_append, List.length_cons] at hlast
      exact List.length_eq_zero.1 (by omega)
    subst this
    rfl
  · intro x hx
    have : pre ++ c :: post = (pre ++ [c]) ++ post := by simp
    rw [this] at hx
    have hlen : (pre ++ [c]).length = pre.length + 1 := by simp
    rw [← hlen, getElem?_map_left] at hx
    cases post with
    | nil => simp at hx
    | cons d post1 =>
      simp only [List.map_cons, List.getElem?_cons_zero, Option.some.injEq] at hx
      obtain ⟨nd, hnd, hdata⟩ := seg_lookup hr1.2.2.2.2
        (show d ∈ pre ++ d :: post1 by simp)
      show list.iterator.deref h1 ⟨some d.1⟩ = _
      simp [list.iterator.deref, Heap.deref_ok hnd, hdata, hx, bind, Except.bind, pure,
        Except.pure]

/-- On the two-element sample list `7, 8`, erasing at the iterator to the first
node leaves `8`. -/
theorem C19_erase_contents_witness :
    list.toList sampleHeap sampleList = [7, 8] ∧
    ∃ h1 l1 it1, list.erase sampleHeap sampleList ⟨some 0⟩ = .ok (h1, l1, it1) ∧
      list.toList h1 l1 = [8] ∧ it1 = ⟨some 1⟩ := by
  refine ⟨by decide, ?_⟩
  obtain ⟨h1, l1, it1, he, hc, -, -, -, -, -, -, hp, -, -, -⟩ :=
    C19_erase_contents sampleHeap sampleList 0 ⟨some 0⟩ (by decide) (by decide) (by decide)
  refine ⟨h1, l1, it1, he, ?_, ?_⟩
  · rw [hc]; decide
  · exact iterator_eq_of_p (hp.trans (by decide))

/-- C13 (the code departs from it). On the empty set the counter equals the sum
of the bucket sizes, but after `bucket(13)` the counter is 13 while the sum is
still 0. Likewise the set holding only `10` satisfies the invariant, but after
being the source of a move construction its counter is still 1 while all its
buckets are empty. -/
theorem C13_counter_invariant_broken :
    unordered_set.mk0.numElements = unordered_set.mk0.bucketSum ∧
    (unordered_set.bucket int_to_size_t unordered_set.mk0 13).1.numElements = 13 ∧
    (unordered_set.bucket int_to_size_t unordered_set.mk0 13).1.bucketSum = 0 ∧
    set1.numElements = set1.bucketSum ∧
    (unordered_set.moveCtor set1).2.numElements = 1 ∧
    (unordered_set.moveCtor set1).2.bucketSum = 0 :=
  ⟨by decide, by decide, by decide, by decide, by decide, by decide⟩

/-- C14 (the code departs from it). Move-constructing from the set holding only
`10` gives the destination the element and empties the buckets of the source,
but the source still reports `size() == 1`. Move-assigning that set to an
empty set copies it: afterwards the source still holds `10` in bucket 0 and
still reports `size() == 1`. -/
theorem C14_move_leaves_source :
    unordered_set.bucketList heap2 (unordered_set.moveCtor set1).1 0 = [10] ∧
    (unordered_set.moveCtor set1).1.size = 1 ∧
    (∀ i, unordered_set.bucketList heap2 (unordered_set.moveCtor set1).2 i = []) ∧
    (unordered_set.moveCtor set1).2.size = 1 ∧
    ∃ h1 d s, unordered_set.moveAssign heap2 unordered_set.mk0 set1 = .ok (h1, d, s) ∧
      unordered_set.bucketList h1 d 0 = [10] ∧ d.size = 1 ∧
      unordered_set.bucketList h1 s 0 = [10] ∧ s.size = 1 :=
  ⟨by decide, by decide, by decide, by decide, _, _, _, rfl, by decide, by decide,
    by decide, by decide⟩

theorem ListRep.frame {α : Type} {h h1 : Heap α} {l : list} {C : List (Nat × α)}
    (hr : ListRep h l C) (hf : ∀ c ∈ C, h1.lookup c.1 = h.lookup c.1) : ListRep h1 l C :=
  ⟨hr.1, hr.2.1, hr.2.2.1, hr.2.2.2.1, seg_frame hr.2.2.2.2 hf⟩

theorem ListRep.addr_lt {α : Type} {h : Heap α} {l : list} {C : List (Nat × α)}
    (hr : ListRep h l C) {c : Nat × α} (hc : c ∈ C) : c.1 < h.cells.length :=
  seg_mem_lt hr.2.2.2.2 hc

theorem assignBuckets_spec {α : Type} (is : List (Fin 10)) :
    ∀ (h : Heap α) (dst src : Fin 10 → list) (D S : Fin 10 → List (Nat × α)),
      (∀ i, ListRep h (dst i) (D i)) →
      (∀ i j, i ≠ j → ∀ c ∈ D i, ∀ d ∈ D j, c.1 ≠ d.1) →
      (∀ i, ListRep h (src i) (S i)) →
      (∀ i j, ∀ c ∈ D i, ∀ d ∈ S j, c.1 ≠ d.1) →
      h.cells.length + (is.map (fun i => (S i).length)).sum < SIZE_MOD →
      ∃ (h1 : Heap α) (dst1 : Fin 10 → list) (D1 : Fin 10 → List (Nat × α)),
        assignBuckets is h dst src = .ok (h1, dst1) ∧
        (∀ i, ListRep h1 (dst1 i) (D1 i)) ∧
        (∀ i j, i ≠ j → ∀ c ∈ D1 i, ∀ d ∈ D1 j, c.1 ≠ d.1) ∧
        (∀ i, ListRep h1 (src i) (S i)) ∧
        (∀ i j, ∀ c ∈ D1 i, ∀ d ∈ S j, c.1 ≠ d.1) ∧
        (∀ i ∈ is, (D1 i).map Prod.snd = (S i).map Prod.snd) ∧
        (∀ i, i ∉ is → D1 i = D i ∧ dst1 i = dst i) ∧
        h.cells.length ≤ h1.cells.length ∧
        h1.cells.length ≤ h.cells.length + (is.map (fun i => (S i).length)).sum ∧
        (∀ b, b < h.cells.length → (∀ i, ∀ c ∈ D i, c.1 ≠ b) → h1.lookup b = h.lookup b) ∧
        (∀ i, ∀ c ∈ D1 i, (∃ d ∈ D i, d.1 = c.1) ∨ h.cells.length ≤ c.1) := by
  induction is with
  | nil =>
    intro h dst src D S hD hDd hS hX _
    exact ⟨h, dst, D, rfl, hD, hDd, hS, hX, fun i hi => absurd hi (List.not_mem_nil i),
      fun i _ => ⟨rfl, rfl⟩, Nat.le_refl _, by simp, fun _ _ _ => rfl,
      fun i c hc => Or.inl ⟨c, hc, rfl⟩⟩
  | cons i rest ih =>
    intro h dst src D S hD hDd hS hX hroom
    simp only [List.map_cons, List.sum_cons] at hroom ⊢
    obtain ⟨h1, l1, cells, he, hr1, hsnd, hR1, hle1, hle2, hfr1, haddr1⟩ :=
      (hD i).assign_disjoint (hS i) (hX i i) (fun _ => by omega)
    -- the family after the first assignment
    have hD1 : ∀ j, ListRep h1 (Function.update dst i l1 j) (Function.update D i cells j) := by
      intro j
      by_cases hj : j = i
      · subst hj; simpa using hr1
      · rw [Function.update_noteq hj, Function.update_noteq hj]
        exact (hD j).frame (fun c hc => hfr1 _ ((hD j).addr_lt hc)
          (fun d hd => hDd i j (Ne.symm hj) d hd c hc))
    have hmemD1 : ∀ j, ∀ c ∈ Function.update D i cells j,
        (∃ d ∈ D j, d.1 = c.1) ∨ h.cells.length ≤ c.1 := by
      intro j c hc
      by_cases hj : j = i
      · subst hj
        rw [Function.update_same] at hc
        exact haddr1 c hc
      · rw [Function.update_noteq hj] at hc
        exact Or.inl ⟨c, hc, rfl⟩
    have hDd1 : ∀ j k, j ≠ k → ∀ c ∈ Function.update D i cells j,
        ∀ d ∈ Function.update D i cells k, c.1 ≠ d.1 := by
      intro j k hjk c hc d hd
      rcases hmemD1 j c hc with ⟨c0, hc0, hc1⟩ | hcge
      · rcases hmemD1 k d hd with ⟨d0, hd0, hd1⟩ | hdge
        · rw [← hc1, ← hd1]; exact hDd j k hjk c0 hc0 d0 hd0
        · have := (hD j).addr_lt hc0
          rw [← hc1]; omega
      · rcases hmemD1 k d hd with ⟨d0, hd0, hd1⟩ | hdge
        · have := (hD k).addr_lt hd0
          rw [← hd1]; omega
        · -- both are new nodes of the same list, so j = k = i
          by_cases hj : j = i
          · by_cases hk : k = i
            · exact absurd (hj.trans hk.symm) hjk
            · rw [Function.update_noteq hk] at hd
              have := (hD k).addr_lt hd
              omega
          · rw [Function.update_noteq hj] at hc
            have := (hD j).addr_lt hc
            omega
    have hS1 : ∀ j, ListRep h1 (src j) (S j) := by
      intro j
      exact (hS j).frame (fun c hc => hfr1 _ ((hS j).addr_lt hc)
        (fun d hd => hX i j d hd c hc))
    have hX1 : ∀ j k, ∀ c ∈ Function.update D i cells j, ∀ d ∈ S k, c.1 ≠ d.1 := by
      intro j k c hc d hd
      rcases hmemD1 j c hc with ⟨c0, hc0, hc1⟩ | hcge
      · rw [← hc1]; exact hX j k c0 hc0 d hd
      · have := (hS k).addr_lt hd
        omega
    obtain ⟨h2, dst2, D2, he2, hD2, hDd2, hS2, hX2, hcont2, hrest2, hle3, hle4, hfr2, haddr2⟩ :=
      ih h1 (Function.update dst i l1) src (Function.update D i cells) S hD1 hDd1 hS1 hX1
        (by omega)
    refine ⟨h2, dst2, D2, ?_, hD2, hDd2, hS2, hX2, ?_, ?_, by omega, by omega, ?_, ?_⟩
    · simp only [assignBuckets, he, bind, Except.bind]
      exact he2
    · intro j hj
      by_cases hjr : j ∈ rest
      · exact hcont2 j hjr
      · have hji : j = i := by
          rcases List.mem_cons.1 hj with hx | hx
          · exact hx
          · exact absurd hx hjr
        subst hji
        rw [(hrest2 j hjr).1, Function.update_same]
        exact hsnd
    · intro j hj
      have hji : j ≠ i := fun hx => hj (hx ▸ List.mem_cons_self _ _)
      have hjr : j ∉ rest := fun hx => hj (List.mem_cons_of_mem _ hx)
      obtain ⟨e1, e2⟩ := hrest2 j hjr
      rw [Function.update_noteq hji] at e1 e2
      exact ⟨e1, e2⟩
    · intro b hb hbD
      rw [hfr2 b (by omega) (fun j c hc => ?_), hfr1 b hb (hbD i)]
      rcases hmemD1 j c hc with ⟨c0, hc0, hc1⟩ | hcge
      · rw [← hc1]; exact hbD j c0 hc0
      · omega
    · intro j c hc
      rcases haddr2 j c hc with ⟨d, hd, hd1⟩ | hge
      · rcases hmemD1 j d hd with ⟨d0, hd0, hd01⟩ | hdge
        · exact Or.inl ⟨d0, hd0, hd01.trans hd1⟩
        · right; omega
      · right; omega

theorem mem_bucketIndices : ∀ i : Fin 10, i ∈ bucketIndices := by decide

theorem nodup_bucketIndices_reverse : bucketIndices.reverse.Nodup := by decide

theorem destroyBuckets_spec {α : Type} (is : List (Fin 10)) :
    ∀ (h : Heap α) (bs : Fin 10 → list) (C : Fin 10 → List (Nat × α)),
      (∀ i ∈ is, ListRep h (bs i) (C i)) →
      (∀ i j, i ≠ j → ∀ c ∈ C i, ∀ d ∈ C j, c.1 ≠ d.1) → is.Nodup →
      ∃ h1, destroyBuckets is h bs = .ok h1 ∧ h1.cells.length = h.cells.length ∧
        ∀ b, (∀ i, ∀ c ∈ C i, c.1 ≠ b) → h1.lookup b = h.lookup b := by
  induction is with
  | nil =>
    intro h bs C _ _ _
    exact ⟨h, rfl, rfl, fun _ _ => rfl⟩
  | cons i rest ih =>
    intro h bs C hC hCd hnd
    rw [List.nodup_cons] at hnd
    obtain ⟨h1, he, -, hlen1, hfr1⟩ := (hC i (List.mem_cons_self _ _)).clear
    have hC1 : ∀ j ∈ rest, ListRep h1 (bs j) (C j) := by
      intro j hj
      have hji : j ≠ i := fun hx => hnd.1 (hx ▸ hj)
      exact (hC j (List.mem_cons_of_mem _ hj)).frame
        (fun c hc => hfr1 _ (fun d hd => hCd i j (Ne.symm hji) d hd c hc))
    obtain ⟨h2, he2, hlen2, hfr2⟩ := ih h1 bs C hC1 hCd hnd.2
    refine ⟨h2, ?_, by omega, ?_⟩
    · simp only [destroyBuckets, he, bind, Except.bind]
      exact he2
    · intro b hb
      rw [hfr2 b hb, hfr1 b (hb i)]

theorem sum_lengths_congr {α : Type} (is : List (Fin 10)) (C D : Fin 10 → List (Nat × α))
    (hcd : ∀ i, (C i).map Prod.snd = (D i).map Prod.snd) :
    (is.map (fun i => (C i).length)).sum = (is.map (fun i => (D i).length)).sum := by
  have : ∀ i, (C i).length = (D i).length := by
    intro i
    simpa using congrArg List.length (hcd i)
  simp only [this]

theorem member_swap_spec {α : Type} {h : Heap α} {a b : unordered_set}
    {A B : Fin 10 → List (Nat × α)}
    (hA : ∀ i, ListRep h (a.buckets i) (A i))
    (hAd : ∀ i j, i ≠ j → ∀ c ∈ A i, ∀ d ∈ A j, c.1 ≠ d.1)
    (hB : ∀ i, ListRep h (b.buckets i) (B i))
    (hBd : ∀ i j, i ≠ j → ∀ c ∈ B i, ∀ d ∈ B j, c.1 ≠ d.1)
    (hX : ∀ i j, ∀ c ∈ A i, ∀ d ∈ B j, c.1 ≠ d.1)
    (hroom : h.cells.length + 2 * (bucketIndices.map (fun i => (A i).length)).sum
      + (bucketIndices.map (fun i => (B i).length)).sum < SIZE_MOD) :
    ∃ (h1 : Heap α) (a1 b1 : unordered_set) (A1 B1 : Fin 10 → List (Nat × α)),
      unordered_set.swap h a b = .ok (h1, a1, b1) ∧
      (∀ i, ListRep h1 (a1.buckets i) (A1 i)) ∧
      (∀ i j, i ≠ j → ∀ c ∈ A1 i, ∀ d ∈ A1 j, c.1 ≠ d.1) ∧
      (∀ i, ListRep h1 (b1.buckets i) (B1 i)) ∧
      (∀ i j, i ≠ j → ∀ c ∈ B1 i, ∀ d ∈ B1 j, c.1 ≠ d.1) ∧
      (∀ i j, ∀ c ∈ A1 i, ∀ d ∈ B1 j, c.1 ≠ d.1) ∧
      (∀ i, (A1 i).map Prod.snd = (B i).map Prod.snd) ∧
      (∀ i, (B1 i).map Prod.snd = (A i).map Prod.snd) ∧
      a1.numElements = b.numElements ∧ b1.numElements = a.numElements ∧
      h1.cells.length ≤ h.cells.length + 2 * (bucketIndices.map (fun i => (A i).length)).sum
        + (bucketIndices.map (fun i => (B i).length)).sum := by
  -- tempBuckets[i] = buckets[i]
  obtain ⟨h1, tmp, T, he1, hT1, hTd1, hA1, hXTA, hcT, -, hle1, hle1u, hfr1, haddrT⟩ :=
    assignBuckets_spec bucketIndices h (fun _ => list.mk0) a.buckets
      (fun _ => ([] : List (Nat × α))) A (fun _ => ListRep.nil h)
      (fun _ _ _ c hc => absurd hc (List.not_mem_nil c)) hA
      (fun _ _ c hc => absurd hc (List.not_mem_nil c)) (by omega)
  have hTnew : ∀ i, ∀ c ∈ T i, h.cells.length ≤ c.1 := by
    intro i c hc
    rcases haddrT i c hc with ⟨d, hd, -⟩ | hge
    · exact absurd hd (List.not_mem_nil d)
    · exact hge
  have hB1 : ∀ i, ListRep h1 (b.buckets i) (B i) := fun i =>
    (hB i).frame (fun c hc => hfr1 _ ((hB i).addr_lt hc)
      (fun _ d hd => absurd hd (List.not_mem_nil d)))
  have hXTB : ∀ i j, ∀ c ∈ T i, ∀ d ∈ B j, c.1 ≠ d.1 := by
    intro i j c hc d hd
    have := hTnew i c hc
    have := (hB j).addr_lt hd
    omega
  have hsumT := sum_lengths_congr bucketIndices T A (fun i => hcT i (mem_bucketIndices i))
  -- buckets[j] = rhs.buckets[j]
  obtain ⟨h2, bs, A2, he2, hA2, hAd2, hB2, hXAB2, hcA, -, hle2, hle2u, hfr2, haddrA⟩ :=
    assignBuckets_spec bucketIndices h1 a.buckets b.buckets A B hA1 hAd hB1 hX (by omega)
  have hT2 : ∀ i, ListRep h2 (tmp i) (T i) := fun i =>
    (hT1 i).frame (fun c hc => hfr2 _ ((hT1 i).addr_lt hc)
      (fun j d hd => Ne.symm (hXTA i j c hc d hd)))
  have hXA2T : ∀ i j, ∀ c ∈ A2 i, ∀ d ∈ T j, c.1 ≠ d.1 := by
    intro i j c hc d hd
    rcases haddrA i c hc with ⟨c0, hc0, hc1⟩ | hge
    · rw [← hc1]; exact Ne.symm (hXTA j i d hd c0 hc0)
    · have := (hT1 j).addr_lt hd
      omega
  -- rhs.buckets[k] = tempBuckets[k]
  obtain ⟨h3, rbs, B3, he3, hB3, hBd3, hT3, hXBT3, hcB, -, hle3, hle3u, hfr3, haddrB⟩ :=
    assignBuckets_spec bucketIndices h2 b.buckets tmp B T hB2 hBd hT2
      (fun i j c hc d hd => Ne.symm (hXTB j i d hd c hc)) (by omega)
  have hA3 : ∀ i, ListRep h3 (bs i) (A2 i) := fun i =>
    (hA2 i).frame (fun c hc => hfr3 _ ((hA2 i).addr_lt hc)
      (fun j d hd => Ne.symm (hXAB2 i j c hc d hd)))
  have hXA2B3 : ∀ i j, ∀ c ∈ A2 i, ∀ d ∈ B3 j, c.1 ≠ d.1 := by
    intro i j c hc d hd
    rcases haddrB j d hd with ⟨d0, hd0, hd1⟩ | hge
    · rw [← hd1]; exact hXAB2 i j c hc d0 hd0
    · have := (hA2 i).addr_lt hc
      omega
  -- the destructors of tempBuckets
  obtain ⟨h4, he4, hlen4, hfr4⟩ := destroyBuckets_spec bucketIndices.reverse h3 tmp T
    (fun i _ => hT3 i) hTd1 nodup_bucketIndices_reverse
  refine ⟨h4, ⟨bs, b.numElements⟩, ⟨rbs, a.numElements⟩, A2, B3, ?_, ?_, hAd2, ?_, hBd3,
    hXA2B3, fun i => hcA i (mem_bucketIndices i), ?_, rfl, rfl, by omega⟩
  · simp only [unordered_set.swap, he1, he2, he3, he4, bind, Except.bind, pure, Except.pure]
  · exact fun i => (hA3 i).frame (fun c hc => hfr4 _ (fun j d hd =>
      Ne.symm (hXA2T i j c hc d hd)))
  · exact fun i => (hB3 i).frame (fun c hc => hfr4 _ (fun j d hd =>
      Ne.symm (hXBT3 i j c hc d hd)))
  · intro i
    rw [hcB i (mem_bucketIndices i), hcT i (mem_bucketIndices i)]

theorem setRep_of_wellFormed {α : Type} {h : Heap α} {s : unordered_set}
    (hw : unordered_set.wellFormed h s = true) :
    ∃ C : Fin 10 → List (Nat × α), (∀ i, ListRep h (s.buckets i) (C i)) ∧
      (∀ i j, i ≠ j → ∀ c ∈ C i, ∀ d ∈ C j, c.1 ≠ d.1) ∧
      s.numElements = (bucketIndices.map (fun i => (C i).length)).sum := by
  unfold unordered_set.wellFormed at hw
  simp only [Bool.and_eq_true, decide_eq_true_eq] at hw
  obtain ⟨⟨hw1, hw2⟩, hw3⟩ := hw
  choose C hC using fun i => rep_of_wellFormed (α := α) (hw1 i)
  refine ⟨C, hC, ?_, ?_⟩
  · intro i j hij c hc d hd hcd
    refine hw2 i j hij c.1 ?_ ?_
    · rw [(hC i).nodes_eq]; exact List.mem_map_of_mem _ hc
    · rw [(hC j).nodes_eq, hcd]; exact List.mem_map_of_mem _ hd
  · rw [hw3, unordered_set.bucketSum]
    congr 1
    apply List.map_congr_left
    intro i _
    exact (hC i).1

theorem wellFormed_of_setRep {α : Type} {h : Heap α} {s : unordered_set}
    {C : Fin 10 → List (Nat × α)} (hC : ∀ i, ListRep h (s.buckets i) (C i))
    (hd : ∀ i j, i ≠ j → ∀ c ∈ C i, ∀ d ∈ C j, c.1 ≠ d.1)
    (hn : s.numElements = (bucketIndices.map (fun i => (C i).length)).sum) :
    unordered_set.wellFormed h s = true := by
  unfold unordered_set.wellFormed
  simp only [Bool.and_eq_true, decide_eq_true_eq]
  refine ⟨⟨fun i => wellFormed_of_rep (hC i), ?_⟩, ?_⟩
  · intro i j hij x hx hx2
    rw [(hC i).nodes_eq] at hx
    rw [(hC j).nodes_eq] at hx2
    obtain ⟨c, hc, rfl⟩ := List.mem_map.1 hx
    obtain ⟨d, hd1, hd2⟩ := List.mem_map.1 hx2
    exact hd i j hij c hc d hd1 hd2.symm
  · rw [hn, unordered_set.bucketSum]
    congr 1
    apply List.map_congr_left
    intro i _
    exact ((hC i).1).symm

theorem cross_of_apart {α : Type} {h : Heap α} {a b : unordered_set}
    {A B : Fin 10 → List (Nat × α)} (hab : unordered_set.apart h a b = true)
    (hA : ∀ i, ListRep h (a.buckets i) (A i)) (hB : ∀ i, ListRep h (b.buckets i) (B i)) :
    ∀ i j, ∀ c ∈ A i, ∀ d ∈ B j, c.1 ≠ d.1 := by
  unfold unordered_set.apart at hab
  simp only [decide_eq_true_eq] at hab
  intro i j c hc d hd hcd
  refine hab i j c.1 ?_ ?_
  · rw [(hA i).nodes_eq]; exact List.mem_map_of_mem _ hc
  · rw [(hB j).nodes_eq, hcd]; exact List.mem_map_of_mem _ hd

theorem bucketList_of_rep {α : Type} {h : Heap α} {s : unordered_set}
    {C : Fin 10 → List (Nat × α)} (hC : ∀ i, ListRep h (s.buckets i) (C i)) (i : Fin 10) :
    unordered_set.bucketList h s i = (C i).map Prod.snd :=
  (hC i).toList_eq

/-- C15. `swap` on hash sets exchanges them. The free function `swap(a, b)`
gives each bucket `i` of `a` the element sequence of bucket `i` of `b` and the
other way round, exchanges the sizes, and applied twice gives back `a` and
`b` themselves. For two well-formed sets in the same heap that share no node,
with room in the store for the copies the member function makes, `a.swap(b)`
returns normally, each bucket `i` of `a` then holds the former element
sequence of bucket `i` of `b` and the other way round, the sizes are
exchanged and both sets are well formed again; a second `a.swap(b)` restores
the contents and sizes of both sets. -/
theorem C15_swap_exchanges {α : Type} (h : Heap α) (a b : unordered_set)
    (ha : unordered_set.wellFormed h a = true) (hb : unordered_set.wellFormed h b = true)
    (hab : unordered_set.apart h a b = true)
    (hroom : h.cells.length + 3 * (a.size + b.size) < SIZE_MOD) :
    ((∀ i, unordered_set.bucketList h (swap a b).1 i = unordered_set.bucketList h b i ∧
        unordered_set.bucketList h (swap a b).2 i = unordered_set.bucketList h a i) ∧
      (swap a b).1.size = b.size ∧ (swap a b).2.size = a.size ∧
      swap (swap a b).1 (swap a b).2 = (a, b)) ∧
    (∃ h1 a1 b1, unordered_set.swap h a b = .ok (h1, a1, b1) ∧
      (∀ i, unordered_set.bucketList h1 a1 i = unordered_set.bucketList h b i ∧
        unordered_set.bucketList h1 b1 i = unordered_set.bucketList h a i) ∧
      a1.size = b.size ∧ b1.size = a.size ∧
      unordered_set.wellFormed h1 a1 = true ∧ unordered_set.wellFormed h1 b1 = true ∧
      ∃ h2 a2 b2, unordered_set.swap h1 a1 b1 = .ok (h2, a2, b2) ∧
        (∀ i, unordered_set.bucketList h2 a2 i = unordered_set.bucketList h a i ∧
          unordered_set.bucketList h2 b2 i = unordered_set.bucketList h b i) ∧
        a2.size = a.size ∧ b2.size = b.size) := by
  refine ⟨⟨fun i => ⟨rfl, rfl⟩, rfl, rfl, rfl⟩, ?_⟩
  obtain ⟨A, hA, hAd, hAn⟩ := setRep_of_wellFormed (α := α) ha
  obtain ⟨B, hB, hBd, hBn⟩ := setRep_of_wellFormed (α := α) hb
  have hX := cross_of_apart hab hA hB
  simp only [unordered_set.size] at hroom ⊢
  rw [hAn, hBn] at hroom
  obtain ⟨h1, a1, b1, A1, B1, he1, hA1, hAd1, hB1, hBd1, hX1, hcA1, hcB1, hna1, hnb1, hlen1⟩ :=
    member_swap_spec hA hAd hB hBd hX (by omega)
  have hsA1 := sum_lengths_congr bucketIndices A1 B hcA1
  have hsB1 := sum_lengths_congr bucketIndices B1 A hcB1
  obtain ⟨h2, a2, b2, A2, B2, he2, hA2, -, hB2, -, -, hcA2, hcB2, hna2, hnb2, -⟩ :=
    member_swap_spec hA1 hAd1 hB1 hBd1 hX1 (by omega)
  refine ⟨h1, a1, b1, he1, ?_, hna1, hnb1, ?_, ?_, h2, a2, b2, he2, ?_, ?_, ?_⟩
  · intro i
    rw [bucketList_of_rep hA1, bucketList_of_rep hB1, bucketList_of_rep hA, bucketList_of_rep hB]
    exact ⟨hcA1 i, hcB1 i⟩
  · exact wellFormed_of_setRep hA1 hAd1 (by rw [hna1, hBn, hsA1])
  · exact wellFormed_of_setRep hB1 hBd1 (by rw [hnb1, hAn, hsB1])
  · intro i
    rw [bucketList_of_rep hA2, bucketList_of_rep hB2, bucketList_of_rep hA, bucketList_of_rep hB]
    exact ⟨(hcA2 i).trans (hcB1 i), (hcB2 i).trans (hcA1 i)⟩
  · rw [hna2, hnb1]
  · rw [hnb2, hna1]

/-- The set holding `10` and `11` and the empty set, over the same heap, are
well formed and share no node, so both swaps exchange them. -/
theorem C15_swap_exchanges_witness :
    unordered_set.wellFormed heap2 set2 = true ∧
    unordered_set.wellFormed heap2 unordered_set.mk0 = true ∧
    unordered_set.apart heap2 set2 unordered_set.mk0 = true ∧
    ∃ h1 a1 b1, unordered_set.swap heap2 set2 unordered_set.mk0 = .ok (h1, a1, b1) ∧
      (∀ i, unordered_set.bucketList h1 a1 i
          = unordered_set.bucketList heap2 unordered_set.mk0 i ∧
        unordered_set.bucketList h1 b1 i = unordered_set.bucketList heap2 set2 i) ∧
      a1.size = unordered_set.mk0.size ∧ b1.size = set2.size := by
  refine ⟨by decide, by decide, by decide, ?_⟩
  obtain ⟨-, h1, a1, b1, he, hc, hs1, hs2, -⟩ :=
    C15_swap_exchanges heap2 set2 unordered_set.mk0 (by decide) (by decide) (by decide)
      (by decide)
  exact ⟨h1, a1, b1, he, hc, hs1, hs2⟩

/-! ## Element access -/

theorem front_thrown_iff {α : Type} (h : Heap α) (l : list) :
    list.front h l = .error (.thrown EMPTY_MSG) ↔ l.empty = true := by
  unfold list.front
  cases he : l.empty
  · simp only [Bool.not_false, if_true]
    cases l.pHead with
    | none => simp [Heap.deref, bind, Except.bind]
    | some a =>
      cases hl : h.lookup a <;> simp [Heap.deref, hl, bind, Except.bind, pure, Except.pure]
  · simp

theorem back_thrown_iff {α : Type} (h : Heap α) (l : list) :
    list.back h l = .error (.thrown EMPTY_MSG) ↔ l.empty = true := by
  unfold list.back
  cases he : l.empty
  · simp only [Bool.not_false, if_true]
    cases l.pTail with
    | none => simp [Heap.deref, bind, Except.bind]
    | some a =>
      cases hl : h.lookup a <;> simp [Heap.deref, hl, bind, Except.bind, pure, Except.pure]
  · simp

theorem ListRep.front_cons {α : Type} {h : Heap α} {l : list} {c : Nat × α}
    {rest : List (Nat × α)} (hr : ListRep h l (c :: rest)) :
    list.front h l = .ok (h, l, c.2) := by
  have he : l.empty = false := by
    cases hx : l.empty
    · rfl
    · exact absurd (hr.empty_iff.1 hx) (List.cons_ne_nil _ _)
  obtain ⟨-, -, hh, -, hs⟩ := hr
  have hl : h.lookup c.1 = some ⟨c.2, firstPtr rest none, none⟩ := hs.1
  simp [list.front, he, hh, firstPtr, Heap.deref, hl, bind, Except.bind, pure, Except.pure]

theorem ListRep.back_snoc {α : Type} {h : Heap α} {l : list} {t : Nat × α}
    {init : List (Nat × α)} (hr : ListRep h l (init ++ [t])) :
    list.back h l = .ok (h, l, t.2) := by
  have he : l.empty = false := by
    cases hx : l.empty
    · rfl
    · exact absurd (hr.empty_iff.1 hx) (by simp)
  obtain ⟨-, -, -, ht, hs⟩ := hr
  have hl := ((seg_concat h init t none none).1 hs).2
  have htl : l.pTail = some t.1 := by
    rw [ht, lastPtr_append]; rfl
  simp [list.back, he, htl, Heap.deref, hl, bind, Except.bind, pure, Except.pure]

/-- C21. On every well-formed list, `front()` and `back()` throw the
empty-container error exactly when the list is empty (`empty()` holds, that
is its contents are `[]`); when the contents are not empty `front()` returns
their first element and `back()` their last, and both hand back the heap and
the list as they were. -/
theorem C21_front_back_contract {α : Type} (h : Heap α) (l : list)
    (hw : list.wellFormed h l = true) :
    (l.empty = true ↔ list.toList h l = ([] : List α)) ∧
    (list.front h l = .error (.thrown EMPTY_MSG) ↔ list.toList h l = ([] : List α)) ∧
    (list.back h l = .error (.thrown EMPTY_MSG) ↔ list.toList h l = ([] : List α)) ∧
    (∀ x, (list.toList h l).head? = some x → list.front h l = .ok (h, l, x)) ∧
    (∀ x, (list.toList h l).getLast? = some x → list.back h l = .ok (h, l, x)) := by
  obtain ⟨cells, hr⟩ := rep_of_wellFormed (α := α) hw
  have hE : l.empty = true ↔ list.toList h l = ([] : List α) := by
    rw [hr.empty_iff, hr.toList_eq]; simp
  refine ⟨hE, (front_thrown_iff h l).trans hE, (back_thrown_iff h l).trans hE, ?_, ?_⟩
  · intro x hx
    rw [hr.toList_eq] at hx
    cases cells with
    | nil => simp at hx
    | cons c rest =>
      simp only [List.map_cons, List.head?_cons, Option.some.injEq] at hx
      rw [← hx]; exact hr.front_cons
  · intro x hx
    rw [hr.toList_eq] at hx
    rcases eq_nil_or_snoc cells with rfl | ⟨init, t, rfl⟩
    · simp at hx
    · simp only [List.map_append, List.map_cons, List.map_nil, List.getLast?_append,
        List.getLast?_singleton, Option.or, Option.some.injEq] at hx
      rw [← hx]; exact hr.back_snoc

/-- On the two-element sample list `7, 8`, `front()` returns `7` and `back()`
returns `8`; on the empty list both throw. -/
theorem C21_front_back_contract_witness :
    list.toList sampleHeap sampleList = [7, 8] ∧
    list.front sampleHeap sampleList = .ok (sampleHeap, sampleList, 7) ∧
    list.back sampleHeap sampleList = .ok (sampleHeap, sampleList, 8) ∧
    (list.front sampleHeap list.mk0 = .error (.thrown EMPTY_MSG) ↔
      list.toList sampleHeap list.mk0 = ([] : List Nat)) :=
  ⟨by decide,
   (C21_front_back_contract sampleHeap sampleList (by decide)).2.2.2.1 7 (by decide),
   (C21_front_back_contract sampleHeap sampleList (by decide)).2.2.2.2 8 (by decide),
   (C21_front_back_contract sampleHeap list.mk0 (by decide)).2.1⟩

/-- C22. For all well-formed lists `a` and `b` in one store (the same list or
two lists), when the store has room for the `|ys| - |xs|` nodes a longer
right-hand side needs, the copy assignment `a = b` returns normally; then
the contents of `a` are those of `b` in order, `a.size()` is their number,
`a` is well formed, and `b` is well formed with its contents unchanged.
When `a` and `b` shared no node before, they share none after. -/
theorem C22_copy_assign_deep {α : Type} (h : Heap α) (a b : list)
    (ha : list.wellFormed h a = true) (hb : list.wellFormed h b = true)
    (hroom : a.size < b.size → h.cells.length + (b.size - a.size) < SIZE_MOD) :
    ∃ h1 a1, list.assign h a b = .ok (h1, a1) ∧
      list.toList h1 a1 = list.toList h b ∧
      a1.size = (list.toList h b).length ∧
      list.wellFormed h1 a1 = true ∧
      list.toList h1 b = list.toList h b ∧
      list.wellFormed h1 b = true ∧
      ((∀ x ∈ list.nodes h a, x ∉ list.nodes h b) →
        ∀ x ∈ list.nodes h1 a1, x ∉ list.nodes h1 b) := by
  obtain ⟨L, hL⟩ := rep_of_wellFormed (α := α) ha
  obtain ⟨R, hR⟩ := rep_of_wellFormed (α := α) hb
  rw [hL.size_eq, hR.size_eq] at hroom
  rw [hL.nodes_eq, hR.nodes_eq, hR.toList_eq]
  by_cases hsh : ∃ c ∈ L, ∃ d ∈ R, c.1 = d.1
  · obtain ⟨c, hc, d, hd, hcd⟩ := hsh
    obtain ⟨rfl, rfl⟩ := hL.eq_of_shared hR hc hd hcd
    obtain ⟨h1, a1, cells, he, hr1, hsnd, hR1⟩ := hL.assign_self
    refine ⟨h1, a1, he, ?_, ?_, wellFormed_of_rep hr1, hR1.toList_eq, wellFormed_of_rep hR1, ?_⟩
    · rw [hr1.toList_eq, hsnd]
    · rw [hr1.size_eq, ← List.length_map cells Prod.snd, hsnd]
    · intro hdis
      exact absurd (List.mem_map_of_mem Prod.fst hc) (hdis c.1 (List.mem_map_of_mem Prod.fst hc))
  · have hdis0 : ∀ c ∈ L, ∀ d ∈ R, c.1 ≠ d.1 := fun c hc d hd hcd => hsh ⟨c, hc, d, hd, hcd⟩
    obtain ⟨h1, a1, cells, he, hr1, hsnd, hR1, -, -, -, hnew⟩ :=
      hL.assign_disjoint hR hdis0 hroom
    refine ⟨h1, a1, he, ?_, ?_, wellFormed_of_rep hr1, hR1.toList_eq, wellFormed_of_rep hR1, ?_⟩
    · rw [hr1.toList_eq, hsnd]
    · rw [hr1.size_eq, ← List.length_map cells Prod.snd, hsnd]
    · intro _ x hx hxb
      rw [hr1.nodes_eq] at hx
      rw [hR1.nodes_eq] at hxb
      obtain ⟨c, hc, rfl⟩ := List.mem_map.1 hx
      obtain ⟨d, hd, hdc⟩ := List.mem_map.1 hxb
      rcases hnew c hc with ⟨e, he1, he2⟩ | hge
      · exact hdis0 e he1 d hd (by rw [he2, hdc])
      · have := hR.addr_lt hd
        omega

/-- Assigning the list `5, 6` to the list `1, 2, 3` of `pairHeap` (the longer
left-hand side is trimmed) leaves `5, 6` in both. -/
theorem C22_copy_assign_deep_witness :
    list.toList pairHeap pairLong = [1, 2, 3] ∧ list.toList pairHeap pairShort = [5, 6] ∧
    ∃ h1 a1, list.assign pairHeap pairLong pairShort = .ok (h1, a1) ∧
      list.toList h1 a1 = list.toList pairHeap pairShort ∧
      a1.size = (list.toList pairHeap pairShort).length ∧
      list.wellFormed h1 a1 = true ∧
      list.toList h1 pairShort = list.toList pairHeap pairShort ∧
      list.wellFormed h1 pairShort = true ∧
      ((∀ x ∈ list.nodes pairHeap pairLong, x ∉ list.nodes pairHeap pairShort) →
        ∀ x ∈ list.nodes h1 a1, x ∉ list.nodes h1 pairShort) :=
  ⟨by decide, by decide,
   C22_copy_assign_deep pairHeap pairLong pairShort (by decide) (by decide) (by decide)⟩

/-! ## Move construction and move assignment -/

theorem list.eta (l : list) : (⟨l.numElements, l.pHead, l.pTail⟩ : list) = l := by
  cases l; rfl

/-- C23. For every well-formed list `src`, the move constructor (which touches
no node) yields a destination with the contents of `src` in order and
`size()` their number, and leaves `src` empty: `size() == 0`,
`begin() == end()`, head and tail null. The same holds for the move
assignment onto any well-formed `dst` that shares no node with `src`: it
returns normally, allocates nothing, and leaves both lists well formed. -/
theorem C23_move_transfers {α : Type} (h : Heap α) (dst src : list)
    (hs : list.wellFormed h src = true) (hd : list.wellFormed h dst = true)
    (hdis : ∀ x ∈ list.nodes h dst, x ∉ list.nodes h src) :
    (list.toList h (list.moveCtor src).1 = list.toList h src ∧
      (list.moveCtor src).1.size = (list.toList h src).length ∧
      list.wellFormed h (list.moveCtor src).1 = true ∧
      (list.moveCtor src).2.size = 0 ∧
      (list.moveCtor src).2.begin = list.end ∧
      (list.moveCtor src).2.pHead = none ∧ (list.moveCtor src).2.pTail = none ∧
      list.toList h (list.moveCtor src).2 = []) ∧
    ∃ h1 d1 s1, list.moveAssign h dst src = .ok (h1, d1, s1) ∧
      list.toList h1 d1 = list.toList h src ∧
      d1.size = (list.toList h src).length ∧
      list.wellFormed h1 d1 = true ∧
      s1.size = 0 ∧ s1.begin = list.end ∧ s1.pHead = none ∧ s1.pTail = none ∧
      list.toList h1 s1 = [] ∧ list.wellFormed h1 s1 = true ∧
      h1.cells.length = h.cells.length := by
  obtain ⟨R, hR⟩ := rep_of_wellFormed (α := α) hs
  obtain ⟨L, hL⟩ := rep_of_wellFormed (α := α) hd
  rw [hL.nodes_eq, hR.nodes_eq] at hdis
  have hlen : src.size = (list.toList h src).length := by
    rw [hR.size_eq, hR.toList_eq, List.length_map]
  constructor
  · have hm : (list.moveCtor src).1 = src := list.eta src
    rw [hm]
    exact ⟨rfl, hlen, hs, rfl, rfl, rfl, rfl, (ListRep.nil h).toList_eq⟩
  · obtain ⟨h1, he, hnil, hlen1, hfr⟩ := hL.clear
    have hR1 : ListRep h1 src R := by
      refine hR.frame (fun c hc => hfr c.1 (fun e he1 hec => ?_))
      exact hdis e.1 (List.mem_map_of_mem Prod.fst he1) (hec ▸ List.mem_map_of_mem Prod.fst hc)
    have hsw1 : (list.swap ⟨0, none, none⟩ src).1 = src := list.eta src
    refine ⟨h1, src, ⟨0, none, none⟩, ?_, ?_, ?_, wellFormed_of_rep hR1, rfl, rfl, rfl, rfl,
      hnil.toList_eq, wellFormed_of_rep hnil, hlen1⟩
    · simp only [list.moveAssign, he, bind, Except.bind, pure, Except.pure, hsw1]
      rfl
    · rw [hR1.toList_eq, hR.toList_eq]
    · exact hlen

/-- Moving the list `1, 2, 3` of `pairHeap` onto the list `5, 6` leaves
`1, 2, 3` in the destination and an empty source. -/
theorem C23_move_transfers_witness :
    list.toList pairHeap pairLong = [1, 2, 3] ∧
    ∃ h1 d1 s1, list.moveAssign pairHeap pairShort pairLong = .ok (h1, d1, s1) ∧
      list.toList h1 d1 = list.toList pairHeap pairLong ∧
      d1.size = (list.toList pairHeap pairLong).length ∧
      list.wellFormed h1 d1 = true ∧
      s1.size = 0 ∧ s1.begin = list.end ∧ s1.pHead = none ∧ s1.pTail = none ∧
      list.toList h1 s1 = [] ∧ list.wellFormed h1 s1 = true ∧
      h1.cells.length = pairHeap.cells.length :=
  ⟨by decide,
   (C23_move_transfers pairHeap pairShort pairLong (by decide) (by decide) (by decide)).2⟩

/-! ## Sequences of pushes and pops -/

theorem popsTaken_eq_pops {α : Type} (ops : List (EndOp α)) :
    ∀ n, neverPopsEmpty ops n = true → popsTaken ops n = pops ops := by
  induction ops with
  | nil => intro n _; rfl
  | cons op ops ih =>
    intro n hn
    cases hp : op.isPush
    · simp only [neverPopsEmpty, hp, Bool.false_eq_true, if_false, Bool.and_eq_true,
        decide_eq_true_eq] at hn
      simp only [popsTaken, pops, hp, Bool.false_eq_true, if_false, if_neg hn.1, ih _ hn.2]
      omega
    · simp only [neverPopsEmpty, hp, if_true] at hn
      simp only [popsTaken, pops, hp, if_true, ih _ hn]
      omega

theorem ListRep.applyOp {α : Type} {h : Heap α} {l : list} {cells : List (Nat × α)}
    (hr : ListRep h l cells) (op : EndOp α)
    (hm : op.isPush = true → h.cells.length + 1 < SIZE_MOD) :
    ∃ h1 l1, list.applyOp h l op = .ok (h1, l1) ∧
      ListRep h1 l1 (op.act h.cells.length cells) ∧
      h1.cells.length = h.cells.length + (if op.isPush then 1 else 0) := by
  cases op with
  | push_back v =>
    obtain ⟨h1, l1, he, hr1, hl, -⟩ := hr.push_back v (hm rfl)
    exact ⟨h1, l1, he, hr1, hl⟩
  | push_front v =>
    obtain ⟨h1, l1, he, hr1, hl, -⟩ := hr.push_front v (hm rfl)
    exact ⟨h1, l1, he, hr1, hl⟩
  | pop_back =>
    obtain ⟨h1, l1, he, hr1, hl, -⟩ := hr.pop_back
    exact ⟨h1, l1, he, hr1, hl⟩
  | pop_front =>
    obtain ⟨h1, l1, he, hr1, hl, -⟩ := hr.pop_front
    exact ⟨h1, l1, he, hr1, hl⟩

theorem applyOp_room {α : Type} {h : Heap α} {l : list} {op : EndOp α}
    {r : Heap α × list} (he : list.applyOp h l op = .ok r) (hp : op.isPush = true) :
    h.cells.length + 1 < SIZE_MOD := by
  by_contra hm
  cases op with
  | push_back v => rw [list.applyOp, push_back_fail h l v hm] at he; cases he
  | push_front v => rw [list.applyOp, push_front_fail h l v hm] at he; cases he
  | pop_back => cases hp
  | pop_front => cases hp

theorem act_length {α : Type} (a : Nat) (op : EndOp α) (cells : List (Nat × α)) :
    (op.act a cells).length =
      if op.isPush then cells.length + 1 else cells.length - 1 := by
  cases op <;> simp [EndOp.act, EndOp.isPush]

theorem ListRep.run {α : Type} (ops : List (EndOp α)) :
    ∀ {h : Heap α} {l : list} {cells : List (Nat × α)}, ListRep h l cells →
      h.cells.length + pushes ops < SIZE_MOD →
      ∃ h1 l1 cells1, list.run ops h l = .ok (h1, l1) ∧ ListRep h1 l1 cells1 ∧
        cells1.length + popsTaken ops cells.length = cells.length + pushes ops := by
  induction ops with
  | nil =>
    intro h l cells hr _
    exact ⟨h, l, cells, rfl, hr, rfl⟩
  | cons op ops ih =>
    intro h l cells hr hm
    simp only [pushes] at hm
    obtain ⟨h1, l1, he, hr1, hl⟩ := hr.applyOp op (fun hp => by rw [hp] at hm; simp at hm; omega)
    have hm1 : h1.cells.length + pushes ops < SIZE_MOD := by rw [hl]; omega
    obtain ⟨h2, l2, cells2, he2, hr2, hc⟩ := ih hr1 hm1
    refine ⟨h2, l2, cells2, ?_, hr2, ?_⟩
    · simp only [list.run, he, bind, Except.bind]
      exact he2
    · rw [act_length] at hc
      cases hp : op.isPush
      · simp only [hp, Bool.false_eq_true, if_false] at hc
        simp only [popsTaken, pushes, hp, Bool.false_eq_true, if_false]
        by_cases h0 : cells.length = 0
        · rw [if_pos h0]; rw [h0] at hc ⊢; simpa using hc
        · rw [if_neg h0]; omega
      · simp only [hp, if_true] at hc
        simp only [popsTaken, pushes, hp, if_true]
        omega

theorem ListRep.run_ok {α : Type} (ops : List (EndOp α)) :
    ∀ {h h1 : Heap α} {l l1 : list} {cells : List (Nat × α)}, ListRep h l cells →
      list.run ops h l = .ok (h1, l1) → ∃ cells1 : List (Nat × α), ListRep h1 l1 cells1 := by
  induction ops with
  | nil =>
    intro h h1 l l1 cells hr he
    simp only [list.run, Except.ok.injEq, Prod.mk.injEq] at he
    obtain ⟨rfl, rfl⟩ := he
    exact ⟨cells, hr⟩
  | cons op ops ih =>
    intro h h1 l l1 cells hr he
    simp only [list.run, bind, Except.bind] at he
    cases hx : list.applyOp h l op with
    | error e => rw [hx] at he; cases he
    | ok r =>
      obtain ⟨h2, l2, he2, hr2, -⟩ := hr.applyOp op (fun hp => applyOp_room hx hp)
      rw [he2] at he
      exact ih hr2 he

/-! ## Forward and backward traversal -/

theorem traverse_of_seg {α : Type} {h : Heap α} {cells : List (Nat × α)} {p : Ptr}
    (hs : seg h p cells none) {fuel : Nat} (hf : cells.length ≤ fuel) :
    list.traverse h fuel ⟨firstPtr cells none⟩ = .ok (cells.map Prod.snd) := by
  induction cells generalizing p fuel with
  | nil => cases fuel <;> simp [firstPtr, list.traverse, list.end]
  | cons c rest ih =>
    cases fuel with
    | zero => simp at hf
    | succ fuel =>
      show list.traverse h (fuel + 1) ⟨some c.1⟩ = _
      have hl := hs.1
      simp only [list.traverse, list.end, ne_eq, list.iterator.mk.injEq, reduceCtorEq,
        not_false_eq_true, if_true, list.iterator.deref, list.iterator.next,
        Heap.deref_ok hl, bind, Except.bind, pure, Except.pure]
      rw [ih hs.2 (by simpa using hf)]
      rfl

theorem rtraverse_of_seg {α : Type} {h : Heap α} {cells : List (Nat × α)} {n : Ptr}
    (hs : seg h none cells n) {fuel : Nat} (hf : cells.length ≤ fuel) :
    list.rtraverse h fuel ⟨lastPtr cells none⟩ = .ok (cells.map Prod.snd).reverse := by
  induction cells using List.reverseRecOn generalizing n fuel with
  | nil => cases fuel <;> simp [lastPtr, list.rtraverse, list.end]
  | append_singleton xs c ih =>
    rw [seg_concat] at hs
    cases fuel with
    | zero => simp at hf
    | succ fuel =>
      rw [lastPtr_append]
      show list.rtraverse h (fuel + 1) ⟨some c.1⟩ = _
      have hl := hs.2
      simp only [list.rtraverse, list.end, ne_eq, list.iterator.mk.injEq, reduceCtorEq,
        not_false_eq_true, if_true, list.iterator.deref, list.iterator.prev,
        Heap.deref_ok hl, bind, Except.bind, pure, Except.pure]
      rw [ih hs.1 (by simpa using hf)]
      simp

theorem ListRep.forwardValues_eq {α : Type} {h : Heap α} {l : list} {cells : List (Nat × α)}
    (hr : ListRep h l cells) : list.forwardValues h l = .ok (cells.map Prod.snd) := by
  unfold list.forwardValues list.begin
  rw [hr.2.2.1]
  exact traverse_of_seg hr.2.2.2.2 (seg_length_le hr.2.2.2.2)

theorem ListRep.backwardValues_eq {α : Type} {h : Heap α} {l : list} {cells : List (Nat × α)}
    (hr : ListRep h l cells) : list.backwardValues h l = .ok (cells.map Prod.snd).reverse := by
  unfold list.backwardValues list.rbegin
  rw [hr.2.2.2.1]
  exact rtraverse_of_seg hr.2.2.2.2 (seg_length_le hr.2.2.2.2)

/-- C24, as stated, fails: on the empty list `pop_back()` followed by
`push_back(7)` leaves `size() == 1`, while the sequence has one push and one
pop. -/
theorem C24_pop_on_empty_counterexample :
    ∃ h1 l1, list.run [EndOp.pop_back, EndOp.push_back 7] (⟨[]⟩ : Heap Nat) list.mk0
        = .ok (h1, l1) ∧
      l1.size = 1 ∧
      pushes [(EndOp.pop_back : EndOp Nat), EndOp.push_back 7] = 1 ∧
      pops [(EndOp.pop_back : EndOp Nat), EndOp.push_back 7] = 1 ∧
      (l1.size : Int) ≠ (pushes [(EndOp.pop_back : EndOp Nat), EndOp.push_back 7] : Int)
        - (pops [(EndOp.pop_back : EndOp Nat), EndOp.push_back 7] : Int) :=
  ⟨_, _, rfl, by decide, by decide, by decide, by decide⟩

/-- C24, amended. For every finite sequence of `push_back`, `push_front`,
`pop_back` and `pop_front` calls applied to an initially empty list, when the
store has room for the nodes pushed, the sequence returns normally and
`size()` afterwards is the number of pushes minus the number of pops that
found the list non-empty; when no pop finds the list empty this is the number
of pushes minus the number of pops. -/
theorem C24_size_counts_calls {α : Type} (h : Heap α) (ops : List (EndOp α))
    (hm : h.cells.length + pushes ops < SIZE_MOD) :
    ∃ h1 l1, list.run ops h list.mk0 = .ok (h1, l1) ∧
      l1.size + popsTaken ops 0 = pushes ops ∧
      (neverPopsEmpty ops 0 = true → l1.size + pops ops = pushes ops) := by
  obtain ⟨h1, l1, cells1, he, hr1, hc⟩ := (ListRep.nil h).run ops hm
  simp only [List.length_nil, Nat.zero_add] at hc
  refine ⟨h1, l1, he, ?_, fun hn => ?_⟩
  · rw [hr1.size_eq]; exact hc
  · rw [hr1.size_eq, ← popsTaken_eq_pops ops 0 hn]; exact hc

/-- Two pushes, a pop and a push on the empty list leave `size() == 2`. -/
theorem C24_size_counts_calls_witness :
    neverPopsEmpty [EndOp.push_back 1, EndOp.push_front 2, EndOp.pop_back, EndOp.push_back 3] 0
      = true ∧
    ∃ h1 l1, list.run [EndOp.push_back 1, EndOp.push_front 2, EndOp.pop_back, EndOp.push_back 3]
        (⟨[]⟩ : Heap Nat) list.mk0 = .ok (h1, l1) ∧
      l1.size + popsTaken
        [EndOp.push_back 1, EndOp.push_front 2, EndOp.pop_back, EndOp.push_back 3] 0 =
        pushes [EndOp.push_back 1, EndOp.push_front 2, EndOp.pop_back, EndOp.push_back 3] ∧
      (neverPopsEmpty
          [EndOp.push_back 1, EndOp.push_front 2, EndOp.pop_back, EndOp.push_back 3] 0 = true →
        l1.size + pops
          [EndOp.push_back 1, EndOp.push_front 2, EndOp.pop_back, EndOp.push_back 3] =
        pushes [EndOp.push_back 1, EndOp.push_front 2, EndOp.pop_back, EndOp.push_back 3]) :=
  ⟨by decide, C24_size_counts_calls ⟨[]⟩ _ (by decide)⟩

/-- C25. For every list reached from the empty list by a sequence of
`push_back`, `push_front`, `pop_back` and `pop_front` calls, forward traversal
(`begin()`, then `++` until `end()`) and backward traversal (`rbegin()`, then
`--` until `end()`) both end, the values visited forward are exactly the
reverse of the values visited backward, and both have length `size()`. -/
theorem C25_forward_reverse_backward {α : Type} (h h1 : Heap α) (l1 : list)
    (ops : List (EndOp α)) (he : list.run ops h list.mk0 = .ok (h1, l1)) :
    ∃ f b, list.forwardValues h1 l1 = .ok f ∧ list.backwardValues h1 l1 = .ok b ∧
      f = b.reverse ∧ f.length = l1.size ∧ b.length = l1.size ∧
      f = list.toList h1 l1 := by
  obtain ⟨cells, hr⟩ := (ListRep.nil h).run_ok ops he
  refine ⟨_, _, hr.forwardValues_eq, hr.backwardValues_eq, ?_, ?_, ?_, hr.toList_eq.symm⟩
  · simp
  · rw [hr.size_eq]; simp
  · rw [hr.size_eq]; simp

/-- After `push_back(1)`, `push_front(2)`, `pop_back()`, `push_back(3)` on the
empty list, forward traversal visits `2, 3` and backward traversal `3, 2`. -/
theorem C25_forward_reverse_backward_witness :
    ∃ h1 l1, list.run [EndOp.push_back 1, EndOp.push_front 2, EndOp.pop_back, EndOp.push_back 3]
        (⟨[]⟩ : Heap Nat) list.mk0 = .ok (h1, l1) ∧
      list.forwardValues h1 l1 = .ok [2, 3] ∧ list.backwardValues h1 l1 = .ok [3, 2] ∧
      ∃ f b, list.forwardValues h1 l1 = .ok f ∧ list.backwardValues h1 l1 = .ok b ∧
        f = b.reverse ∧ f.length = l1.size ∧ b.length = l1.size ∧
        f = list.toList h1 l1 :=
  ⟨_, _, rfl, rfl, rfl,
    C25_forward_reverse_backward ⟨[]⟩ _ _
      [EndOp.push_back 1, EndOp.push_front 2, EndOp.pop_back, EndOp.push_back 3] rfl⟩

/-! ## The fill constructor -/

theorem fillLoop_spec {α : Type} (t : α) :
    ∀ (k : Nat) (h : Heap α) (init : List (Nat × α)) (c : Nat × α),
      seg h none (init ++ [c]) none → h.cells.length + k < SIZE_MOD →
      ∃ h1 news, list.fillLoop t k h (some c.1) (some c.1)
          = .ok (h1, lastPtr (init ++ [c] ++ news) none) ∧
        seg h1 none (init ++ [c] ++ news) none ∧
        news.map Prod.snd = List.replicate k t ∧
        h1.cells.length = h.cells.length + k := by
  intro k
  induction k with
  | zero =>
    intro h init c hs _
    refine ⟨h, [], ?_, by simpa using hs, rfl, rfl⟩
    simp [list.fillLoop, lastPtr_append, lastPtr]
  | succ k ih =>
    intro h init c hs hm
    obtain ⟨h0, a, hnew⟩ : ∃ h0 a, h.new t = some (h0, a) :=
      ⟨_, _, Heap.new_ok h t (by omega)⟩
    obtain ⟨rfl, -, hlen0, hla, hfr⟩ := Heap.new_spec hnew
    have hs0 := hs
    rw [seg_concat] at hs
    obtain ⟨hsi, hlc⟩ := hs
    have hnd := seg_nodup hs0
    have hclt : c.1 < h.cells.length := Heap.lookup_lt hlc
    have hcne : c.1 ≠ h.cells.length := by omega
    have h0c : h0.lookup c.1 = some ⟨c.2, none, lastPtr init none⟩ := by rw [hfr _ hcne, hlc]
    have e1 : (h0.upd h.cells.length ⟨t, none, some c.1⟩).lookup c.1
        = some ⟨c.2, none, lastPtr init none⟩ := by
      rw [Heap.lookup_upd_ne _ _ hcne, h0c]
    have e2 : (h0.upd h.cells.length ⟨t, none, some c.1⟩).lookup h.cells.length
        = some ⟨t, none, some c.1⟩ := Heap.lookup_upd_same _ hla
    have hfi : ∀ d ∈ init, ((h0.upd h.cells.length ⟨t, none, some c.1⟩).upd c.1
        ⟨c.2, some h.cells.length, lastPtr init none⟩).lookup d.1 = h.lookup d.1 := by
      intro d hd
      have hd1 : d.1 ≠ c.1 := by
        intro he
        rw [List.map_append, List.nodup_append] at hnd
        exact hnd.2.2 (List.mem_map_of_mem _ hd) (by simp [he])
      have hd2 : d.1 ≠ h.cells.length := Nat.ne_of_lt (seg_mem_lt hsi hd)
      rw [Heap.lookup_upd_ne _ _ hd1, Heap.lookup_upd_ne _ _ hd2, hfr _ hd2]
    have hs3 : seg ((h0.upd h.cells.length ⟨t, none, some c.1⟩).upd c.1
        ⟨c.2, some h.cells.length, lastPtr init none⟩) none
        ((init ++ [c]) ++ [(h.cells.length, t)]) none := by
      rw [seg_concat, seg_concat]
      refine ⟨⟨seg_frame hsi hfi, Heap.lookup_upd_same _ e1⟩, ?_⟩
      rw [Heap.lookup_upd_ne _ _ (Ne.symm hcne), e2]
      simp [lastPtr_append, lastPtr]
    obtain ⟨h1, news, he, hs1, hsnd, hlen1⟩ :=
      ih _ (init ++ [c]) (h.cells.length, t) hs3
        (by simp only [Heap.length_upd, hlen0]; omega)
    refine ⟨h1, (h.cells.length, t) :: news, ?_, ?_, ?_, ?_⟩
    · simp only [list.fillLoop, cassert, bne_iff_ne, ne_eq, reduceCtorEq, not_false_eq_true,
        decide_True, if_true, hnew, Heap.setPrev_ok _ hla, Heap.deref_ok e2,
        Heap.setNext_ok _ e1, bind, Except.bind]
      rw [he]
      simp
    · simpa using hs1
    · simp [hsnd, List.replicate_succ]
    · rw [hlen1]; simp only [Heap.length_upd, hlen0]; omega

theorem ListRep.fill {α : Type} (h : Heap α) (num : Nat) (t : α)
    (hm : h.cells.length + num < SIZE_MOD) :
    ∃ h1 l1 cells, list.fill h num t = .ok (h1, l1) ∧ ListRep h1 l1 cells ∧
      cells.map Prod.snd = List.replicate num t := by
  cases num with
  | zero => exact ⟨h, ⟨0, none, none⟩, [], rfl, ListRep.nil h, rfl⟩
  | succ k =>
    obtain ⟨h0, a, hnew⟩ : ∃ h0 a, h.new t = some (h0, a) :=
      ⟨_, _, Heap.new_ok h t (by omega)⟩
    obtain ⟨rfl, -, hlen0, hla, hfr⟩ := Heap.new_spec hnew
    have hs2 : seg (h0.upd h.cells.length ⟨t, none, none⟩) none
        (([] : List (Nat × α)) ++ [(h.cells.length, t)]) none := by
      simp [seg, firstPtr, Heap.lookup_upd_same _ hla]
    obtain ⟨h3, news, he, hs3, hsnd, hlen3⟩ :=
      fillLoop_spec t k _ [] (h.cells.length, t) hs2
        (by simp only [Heap.length_upd, hlen0]; omega)
    obtain ⟨init, z, hz⟩ : ∃ init z, ([] ++ [(h.cells.length, t)] ++ news) = init ++ [z] := by
      rcases eq_nil_or_snoc ([] ++ [(h.cells.length, t)] ++ news) with hnil | hsn
      · simp at hnil
      · exact hsn
    rw [hz] at he hs3
    have hlz := ((seg_concat h3 init z none none).1 hs3).2
    have hlast : lastPtr (init ++ [z]) none = some z.1 := by
      rw [lastPtr_append]; rfl
    rw [hlast] at he
    have hs4 : seg (h3.upd z.1 ⟨z.2, none, lastPtr init none⟩) none (init ++ [z]) none :=
      seg_frame hs3 (fun d _ => Heap.lookup_upd_self hlz d.1)
    have hlen : (init ++ [z]).length = k + 1 := by
      rw [← hz, ← List.length_map _ Prod.snd]
      simp [hsnd]
    have hfirst : firstPtr (init ++ [z]) none = some h.cells.length := by
      rw [← hz]; rfl
    refine ⟨h3.upd z.1 ⟨z.2, none, lastPtr init none⟩,
      ⟨k + 1, some h.cells.length, some z.1⟩, init ++ [z], ?_, ?_, ?_⟩
    · simp only [list.fill, ne_eq, Nat.add_one_ne_zero, not_false_eq_true, if_true, hnew,
        Heap.setPrev_ok _ hla, Nat.add_sub_cancel, he, Heap.setNext_ok _ hlz,
        bind, Except.bind, pure, Except.pure]
    · exact ⟨hlen.symm, by rw [hlen]; omega, hfirst.symm, hlast.symm, hs4⟩
    · rw [← hz]; simp [hsnd, List.replicate_succ]

/-- C26. For every count `n` and value `v`, when the store has room for `n`
nodes, the fill constructor `list(n, v)` returns a well-formed list of size
`n` whose contents are `n` copies of `v`; for `n ≥ 2` one `pop_front()` then
leaves `size() == n - 1` and `front()` returns `v`. -/
theorem C26_fill_then_pop {α : Type} (h : Heap α) (n : Nat) (v : α)
    (hm : h.cells.length + n < SIZE_MOD) :
    ∃ h1 l1, list.fill h n v = .ok (h1, l1) ∧
      list.wellFormed h1 l1 = true ∧ l1.size = n ∧
      list.toList h1 l1 = List.replicate n v ∧
      (∀ x ∈ list.toList h1 l1, x = v) ∧
      (2 ≤ n → ∃ h2 l2, list.pop_front h1 l1 = .ok (h2, l2) ∧
        l2.size = n - 1 ∧ list.front h2 l2 = .ok (h2, l2, v) ∧
        list.toList h2 l2 = List.replicate (n - 1) v) := by
  obtain ⟨h1, l1, cells, he, hr, hsnd⟩ := ListRep.fill h n v hm
  have hlen : cells.length = n := by
    rw [← List.length_map cells Prod.snd, hsnd, List.length_replicate]
  refine ⟨h1, l1, he, wellFormed_of_rep hr, ?_, ?_, ?_, ?_⟩
  · rw [hr.size_eq, hlen]
  · rw [hr.toList_eq, hsnd]
  · intro x hx
    rw [hr.toList_eq, hsnd] at hx
    exact List.eq_of_mem_replicate hx
  · intro hn
    obtain ⟨h2, l2, he2, hr2, -, -⟩ := hr.pop_front
    have htl : (cells.tail).map Prod.snd = List.replicate (n - 1) v := by
      rw [List.map_tail, hsnd, List.tail_replicate]
    refine ⟨h2, l2, he2, ?_, ?_, ?_⟩
    · rw [hr2.size_eq, List.length_tail, hlen]
    · cases hc : cells.tail with
      | nil =>
        have := congrArg List.length hc
        rw [List.length_tail, hlen] at this
        simp at this
        omega
      | cons c rest =>
        rw [hc] at hr2 htl
        have hcv : c.2 = v := by
          have hmem : c.2 ∈ List.replicate (n - 1) v := by
            rw [← htl]; simp
          exact List.eq_of_mem_replicate hmem
        rw [← hcv]
        exact hr2.front_cons
    · rw [hr2.toList_eq, htl]

/-- Three copies of `7`, one `pop_front()`: `front()` returns `7` and
`size() == 2`. -/
theorem C26_fill_then_pop_witness :
    (∃ h1 l1 h2 l2, list.fill (⟨[]⟩ : Heap Nat) 3 7 = .ok (h1, l1) ∧
      list.pop_front h1 l1 = .ok (h2, l2) ∧
      list.front h2 l2 = .ok (h2, l2, 7) ∧ l2.size = 2) ∧
    ∃ h1 l1, list.fill (⟨[]⟩ : Heap Nat) 3 7 = .ok (h1, l1) ∧
      list.wellFormed h1 l1 = true ∧ l1.size = 3 ∧
      list.toList h1 l1 = List.replicate 3 7 ∧
      (∀ x ∈ list.toList h1 l1, x = 7) ∧
      (2 ≤ 3 → ∃ h2 l2, list.pop_front h1 l1 = .ok (h2, l2) ∧
        l2.size = 3 - 1 ∧ list.front h2 l2 = .ok (h2, l2, 7) ∧
        list.toList h2 l2 = List.replicate (3 - 1) 7) :=
  ⟨⟨_, _, _, _, rfl, rfl, rfl, rfl⟩, C26_fill_then_pop ⟨[]⟩ 3 7 (by decide)⟩

/-- C27. In the set holding `3, 13, 23` in bucket 3, take the iterator at the
last element `23`: `(buckets + 3, buckets + 10, node of 23)`. Prefix `++` moves
it to `(buckets + 4, buckets + 10, null)`; postfix `++` moves it to
`(buckets + 3, buckets + 10, null)` and returns that new state, not the state
from before the advance. -/
theorem C27_postfix_differs :
    unordered_set.iterator.next heap3 ⟨some 3, some 10, ⟨some 2⟩⟩
      = .ok ⟨some 4, some 10, ⟨none⟩⟩ ∧
    unordered_set.iterator.postInc heap3 ⟨some 3, some 10, ⟨some 2⟩⟩
      = .ok (⟨some 3, some 10, ⟨none⟩⟩, ⟨some 3, some 10, ⟨none⟩⟩) ∧
    (⟨some 3, some 10, ⟨none⟩⟩ : unordered_set.iterator) ≠ ⟨some 4, some 10, ⟨none⟩⟩ ∧
    (⟨some 3, some 10, ⟨none⟩⟩ : unordered_set.iterator) ≠ ⟨some 3, some 10, ⟨some 2⟩⟩ :=
  ⟨rfl, rfl, by decide, by decide⟩

theorem ListRep.deref_mem {α : Type} {h : Heap α} {l : list} {cells : List (Nat × α)}
    (hr : ListRep h l cells) {c : Nat × α} (hc : c ∈ cells) :
    list.iterator.deref h ⟨some c.1⟩ = .ok c.2 := by
  obtain ⟨nd, hl, hd⟩ := seg_lookup hr.2.2.2.2 hc
  simp [list.iterator.deref, Heap.deref_ok hl, bind, Except.bind, pure, Except.pure, hd]

/-- C28. For every well-formed list with contents `xs` and every position
designating the node at an index `i` whose value is `v`, when the store has
room for a node, `erase(position)` returns normally and `insert` of `v` at the
iterator it returned restores the contents `xs` and the original `size()`,
leaves the list well formed and returns an iterator that dereferences to
`v`; this covers the first, the last and the only element. -/
theorem C28_erase_insert_roundtrip {α : Type} (h : Heap α) (l : list) (i : Nat)
    (it : list.iterator) (v : α) (hw : list.wellFormed h l = true)
    (hv : (list.toList h l)[i]? = some v) (hit : it.p = (list.nodes h l)[i]?)
    (hm : h.cells.length + 1 < SIZE_MOD) :
    ∃ h1 l1 it1 h2 l2 it2, list.erase h l it = .ok (h1, l1, it1) ∧
      list.insert h1 l1 it1 v = .ok (h2, l2, it2) ∧
      list.toList h2 l2 = list.toList h l ∧ l2.size = l.size ∧
      list.wellFormed h2 l2 = true ∧ it2.deref h2 = .ok v := by
  obtain ⟨cells, hr⟩ := rep_of_wellFormed (α := α) hw
  rw [hr.toList_eq] at hv ⊢
  rw [hr.nodes_eq] at hit
  have hi : i < cells.length := by
    by_contra hge
    rw [List.getElem?_eq_none (by simpa using hge)] at hv
    cases hv
  obtain ⟨pre, c, post, rfl, rfl⟩ := cells_split cells i hi
  rw [getElem?_map_left] at hit hv
  simp only [List.map_cons, List.getElem?_cons_zero, Option.some.injEq] at hit hv
  have hit2 := iterator_eq_of_p hit
  subst hit2
  obtain ⟨h1, l1, he, hr1, hlen1, -⟩ := hr.erase
  have hm1 : h1.cells.length + 1 < SIZE_MOD := by rw [hlen1]; exact hm
  have hsz : l.size = pre.length + post.length + 1 := by
    rw [hr.size_eq]; simp; omega
  cases post with
  | nil =>
    rw [List.append_nil] at hr1
    obtain ⟨h2, l2, he2, hr2, -, -⟩ := hr1.insert_end v hm1
    refine ⟨h1, l1, _, h2, l2, _, he, he2, ?_, ?_, wellFormed_of_rep hr2, ?_⟩
    · rw [hr2.toList_eq]; simp [hv]
    · rw [hr2.size_eq, hsz]; simp
    · exact hr2.deref_mem (c := (h1.cells.length, v)) (by simp)
  | cons d post1 =>
    obtain ⟨h2, l2, he2, hr2, -, -⟩ := hr1.insert_at v hm1
    refine ⟨h1, l1, _, h2, l2, _, he, he2, ?_, ?_, wellFormed_of_rep hr2, ?_⟩
    · rw [hr2.toList_eq]; simp [hv]
    · rw [hr2.size_eq, hsz]; simp; omega
    · exact hr2.deref_mem (c := (h1.cells.length, v)) (by simp)

/-- On the two-element sample list `7, 8`, erasing the first element and
inserting `7` at the returned iterator gives `7, 8` again. -/
theorem C28_erase_insert_roundtrip_witness :
    list.toList sampleHeap sampleList = [7, 8] ∧
    ∃ h1 l1 it1 h2 l2 it2, list.erase sampleHeap sampleList ⟨some 0⟩ = .ok (h1, l1, it1) ∧
      list.insert h1 l1 it1 7 = .ok (h2, l2, it2) ∧
      list.toList h2 l2 = list.toList sampleHeap sampleList ∧ l2.size = sampleList.size ∧
      list.wellFormed h2 l2 = true ∧ it2.deref h2 = .ok 7 :=
  ⟨by decide, C28_erase_insert_roundtrip sampleHeap sampleList 0 ⟨some 0⟩ 7
    (by decide) (by decide) (by decide) (by decide)⟩

end custom
